import Mathlib

/-!
Magic squares: a shallow embedding of `main.go`.

Arbitrary-precision integers (`*big.Int`) are `Int`; the conversion
`Int64()` of a size to a machine integer is `Int64`, which wraps outside
[-2^63, 2^63).  A Go run-time panic (index out of range, nil dereference,
negative length, `rand.Int` on an empty range) is the `none` of `Option` for
the verifier and the constructor, and the `fault` outcome for the population
routines.  The random
source is a parameter: a run of a population routine is a function of the
outcomes of the successive calls of `rand.Int`, and a run whose retry loop
outlasts the given outcomes is `pending`.  The verifier is embedded twice: on
the values of the cells, and on a store of integers where the cells are
addresses and the accumulators of the method are allocated objects.
-/

namespace MagicSquares

/-- The grid `[][]*big.Int`: a slice of rows.  Every cell is an allocated
integer, as `NewMagicSquare` leaves it, and no two cells share one. -/
abbrev Grid := List (List Int)

/-- Go's `error` values, identified by their message. -/
abbrev Error := String

/-- The struct `MagicSquare`. -/
structure MagicSquare where
  size : Int
  square : Grid
  unique : Bool
  power : Int
deriving DecidableEq, Repr

/-- The read `sq[i][j]` with a natural row index and an integer column
index; `none` is the index-out-of-range panic. -/
def cell (sq : Grid) (i : Nat) (j : Int) : Option Int :=
  if j < 0 then none
  else
    match sq.get? i with
    | none => none
    | some row => row.get? j.toNat

/-- The accumulation loop `for k ... { acc.Add(acc, f k) }` over the index
list `ks`; it faults as soon as one read faults. -/
def sumLoop (f : Nat → Option Int) : List Nat → Int → Option Int
  | [], acc => some acc
  | k :: ks, acc =>
    match f k with
    | none => none
    | some v => sumLoop f ks (acc + v)

/-- The row check of `IsMagic` (lines 143-151): for each row index of `is`
the row is summed from zero and compared with `sum`; `some false` is the early
`return false`, `some true` means the loop ran to its end. -/
def checkRows (sq : Grid) (n : Nat) (sum : Int) : List Nat → Option Bool
  | [] => some true
  | i :: is =>
    match sumLoop (fun j => cell sq i j) (List.range n) 0 with
    | none => none
    | some tempSum => if tempSum ≠ sum then some false else checkRows sq n sum is

/-- The column check of `IsMagic` (lines 154-162). -/
def checkCols (sq : Grid) (n : Nat) (sum : Int) : List Nat → Option Bool
  | [] => some true
  | j :: js =>
    match sumLoop (fun i => cell sq i j) (List.range n) 0 with
    | none => none
    | some tempSum => if tempSum ≠ sum then some false else checkCols sq n sum js

/-- The diagonal loop of `IsMagic` (lines 167-170): both accumulators are
advanced in the same iteration, the main diagonal first. -/
def diagLoop (sq : Grid) (size : Int) : List Nat → Int × Int → Option (Int × Int)
  | [], acc => some acc
  | i :: is, acc =>
    match cell sq i i with
    | none => none
    | some x =>
      match cell sq i (size - i - 1) with
      | none => none
      | some y => diagLoop sq size is (acc.1 + x, acc.2 + y)

/-- The method `IsMagic` (lines 131-173).  The method compares `ms.size` with
0 and with the loop counters as a machine integer; it is read here as the
integer value of the size field. -/
def IsMagic (ms : MagicSquare) : Option Bool :=
  if ms.size = 0 then some false
  else
    let n := ms.size.toNat
    match sumLoop (fun j => cell ms.square 0 j) (List.range n) 0 with
    | none => none
    | some sum =>
      match checkRows ms.square n sum (List.range' 1 (n - 1)) with
      | none => none
      | some false => some false
      | some true =>
        match checkCols ms.square n sum (List.range n) with
        | none => none
        | some false => some false
        | some true =>
          match diagLoop ms.square ms.size (List.range n) (0, 0) with
          | none => none
          | some (mainDiag, antiDiag) => some (mainDiag == sum && antiDiag == sum)

/-- The Lo Shu square. -/
def loShu : MagicSquare :=
  { size := 3, square := [[4, 9, 2], [3, 5, 7], [8, 1, 6]], unique := true, power := 1 }

/-! ## The magic property, in the words of the specification -/

/-- The grid is `N × N` for `N = size`. -/
def WellFormed (ms : MagicSquare) : Prop :=
  0 ≤ ms.size ∧ ms.square.length = ms.size.toNat ∧
    ∀ row ∈ ms.square, row.length = ms.size.toNat

instance (ms : MagicSquare) : Decidable (WellFormed ms) := by
  unfold WellFormed; infer_instance

/-- The value of the cell in row `i`, column `j` (zero outside the grid). -/
def entry (sq : Grid) (i j : Nat) : Int := (sq.getD i []).getD j 0

/-- Sum of row `i` over the columns below `n`. -/
def rowTotal (sq : Grid) (n i : Nat) : Int := ((List.range n).map (fun j => entry sq i j)).sum

/-- Sum of column `j` over the rows below `n`. -/
def colTotal (sq : Grid) (n j : Nat) : Int := ((List.range n).map (fun i => entry sq i j)).sum

/-- Sum of the cells with row index = column index. -/
def mainDiagTotal (sq : Grid) (n : Nat) : Int := ((List.range n).map (fun i => entry sq i i)).sum

/-- Sum of the cells with column index = `n - 1 -` row index. -/
def antiDiagTotal (sq : Grid) (n : Nat) : Int :=
  ((List.range n).map (fun i => entry sq i (n - 1 - i))).sum

/-- Every row sum, every column sum and both diagonal sums equal the sum of
row 0. -/
def AllSumsEqual (ms : MagicSquare) : Prop :=
  (∀ i < ms.size.toNat, rowTotal ms.square ms.size.toNat i = rowTotal ms.square ms.size.toNat 0) ∧
  (∀ j < ms.size.toNat, colTotal ms.square ms.size.toNat j = rowTotal ms.square ms.size.toNat 0) ∧
  mainDiagTotal ms.square ms.size.toNat = rowTotal ms.square ms.size.toNat 0 ∧
  antiDiagTotal ms.square ms.size.toNat = rowTotal ms.square ms.size.toNat 0

instance (ms : MagicSquare) : Decidable (AllSumsEqual ms) := by
  unfold AllSumsEqual; infer_instance

/-- The grid with the cell in row `i`, column `j` replaced by `v`. -/
def updateCell (sq : Grid) (i j : Nat) (v : Int) : Grid :=
  sq.set i ((sq.getD i []).set j v)

/-- The write `sq[i][j].Set(v)`; `none` is the index-out-of-range panic.
The indices of the source are conversions `i.Int64()` of counters that count
up from 0; a slice has fewer than 2^63 entries, so a counter that lies inside
the slice is its own conversion. -/
def writeCell (sq : Grid) (i j : Nat) (v : Int) : Option Grid :=
  match sq.get? i with
  | none => none
  | some row => if j < row.length then some (updateCell sq i j v) else none

/-! ## Random generation and random population -/

/-- What a call that can fail or panic comes to: a value, a returned error,
or a run-time panic. -/
inductive Outcome where
  | ok (v : Int)
  | error (err : Error)
  | panic
deriving DecidableEq, Repr

/-- One call `rand.Int(rand.Reader, max)` of the library, as a function of
`max`.  The library panics exactly when `max ≤ 0`; otherwise the call returns
a value or the reader's error.  The rest of the library's contract, that a
returned value lies in `[0, max)`, is a hypothesis of the theorems that need it
(`InRange`). -/
structure RandCall where
  call : Int → Outcome
  panic_iff : ∀ max : Int, call max = .panic ↔ max ≤ 0

instance : CoeFun RandCall (fun _ => Int → Outcome) := ⟨RandCall.call⟩

/-- The library's contract for one call at the given `max`. -/
def InRange (rnd : RandCall) (max : Int) : Prop :=
  ∀ r, rnd max = .ok r → 0 ≤ r ∧ r < max

/-- The function `GenerateRandomBigInt` (lines 29-40), for one call of the
random source.  A panic of `rand.Int` (line 31, when
`upperBound - lowerBound + 1 ≤ 0`) ends the function.
`Exp(randNum, power, nil)` is only reached with `power > 1`, where it is the
exact power. -/
def GenerateRandomBigInt (rnd : RandCall) (lowerBound upperBound power : Int) : Outcome :=
  let diff := upperBound - lowerBound
  match rnd (diff + 1) with
  | .panic => .panic
  | .error err => .error err
  | .ok randNum =>
    let randNum := randNum + lowerBound
    if power > 1 then .ok (randNum ^ power.toNat) else .ok randNum

/-- State of a population run: the grid, the keys of `usedNumbers` (the map
is keyed by the decimal rendering, which is one-to-one on integers, and only
ever stores `true`), the number of calls made to the random source, and the
position of the loops: the cells still to fill, in the order the loops visit
them, the first one being the cell of the running retry loop. -/
structure PopState where
  square : Grid
  used : List Int
  calls : Nat
  todo : List (Nat × Nat)
deriving DecidableEq, Repr

/-- How a population run stands once the given outcomes of the random source
are consumed: `done` is `return nil`, `failed` is `return err`, `fault` is a
run-time panic (index out of range, or the panic of `rand.Int`), and `pending`
means that the outcomes are used up while a retry loop is still running. -/
inductive Run where
  | done (s : PopState)
  | failed (err : Error) (s : PopState)
  | fault (s : PopState)
  | pending (s : PopState)
deriving DecidableEq, Repr

/-- The state a run stands in. -/
def Run.state : Run → PopState
  | .done s => s
  | .failed _ s => s
  | .fault s => s
  | .pending s => s

/-- The cells in the order the loops `for i { for j { ... } }` visit them. -/
def cellOrder (n : Nat) : List (Nat × Nat) :=
  List.product (List.range n) (List.range n)

/-- The loops of `PopulateSquareRandom` (lines 46-60), one call of the random
source per step.  A value is accepted when uniqueness is off or the value is
not a key of `usedNumbers`; it is then stored in the current cell and recorded,
and the loops move to the next cell.  Otherwise the retry loop calls the
source again for the same cell. -/
def populateLoop (unique : Bool) (lowerBound upperBound power : Int) :
    List RandCall → PopState → Run
  | [], s =>
    match s.todo with
    | [] => .done s
    | _ :: _ => .pending s
  | rnd :: rnds, s =>
    match s.todo with
    | [] => .done s
    | (i, j) :: rest =>
      match GenerateRandomBigInt rnd lowerBound upperBound power with
      | .panic => .fault { s with calls := s.calls + 1 }
      | .error err => .failed err { s with calls := s.calls + 1 }
      | .ok num =>
        if !unique || !(decide (num ∈ s.used)) then
          match writeCell s.square i j num with
          | none => .fault { s with calls := s.calls + 1 }
          | some sq =>
            populateLoop unique lowerBound upperBound power rnds
              { square := sq, used := s.used.insert num, calls := s.calls + 1, todo := rest }
        else
          populateLoop unique lowerBound upperBound power rnds { s with calls := s.calls + 1 }

/-- The method `PopulateSquareRandom` (lines 43-62) run on the outcomes
`rnds` of the successive calls of the random source. -/
def PopulateSquareRandom (ms : MagicSquare) (rnds : List RandCall)
    (lowerBound upperBound : Int) : Run :=
  populateLoop ms.unique lowerBound upperBound ms.power rnds
    { square := ms.square, used := [], calls := 0, todo := cellOrder ms.size.toNat }

/-- The grid after the writes `ws`, applied in order. -/
def applyWrites (sq : Grid) : List ((Nat × Nat) × Int) → Grid
  | [] => sq
  | (p, v) :: ws => applyWrites (updateCell sq p.1 p.2 v) ws

/-- The position `p` lies inside the grid. -/
def InBounds (sq : Grid) (p : Nat × Nat) : Prop :=
  p.1 < sq.length ∧ p.2 < (sq.getD p.1 []).length

/-- A source call that yields the value `r`. -/
def yield (r : Int) : RandCall where
  call := fun max => if max ≤ 0 then .panic else .ok r
  panic_iff := by
    intro max
    by_cases h : max ≤ 0 <;> simp [h]

/-- A source call that fails with the error `e`. -/
def broken (e : Error) : RandCall where
  call := fun max => if max ≤ 0 then .panic else .error e
  panic_iff := by
    intro max
    by_cases h : max ≤ 0 <;> simp [h]

/-- The 2 × 2 grid of zeros with uniqueness on and power 1. -/
def zeros2 : MagicSquare :=
  { size := 2, square := [[0, 0], [0, 0]], unique := true, power := 1 }

/-! ## Construction -/

/-- The value of a 64-bit two's complement machine integer that an integer
is reduced to: the representative of `x` modulo 2^64 in [-2^63, 2^63). -/
def wrap64 (x : Int) : Int := (x + 2 ^ 63) % 2 ^ 64 - 2 ^ 63

/-- The conversion `x.Int64()` of the library: the low 64 bits of the
absolute value of `x`, read as an `int64`, and negated, as an `int64`, for a
negative `x`.  For `x` in [-2^63, 2^63) it is `x`; outside, the value wraps. -/
def Int64 (x : Int) : Int :=
  let v := wrap64 ((x.natAbs % 2 ^ 64 : Nat) : Int)
  if x < 0 then wrap64 (-v) else v

/-- The constructor `NewMagicSquare` (lines 17-26).  The lengths are
`size.Int64()`; `make` panics on a negative length (`none`); otherwise each of
the rows receives fresh integers, which are zero.  The size field is the
integer given, whatever `size.Int64()` is.  (A length beyond the addressable
memory, on which `make` panics as well, is not modelled.) -/
def NewMagicSquare (size : Int) (unique : Bool) (power : Int) : Option MagicSquare :=
  if Int64 size < 0 then none
  else
    some
      { size := size
        square :=
          (List.range (Int64 size).toNat).map
            (fun _ => (List.range (Int64 size).toNat).map (fun _ => 0))
        unique := unique
        power := power }

/-! ## Transposition and the order of filling -/

/-- The transpose over the indices below `n`: the cell in row `i`, column
`j` holds the cell in row `j`, column `i` of `sq`. -/
def transposeGrid (sq : Grid) (n : Nat) : Grid :=
  (List.range n).map (fun i => (List.range n).map (fun j => entry sq j i))

/-- The square with its grid transposed. -/
def transposeSquare (ms : MagicSquare) : MagicSquare :=
  { ms with square := transposeGrid ms.square ms.size.toNat }

/-- The values of the stream `vals` that the loops of `PopulateSquareRandom`
store, in order, starting with the keys `used`: with uniqueness on a value
that is already a key is passed over, every other value is stored and becomes
a key. -/
def accepted (unique : Bool) (used : List Int) : List Int → List Int
  | [] => []
  | v :: vs =>
    if unique && decide (v ∈ used) then accepted unique used vs
    else v :: accepted unique (used.insert v) vs

/-- The pairwise distinct values of a list in order of first occurrence:
each value is kept where it occurs first and removed further on. -/
def firstOccurrences : List Int → List Int
  | [] => []
  | v :: vs => v :: (firstOccurrences vs).filter (fun w => decide (w ≠ v))

/-- The cells of the grid read in row-major order. -/
def readCells (sq : Grid) (n : Nat) : List Int :=
  (cellOrder n).map (fun p => entry sq p.1 p.2)

/-- A source call whose outcome is the generation of the value `v`. -/
def Generates (lb ub power : Int) (rnd : RandCall) (v : Int) : Prop :=
  GenerateRandomBigInt rnd lb ub power = .ok v

/-! ## Determined population -/

/-- State of a run of `PopulateSquareDetermined`: the grid, the keys of
`usedNumbers`, the accumulator `rowSum`, the slice `tempColSums` (an entry
that was never assigned is the nil pointer, `none`; the slice is empty before
its allocation) and the number of calls made to the random source. -/
structure DetState where
  square : Grid
  used : List Int
  rowSum : Int
  tempColSums : List (Option Int)
  calls : Nat
deriving DecidableEq, Repr

/-- How a run of `PopulateSquareDetermined` stands once the given outcomes of
the random source are consumed: `done` is `return nil`, `failed` is a returned
error, `fault` is a run-time panic (index out of range, nil dereference,
negative length, or the panic of `rand.Int`), and `pending` means that the
outcomes are used up while a loop is still calling the source. -/
inductive DetRun where
  | done (s : DetState)
  | failed (err : Error) (s : DetState)
  | fault (s : DetState)
  | pending (s : DetState)
deriving DecidableEq, Repr

/-- The state a run stands in. -/
def DetRun.state : DetRun → DetState
  | .done s => s
  | .failed _ s => s
  | .fault s => s
  | .pending s => s

/-- The message of the error of lines 123-125. -/
def nonUniqueFill : Error := "Failed to populate unique square with unique numbers"

/-- The final check (lines 122-127): with uniqueness on, the number of keys
of `usedNumbers` is compared with the product
`ms.size.Int64() * ms.size.Int64()`, a product of `int64` values, which wraps.
(`int64(len(usedNumbers))` is the number of keys: a length is below 2^63.) -/
def uniqueCheck (unique : Bool) (used : List Int) (size : Int) : Option Error :=
  if unique then
    if (used.length : Int) < wrap64 (Int64 size * Int64 size) then some nonUniqueFill else none
  else none

/-- The calls of the fill loop of a cell outside the last row and column
(lines 106-117), once the comparison of line 100 is passed: every iteration
calls the source until a value is not a key, records it, and starts over; no
cell is written and the loop is left only by `return err`. -/
def interiorSpin (lowerBound upperBound power : Int) : List RandCall → DetState → DetRun
  | [], s => .pending s
  | rnd :: rnds, s =>
    match GenerateRandomBigInt rnd lowerBound upperBound power with
    | .panic => .fault { s with calls := s.calls + 1 }
    | .error err => .failed err { s with calls := s.calls + 1 }
    | .ok num =>
      if num ∈ s.used then
        interiorSpin lowerBound upperBound power rnds { s with calls := s.calls + 1 }
      else
        interiorSpin lowerBound upperBound power rnds
          { s with used := s.used.insert num, calls := s.calls + 1 }

/-- The fill loop of a cell outside the last row and column, in column `j`
(lines 97-118).  `rowSum.Cmp(tempColSums[j])` dereferences its argument: on a
nil entry it faults.  `newUpperBound` is computed and never used. -/
def interiorLoop (lowerBound upperBound power : Int) (rnds : List RandCall) (s : DetState)
    (j : Nat) : DetRun :=
  match s.tempColSums.get? j with
  | none => .fault s
  | some none => .fault s
  | some (some _) => interiorSpin lowerBound upperBound power rnds s

/-- The loops of lines 88-121 over the cells still to visit, followed by the
final check.  `tempRowSum` is set to zero at the start of each row and never
changed, so it is zero wherever it is read.  A cell of the last row or last
column receives `rowSum - tempRowSum`, then `tempColSums[j].Add(...)`
dereferences its receiver: on a nil entry it faults, after the write. -/
def fillLoop (unique : Bool) (size lowerBound upperBound power : Int) (rnds : List RandCall) :
    List (Nat × Nat) → DetState → DetRun
  | [], s =>
    match uniqueCheck unique s.used size with
    | some err => .failed err s
    | none => .done s
  | (i, j) :: rest, s =>
    if (i : Int) = size - 1 ∨ (j : Int) = size - 1 then
      let tempRowSum : Int := 0
      let num := s.rowSum - tempRowSum
      match writeCell s.square i j num with
      | none => .fault s
      | some sq =>
        match s.tempColSums.get? j with
        | none => .fault { s with square := sq }
        | some none => .fault { s with square := sq }
        | some (some c) =>
          fillLoop unique size lowerBound upperBound power rnds rest
            { s with square := sq, tempColSums := s.tempColSums.set j (some (c + num)),
                     used := s.used.insert num }
    else interiorLoop lowerBound upperBound power rnds s j

/-- Lines 86-127: the allocation of `tempColSums`, of length
`ms.size.Int64()` and whose entries are nil (`make` panics on a negative
length), the fill loops, which run over the cells below `size`, and the final
check.  (A length beyond the addressable memory, on which `make` panics as
well, is not modelled.) -/
def fillPhase (unique : Bool) (size lowerBound upperBound power : Int) (rnds : List RandCall)
    (s : DetState) : DetRun :=
  if Int64 size < 0 then .fault s
  else
    fillLoop unique size lowerBound upperBound power rnds (cellOrder size.toNat)
      { s with tempColSums := List.replicate (Int64 size).toNat none }

/-- The loop of lines 70-84 over the columns still to fill of the first
row, one call of the random source per step, followed by the rest of the
method.  A value that is a key of `usedNumbers` is generated again, whatever
the uniqueness flag; an accepted value is stored in row 0, added to `rowSum`
and recorded. -/
def firstRowLoop (unique : Bool) (size lowerBound upperBound power : Int) :
    List RandCall → List Nat → DetState → DetRun
  | [], [], s => fillPhase unique size lowerBound upperBound power [] s
  | [], _ :: _, s => .pending s
  | rnd :: rnds, [], s => fillPhase unique size lowerBound upperBound power (rnd :: rnds) s
  | rnd :: rnds, j :: rest, s =>
    match GenerateRandomBigInt rnd lowerBound upperBound power with
    | .panic => .fault { s with calls := s.calls + 1 }
    | .error err => .failed err { s with calls := s.calls + 1 }
    | .ok num =>
      if num ∈ s.used then
        firstRowLoop unique size lowerBound upperBound power rnds (j :: rest)
          { s with calls := s.calls + 1 }
      else
        match writeCell s.square 0 j num with
        | none => .fault { s with calls := s.calls + 1 }
        | some sq =>
          firstRowLoop unique size lowerBound upperBound power rnds rest
            { s with square := sq, used := s.used.insert num, rowSum := s.rowSum + num,
                     calls := s.calls + 1 }

/-- The method `PopulateSquareDetermined` (lines 65-128) run on the outcomes
`rnds` of the successive calls of the random source. -/
def PopulateSquareDetermined (ms : MagicSquare) (rnds : List RandCall)
    (lowerBound upperBound : Int) : DetRun :=
  firstRowLoop ms.unique ms.size lowerBound upperBound ms.power rnds (List.range ms.size.toNat)
    { square := ms.square, used := [], rowSum := 0, tempColSums := [], calls := 0 }

/-- The 1 × 1 grid of zero with uniqueness on and power 1. -/
def zeros1 : MagicSquare :=
  { size := 1, square := [[0]], unique := true, power := 1 }

/-- The empty grid with uniqueness on and power 1. -/
def zeros0 : MagicSquare :=
  { size := 0, square := [], unique := true, power := 1 }

/-- No entry of the slice was ever assigned. -/
def AllNil (cols : List (Option Int)) : Prop := ∀ j c, cols.get? j ≠ some (some c)

/-! ## Printing -/

/-- The text written to standard output, character by character. -/
abbrev Text := List Char

/-- The decimal digits of `n`, most significant first, computed with enough
fuel. -/
def digitsFuel : Nat → Nat → Text
  | 0, _ => []
  | fuel + 1, n =>
    if n < 10 then [Nat.digitChar n]
    else digitsFuel fuel (n / 10) ++ [Nat.digitChar (n % 10)]

/-- The decimal rendering of a natural number. -/
def decimalNat (n : Nat) : Text := digitsFuel (n + 1) n

/-- The method `String` of `big.Int`, by its documentation: the decimal
representation of the value, with a leading minus sign when it is negative. -/
def decimal (v : Int) : Text :=
  if v < 0 then '-' :: decimalNat v.natAbs else decimalNat v.natAbs

/-- The inner loop of `PrintSquare` (lines 178-180): each value of the row
is written in decimal, followed by a tab. -/
def printCells (out : Text) : List Int → Text
  | [] => out
  | num :: nums => printCells (out ++ decimal num ++ ['\t']) nums

/-- The outer loop of `PrintSquare` (lines 177-182): each row is written by
the inner loop, followed by a newline. -/
def printRows (out : Text) : Grid → Text
  | [] => out
  | row :: rows => printRows (printCells out row ++ ['\n']) rows

/-- The method `PrintSquare` (lines 176-183): the text it writes.  The rows
are those of the slice, whatever the size field says. -/
def PrintSquare (ms : MagicSquare) : Text := printRows [] ms.square

/-- One line of the specification's rendering: the values of the row in
column order, each in decimal and followed by the delimiter, then the end of
the line. -/
def renderLine (row : List Int) : Text :=
  (row.map (fun v => decimal v ++ ['\t'])).flatten ++ ['\n']

/-- The specification's rendering: one line per row, in row order. -/
def renderText (sq : Grid) : Text := (sq.map renderLine).flatten

/-- The value of a string of decimal digits. -/
def parseNat (cs : Text) : Nat := cs.foldl (fun acc c => 10 * acc + (c.toNat - 48)) 0

/-- The value of a decimal representation with an optional minus sign. -/
def parseInt : Text → Int
  | '-' :: ds => - (parseNat ds : Int)
  | ds => (parseNat ds : Int)

/-- Reads a text back into rows of values: a tab ends a value, a newline
ends a row.  `cur` holds the characters of the value being read and `row` the
values of the row being read. -/
def readText : Text → Text → List Int → Grid
  | [], _, _ => []
  | c :: cs, cur, row =>
    if c = '\t' then readText cs [] (row ++ [parseInt cur])
    else if c = '\n' then row :: readText cs [] []
    else readText cs (cur ++ [c]) row

/-! ## The verifier on a store of integers -/

/-- The `big.Int` objects in memory: the value held at each address. -/
abbrev Store := List Int

/-- The grid as it lies in memory: each cell is the address of a `big.Int`
(an address beyond the store stands for the nil pointer). -/
abbrev RefGrid := List (List Nat)

/-- The struct `MagicSquare` with its cells by address.  `IsMagic` assigns to
no field of the struct. -/
structure RefSquare where
  size : Int
  square : RefGrid
  unique : Bool
  power : Int
deriving DecidableEq, Repr

/-- The pointer `sq[i][j]`; `none` is the index-out-of-range panic. -/
def cellRef (sq : RefGrid) (i : Nat) (j : Int) : Option Nat :=
  if j < 0 then none
  else
    match sq.get? i with
    | none => none
    | some row => row.get? j.toNat

/-- The allocation `new(big.Int)`: a fresh address, holding zero. -/
def newInt (st : Store) : Nat × Store := (st.length, st ++ [0])

/-- The call `z.Add(z, y)` on the objects at the addresses `z` and `y`, where
`z` is a local object of the method; `none` is the dereference of a nil
operand. -/
def addAt (st : Store) (z y : Nat) : Option Store :=
  match st.get? y with
  | none => none
  | some b => some (st.set z (st.getD z 0 + b))

/-- The accumulation loop `for k ... { z.Add(z, operand k) }`, where the
operand is read through the pointer `f k`. -/
def sumLoopRef (f : Nat → Option Nat) (z : Nat) : List Nat → Store → Option Store
  | [], st => some st
  | k :: ks, st =>
    match f k with
    | none => none
    | some a =>
      match addAt st z a with
      | none => none
      | some st' => sumLoopRef f z ks st'

/-- The row check of `IsMagic` (lines 143-151) on the store:
`tempSum.SetInt64(0)`, the sum of the row into `tempSum`, and the comparison
with `sum`. -/
def checkRowsRef (sq : RefGrid) (n sum tempSum : Nat) : List Nat → Store → Option (Bool × Store)
  | [], st => some (true, st)
  | i :: is, st =>
    match sumLoopRef (fun j => cellRef sq i j) tempSum (List.range n) (st.set tempSum 0) with
    | none => none
    | some st' =>
      if st'.getD tempSum 0 ≠ st'.getD sum 0 then some (false, st')
      else checkRowsRef sq n sum tempSum is st'

/-- The column check of `IsMagic` (lines 154-162) on the store. -/
def checkColsRef (sq : RefGrid) (n sum tempSum : Nat) : List Nat → Store → Option (Bool × Store)
  | [], st => some (true, st)
  | j :: js, st =>
    match sumLoopRef (fun i => cellRef sq i j) tempSum (List.range n) (st.set tempSum 0) with
    | none => none
    | some st' =>
      if st'.getD tempSum 0 ≠ st'.getD sum 0 then some (false, st')
      else checkColsRef sq n sum tempSum js st'

/-- The diagonal loop of `IsMagic` (lines 167-170) on the store. -/
def diagLoopRef (sq : RefGrid) (size : Int) (mainDiag antiDiag : Nat) :
    List Nat → Store → Option Store
  | [], st => some st
  | i :: is, st =>
    match cellRef sq i i with
    | none => none
    | some a =>
      match addAt st mainDiag a with
      | none => none
      | some st1 =>
        match cellRef sq i (size - i - 1) with
        | none => none
        | some b =>
          match addAt st1 antiDiag b with
          | none => none
          | some st2 => diagLoopRef sq size mainDiag antiDiag is st2

/-- The method `IsMagic` (lines 131-173) on the store: the result and the
store the call leaves.  The four accumulators are fresh objects. -/
def IsMagicRef (ms : RefSquare) (st : Store) : Option (Bool × Store) :=
  if ms.size = 0 then some (false, st)
  else
    let n := ms.size.toNat
    let sum := (newInt st).1
    let st1 := (newInt st).2
    let tempSum := (newInt st1).1
    let st2 := (newInt st1).2
    match sumLoopRef (fun j => cellRef ms.square 0 j) sum (List.range n) st2 with
    | none => none
    | some st3 =>
      match checkRowsRef ms.square n sum tempSum (List.range' 1 (n - 1)) st3 with
      | none => none
      | some (false, st4) => some (false, st4)
      | some (true, st4) =>
        match checkColsRef ms.square n sum tempSum (List.range n) st4 with
        | none => none
        | some (false, st5) => some (false, st5)
        | some (true, st5) =>
          let mainDiag := (newInt st5).1
          let st6 := (newInt st5).2
          let antiDiag := (newInt st6).1
          let st7 := (newInt st6).2
          match diagLoopRef ms.square ms.size mainDiag antiDiag (List.range n) st7 with
          | none => none
          | some st8 =>
            some (st8.getD mainDiag 0 == st8.getD sum 0 && st8.getD antiDiag 0 == st8.getD sum 0,
              st8)

/-- The values of the cells of a grid in memory. -/
def derefGrid (st : Store) (sq : RefGrid) : Grid :=
  sq.map (fun row => row.map (fun a => st.getD a 0))

/-- The square in memory, by value. -/
def valueOf (st : Store) (ms : RefSquare) : MagicSquare :=
  { size := ms.size, square := derefGrid st ms.square, unique := ms.unique, power := ms.power }

/-- Every cell points to an object of the store. -/
def ValidRefs (st : Store) (sq : RefGrid) : Prop :=
  ∀ row ∈ sq, ∀ a ∈ row, a < st.length

instance (st : Store) (sq : RefGrid) : Decidable (ValidRefs st sq) := by
  unfold ValidRefs; infer_instance

/-- The Lo Shu square in memory: nine objects, and the cells pointing to
them. -/
def loShuRef : RefSquare :=
  { size := 3, square := [[0, 1, 2], [3, 4, 5], [6, 7, 8]], unique := true, power := 1 }

/-- The store holding the values of the Lo Shu square. -/
def loShuStore : Store := [4, 9, 2, 3, 5, 7, 8, 1, 6]

/-- The store `st` holds the objects of `st0` unchanged, and possibly more. -/
def Extends (st0 st : Store) : Prop :=
  st0.length ≤ st.length ∧ ∀ a < st0.length, st.getD a 0 = st0.getD a 0

/-! ## Lemmas on the verifier loops -/

theorem sumLoop_eq_sum (f : Nat → Option Int) (g : Nat → Int) (ks : List Nat) (acc : Int)
    (h : ∀ k ∈ ks, f k = some (g k)) :
    sumLoop f ks acc = some (acc + (ks.map g).sum) := by
  induction ks generalizing acc with
  | nil => simp [sumLoop]
  | cons k ks ih =>
    have hk : f k = some (g k) := h k (List.mem_cons_self _ _)
    have ht : ∀ k' ∈ ks, f k' = some (g k') := fun k' hk' => h k' (List.mem_cons_of_mem _ hk')
    simp only [sumLoop, hk, ih _ ht, List.map_cons, List.sum_cons]
    congr 1; ring

theorem cell_eq_entry (sq : Grid) (n i j : Nat) (hlen : sq.length = n)
    (hrow : ∀ row ∈ sq, row.length = n) (hi : i < n) (hj : j < n) :
    cell sq i (j : Int) = some (entry sq i j) := by
  have hi' : i < sq.length := by omega
  have hmem : sq[i] ∈ sq := List.getElem_mem _
  have hj' : j < sq[i].length := by rw [hrow _ hmem]; exact hj
  have hneg : ¬ ((j : Int) < 0) := by omega
  simp [cell, entry, hneg, List.get?_eq_getElem?, List.getElem?_eq_getElem hi',
    List.getElem?_eq_getElem hj', List.getD_eq_getElem?_getD]

theorem rowLoop_eq (sq : Grid) (n i : Nat) (hlen : sq.length = n)
    (hrow : ∀ row ∈ sq, row.length = n) (hi : i < n) :
    sumLoop (fun j => cell sq i j) (List.range n) 0 = some (rowTotal sq n i) := by
  rw [sumLoop_eq_sum _ (fun j => entry sq i j)]
  · simp [rowTotal]
  · intro k hk
    exact cell_eq_entry sq n i k hlen hrow hi (List.mem_range.mp hk)

theorem colLoop_eq (sq : Grid) (n j : Nat) (hlen : sq.length = n)
    (hrow : ∀ row ∈ sq, row.length = n) (hj : j < n) :
    sumLoop (fun i => cell sq i j) (List.range n) 0 = some (colTotal sq n j) := by
  rw [sumLoop_eq_sum _ (fun i => entry sq i j)]
  · simp [colTotal]
  · intro k hk
    exact cell_eq_entry sq n k j hlen hrow (List.mem_range.mp hk) hj

theorem checkRows_eq (sq : Grid) (n : Nat) (sum : Int) (hlen : sq.length = n)
    (hrow : ∀ row ∈ sq, row.length = n) (is : List Nat) (his : ∀ i ∈ is, i < n) :
    checkRows sq n sum is = some (decide (∀ i ∈ is, rowTotal sq n i = sum)) := by
  induction is with
  | nil => simp [checkRows]
  | cons i is ih =>
    have hi : i < n := his i (List.mem_cons_self _ _)
    have ht : ∀ k ∈ is, k < n := fun k hk => his k (List.mem_cons_of_mem _ hk)
    simp only [checkRows, rowLoop_eq sq n i hlen hrow hi, ih ht]
    by_cases hs : rowTotal sq n i = sum <;> simp [hs]

theorem checkCols_eq (sq : Grid) (n : Nat) (sum : Int) (hlen : sq.length = n)
    (hrow : ∀ row ∈ sq, row.length = n) (js : List Nat) (hjs : ∀ j ∈ js, j < n) :
    checkCols sq n sum js = some (decide (∀ j ∈ js, colTotal sq n j = sum)) := by
  induction js with
  | nil => simp [checkCols]
  | cons j js ih =>
    have hj : j < n := hjs j (List.mem_cons_self _ _)
    have ht : ∀ k ∈ js, k < n := fun k hk => hjs k (List.mem_cons_of_mem _ hk)
    simp only [checkCols, colLoop_eq sq n j hlen hrow hj, ih ht]
    by_cases hs : colTotal sq n j = sum <;> simp [hs]

theorem diagLoop_eq (sq : Grid) (n : Nat) (hlen : sq.length = n)
    (hrow : ∀ row ∈ sq, row.length = n) (is : List Nat) (his : ∀ i ∈ is, i < n)
    (acc : Int × Int) :
    diagLoop sq (n : Int) is acc =
      some (acc.1 + (is.map (fun i => entry sq i i)).sum,
            acc.2 + (is.map (fun i => entry sq i (n - 1 - i))).sum) := by
  induction is generalizing acc with
  | nil => simp [diagLoop]
  | cons i is ih =>
    have hi : i < n := his i (List.mem_cons_self _ _)
    have ht : ∀ k ∈ is, k < n := fun k hk => his k (List.mem_cons_of_mem _ hk)
    have hidx : (n : Int) - (i : Int) - 1 = ((n - 1 - i : Nat) : Int) := by omega
    have h1 := cell_eq_entry sq n i i hlen hrow hi hi
    have h2 := cell_eq_entry sq n i (n - 1 - i) hlen hrow hi (by omega)
    simp only [diagLoop, h1, hidx, h2, ih ht, List.map_cons, List.sum_cons]
    congr 1
    ext <;> simp <;> ring

/-- On an `N × N` grid with `N ≥ 1` the verifier returns, and its result is
the truth value of the specification's predicate. -/
theorem IsMagic_eq_decide (ms : MagicSquare) (hN : 1 ≤ ms.size) (hwf : WellFormed ms) :
    IsMagic ms = some (decide (AllSumsEqual ms)) := by
  obtain ⟨_, hlen, hrow⟩ := hwf
  have hn : 0 < ms.size.toNat := by omega
  have hsz : ms.size = ((ms.size.toNat : Nat) : Int) := by omega
  have hne : ms.size ≠ 0 := by omega
  have hrows := checkRows_eq ms.square ms.size.toNat (rowTotal ms.square ms.size.toNat 0)
    hlen hrow (List.range' 1 (ms.size.toNat - 1))
    (by intro i hi; rw [List.mem_range'_1] at hi; omega)
  have hcols := checkCols_eq ms.square ms.size.toNat (rowTotal ms.square ms.size.toNat 0)
    hlen hrow (List.range ms.size.toNat) (fun j hj => List.mem_range.mp hj)
  have hdiag := diagLoop_eq ms.square ms.size.toNat hlen hrow (List.range ms.size.toNat)
    (fun j hj => List.mem_range.mp hj) (0, 0)
  rw [← hsz] at hdiag
  have hR : (∀ i ∈ List.range' 1 (ms.size.toNat - 1),
      rowTotal ms.square ms.size.toNat i = rowTotal ms.square ms.size.toNat 0) ↔
      (∀ i < ms.size.toNat,
        rowTotal ms.square ms.size.toNat i = rowTotal ms.square ms.size.toNat 0) := by
    constructor
    · intro h i hi
      rcases Nat.eq_zero_or_pos i with h0 | hpos
      · rw [h0]
      · exact h i (by rw [List.mem_range'_1]; omega)
    · intro h i hi
      rw [List.mem_range'_1] at hi
      exact h i (by omega)
  have hC : (∀ j ∈ List.range ms.size.toNat,
      colTotal ms.square ms.size.toNat j = rowTotal ms.square ms.size.toNat 0) ↔
      (∀ j < ms.size.toNat,
        colTotal ms.square ms.size.toNat j = rowTotal ms.square ms.size.toNat 0) := by
    simp [List.mem_range]
  unfold IsMagic
  simp only [hne, if_false, rowLoop_eq ms.square ms.size.toNat 0 hlen hrow hn, hrows, hcols,
    hdiag]
  by_cases h1 : ∀ i < ms.size.toNat,
      rowTotal ms.square ms.size.toNat i = rowTotal ms.square ms.size.toNat 0
  · by_cases h2 : ∀ j < ms.size.toNat,
        colTotal ms.square ms.size.toNat j = rowTotal ms.square ms.size.toNat 0
    · have e1 := decide_eq_true (hR.mpr h1)
      have e2 := decide_eq_true (hC.mpr h2)
      simp only [e1, e2]
      congr 1
      rw [Bool.eq_iff_iff]
      simp only [Bool.and_eq_true, beq_iff_eq, decide_eq_true_eq, zero_add]
      exact ⟨fun h => ⟨h1, h2, h.1, h.2⟩, fun h => ⟨h.2.2.1, h.2.2.2⟩⟩
    · have e1 := decide_eq_true (hR.mpr h1)
      have e2 := decide_eq_false (fun h => h2 (hC.mp h))
      simp only [e1, e2]
      rw [decide_eq_false (fun h : AllSumsEqual ms => h2 h.2.1)]
  · have e1 := decide_eq_false (fun h => h1 (hR.mp h))
    simp only [e1]
    rw [decide_eq_false (fun h : AllSumsEqual ms => h1 h.1)]

/-! ## Changing one cell -/

theorem entry_updateCell (sq : Grid) (i j i' j' : Nat) (v : Int)
    (hi : i < sq.length) (hj : j < (sq.getD i []).length) :
    entry (updateCell sq i j v) i' j' = if i' = i ∧ j' = j then v else entry sq i' j' := by
  unfold entry updateCell
  by_cases h1 : i' = i
  · subst h1
    by_cases h2 : j' = j
    · subst h2
      have hj' : j' < sq[i'].length := by
        simpa [List.getD_eq_getElem?_getD, hi] using hj
      simp [List.getD_eq_getElem?_getD, hi, hj']
    · have h2' : j ≠ j' := fun h => h2 h.symm
      simp [List.getD_eq_getElem?_getD, hi, h2, List.getElem?_set_ne h2']
  · have h1' : i ≠ i' := fun h => h1 h.symm
    simp [List.getD_eq_getElem?_getD, h1, List.getElem?_set_ne h1']

theorem wellFormed_updateCell (ms : MagicSquare) (i j : Nat) (v : Int) (hwf : WellFormed ms) :
    WellFormed { ms with square := updateCell ms.square i j v } := by
  obtain ⟨h0, hlen, hrow⟩ := hwf
  refine ⟨h0, ?_, ?_⟩
  · simp [updateCell, hlen]
  · intro row hmem
    simp only [updateCell] at hmem
    rcases List.mem_or_eq_of_mem_set hmem with h | h
    · exact hrow row h
    · subst h
      by_cases hi : i < ms.square.length
      · have : ms.square.getD i [] ∈ ms.square := by
          simp [List.getD_eq_getElem?_getD, hi]
        rw [List.length_set]
        exact hrow _ this
      · rw [List.set_eq_of_length_le (Nat.le_of_not_lt hi)] at hmem
        exact hrow _ hmem

theorem sum_range_congr (f g : Nat → Int) (n : Nat) (h : ∀ k < n, g k = f k) :
    ((List.range n).map g).sum = ((List.range n).map f).sum := by
  congr 1
  exact List.map_congr_left (fun k hk => h k (List.mem_range.mp hk))

theorem sum_range_update (f g : Nat → Int) (n j : Nat) (hj : j < n)
    (h : ∀ k < n, k ≠ j → g k = f k) :
    ((List.range n).map g).sum = ((List.range n).map f).sum + (g j - f j) := by
  induction n with
  | zero => omega
  | succ n ih =>
    simp only [List.range_succ, List.map_append, List.sum_append, List.map_cons, List.map_nil,
      List.sum_cons, List.sum_nil, add_zero]
    by_cases hjn : j = n
    · subst hjn
      rw [sum_range_congr f g j (fun k hk => h k (by omega) (by omega))]
      ring
    · rw [ih (by omega) (fun k hk hne => h k (by omega) hne), h n (by omega) (fun e => hjn e.symm)]
      ring

theorem rowTotal_updateCell_same (sq : Grid) (n i j : Nat) (v : Int)
    (hi : i < sq.length) (hj : j < (sq.getD i []).length) (hjn : j < n) :
    rowTotal (updateCell sq i j v) n i = rowTotal sq n i + (v - entry sq i j) := by
  unfold rowTotal
  rw [sum_range_update (fun k => entry sq i k) (fun k => entry (updateCell sq i j v) i k) n j hjn]
  · simp [entry_updateCell sq i j i j v hi hj]
  · intro k _ hne
    simp [entry_updateCell sq i j i k v hi hj, hne]

theorem rowTotal_updateCell_other (sq : Grid) (n i j i' : Nat) (v : Int)
    (hi : i < sq.length) (hj : j < (sq.getD i []).length) (hne : i' ≠ i) :
    rowTotal (updateCell sq i j v) n i' = rowTotal sq n i' := by
  unfold rowTotal
  apply sum_range_congr
  intro k _
  simp [entry_updateCell sq i j i' k v hi hj, hne]

/-- An accepted grid with one cell changed to a different value has a row
whose sum differs from the sum of row 0. -/
theorem not_allSumsEqual_updateCell (ms : MagicSquare) (i j : Nat) (v : Int)
    (hN : 2 ≤ ms.size) (hwf : WellFormed ms) (hmagic : AllSumsEqual ms)
    (hi : i < ms.size.toNat) (hj : j < ms.size.toNat) (hv : v ≠ entry ms.square i j) :
    ¬ AllSumsEqual { ms with square := updateCell ms.square i j v } := by
  obtain ⟨_, hlen, hrow⟩ := hwf
  have hi' : i < ms.square.length := by omega
  have hj' : j < (ms.square.getD i []).length := by
    have : ms.square.getD i [] ∈ ms.square := by simp [List.getD_eq_getElem?_getD, hi']
    rw [hrow _ this]; exact hj
  intro hall
  have hrows := hall.1
  simp only at hrows
  have hsame := rowTotal_updateCell_same ms.square ms.size.toNat i j v hi' hj' hj
  by_cases h0 : i = 0
  · subst h0
    have h1 := hrows 1 (by omega)
    rw [rowTotal_updateCell_other ms.square ms.size.toNat 0 j 1 v hi' hj' (by omega), hsame,
      hmagic.1 1 (by omega)] at h1
    exact hv (by omega)
  · have h1 := hrows i hi
    rw [rowTotal_updateCell_other ms.square ms.size.toNat i j 0 v hi' hj' (fun e => h0 e.symm),
      hsame, hmagic.1 i hi] at h1
    exact hv (by omega)

/-! ## The claims on the verifier -/

/-- C1: for every N ≥ 1 and every N × N grid, `IsMagic` returns, and it
returns true exactly when every row sum, every column sum, the main-diagonal
sum and the anti-diagonal sum equal the sum of row 0 (it returns false exactly
when they do not). -/
theorem IsMagic_iff_allSumsEqual (ms : MagicSquare) (hN : 1 ≤ ms.size) (hwf : WellFormed ms) :
    (IsMagic ms = some true ↔ AllSumsEqual ms) ∧
      (IsMagic ms = some false ↔ ¬ AllSumsEqual ms) := by
  rw [IsMagic_eq_decide ms hN hwf]
  by_cases h : AllSumsEqual ms <;> simp [h]

/-- C1, at the Lo Shu square: the verifier returns true. -/
theorem IsMagic_iff_allSumsEqual_witness :
    1 ≤ loShu.size ∧ WellFormed loShu ∧ AllSumsEqual loShu ∧ IsMagic loShu = some true :=
  ⟨by decide, by decide, by decide,
    (IsMagic_iff_allSumsEqual loShu (by decide) (by decide)).1.mpr (by decide)⟩

/-- C2: `IsMagic` returns false for a grid of size 0, whatever the other
fields hold, although the specification's predicate (all sums equal to the sum
of row 0, here all zero or vacuous) holds of it. -/
theorem IsMagic_size_zero (sq : Grid) (u : Bool) (p : Int) :
    IsMagic { size := 0, square := sq, unique := u, power := p } = some false ∧
      AllSumsEqual { size := 0, square := sq, unique := u, power := p } := by
  constructor
  · simp [IsMagic]
  · simp [AllSumsEqual, mainDiagTotal, antiDiagTotal, rowTotal]

/-- C3: for N ≥ 2, an N × N grid accepted by `IsMagic` is rejected once the
value of one cell is changed to a different integer; and every 1 × 1 grid is
accepted, so for N = 1 the property fails. -/
theorem IsMagic_one_cell_changed :
    (∀ (ms : MagicSquare) (i j : Nat) (v : Int), 2 ≤ ms.size → WellFormed ms →
      IsMagic ms = some true → i < ms.size.toNat → j < ms.size.toNat →
      v ≠ entry ms.square i j →
      writeCell ms.square i j v = some (updateCell ms.square i j v) ∧
      IsMagic { ms with square := updateCell ms.square i j v } = some false) ∧
    (∀ (ms : MagicSquare), ms.size = 1 → WellFormed ms → IsMagic ms = some true) := by
  constructor
  · intro ms i j v hN hwf hmagic hi hj hv
    have hall : AllSumsEqual ms := by
      rw [IsMagic_eq_decide ms (by omega) hwf] at hmagic
      exact of_decide_eq_true (Option.some.inj hmagic)
    have hwf' := wellFormed_updateCell ms i j v hwf
    have hnot := not_allSumsEqual_updateCell ms i j v hN hwf hall hi hj hv
    constructor
    · obtain ⟨_, hlen, hrow⟩ := hwf
      have hi' : i < ms.square.length := by omega
      have hmem : ms.square[i] ∈ ms.square := List.getElem_mem _
      have hjr : j < ms.square[i].length := by rw [hrow _ hmem]; exact hj
      simp [writeCell, List.get?_eq_getElem?, List.getElem?_eq_getElem hi', hjr]
    · rw [IsMagic_eq_decide _ (by simpa using (by omega : 1 ≤ ms.size)) hwf',
        decide_eq_false hnot]
  · intro ms h1 hwf
    rw [IsMagic_eq_decide ms (by omega) hwf]
    congr 1
    apply decide_eq_true
    have hn : ms.size.toNat = 1 := by omega
    unfold AllSumsEqual
    rw [hn]
    refine ⟨?_, ?_, ?_, ?_⟩
    · intro i hi
      have : i = 0 := by omega
      rw [this]
    · intro j hj
      have : j = 0 := by omega
      rw [this]
      simp [colTotal, rowTotal, List.range_succ]
    · simp [mainDiagTotal, rowTotal, List.range_succ]
    · simp [antiDiagTotal, rowTotal, List.range_succ]

/-- C3, at the Lo Shu square with its 4 changed to 5: the changed grid is
rejected; and the 1 × 1 grid holding 7 is accepted with its cell changed
to 8. -/
theorem IsMagic_one_cell_changed_witness :
    IsMagic loShu = some true ∧
      updateCell loShu.square 0 0 5 = [[5, 9, 2], [3, 5, 7], [8, 1, 6]] ∧
      IsMagic { loShu with square := [[5, 9, 2], [3, 5, 7], [8, 1, 6]] } = some false ∧
      IsMagic { size := 1, square := updateCell [[7]] 0 0 8, unique := true, power := 1 } =
        some true :=
  ⟨by decide, by decide,
    (IsMagic_one_cell_changed.1 loShu 0 0 5 (by decide) (by decide) (by decide) (by decide)
      (by decide) (by decide)).2,
    IsMagic_one_cell_changed.2
      { size := 1, square := updateCell [[7]] 0 0 8, unique := true, power := 1 } rfl
      (by decide)⟩

/-! ## Lemmas on the machine integers -/

theorem wrap64_of_range (x : Int) (h1 : -2 ^ 63 ≤ x) (h2 : x < 2 ^ 63) : wrap64 x = x := by
  unfold wrap64
  omega

/-- The conversion `Int64` reduces its argument modulo 2^64. -/
theorem Int64_eq_wrap64 (x : Int) : Int64 x = wrap64 x := by
  unfold Int64 wrap64
  simp only
  split <;> omega

theorem Int64_of_range (x : Int) (h1 : -2 ^ 63 ≤ x) (h2 : x < 2 ^ 63) : Int64 x = x := by
  rw [Int64_eq_wrap64, wrap64_of_range x h1 h2]

/-! ## The claims on the generator -/

theorem GenerateRandomBigInt_ok (rnd : RandCall) (lb ub power r : Int)
    (hr : rnd (ub - lb + 1) = .ok r) :
    GenerateRandomBigInt rnd lb ub power =
      .ok (if power > 1 then (r + lb) ^ power.toNat else r + lb) := by
  unfold GenerateRandomBigInt
  simp only [hr]
  split <;> rfl

theorem GenerateRandomBigInt_error (rnd : RandCall) (lb ub power : Int) (e : Error)
    (hr : rnd (ub - lb + 1) = .error e) :
    GenerateRandomBigInt rnd lb ub power = .error e := by
  unfold GenerateRandomBigInt
  simp only [hr]

theorem GenerateRandomBigInt_panic_of (rnd : RandCall) (lb ub power : Int)
    (hr : rnd (ub - lb + 1) = .panic) :
    GenerateRandomBigInt rnd lb ub power = .panic := by
  unfold GenerateRandomBigInt
  simp only [hr]

/-- The generator panics exactly on an empty range. -/
theorem GenerateRandomBigInt_panic_iff (rnd : RandCall) (lb ub power : Int) :
    GenerateRandomBigInt rnd lb ub power = .panic ↔ ub < lb := by
  have hp := rnd.panic_iff (ub - lb + 1)
  cases hr : rnd (ub - lb + 1) with
  | panic =>
    rw [GenerateRandomBigInt_panic_of rnd lb ub power hr]
    have h := hp.1 hr
    constructor
    · intro _; omega
    · intro _; rfl
  | error e =>
    rw [GenerateRandomBigInt_error rnd lb ub power e hr]
    constructor
    · intro h; cases h
    · intro h
      have h2 := hp.2 (by omega)
      rw [hr] at h2
      cases h2
  | ok r =>
    rw [GenerateRandomBigInt_ok rnd lb ub power r hr]
    constructor
    · intro h; cases h
    · intro h
      have h2 := hp.2 (by omega)
      rw [hr] at h2
      cases h2

theorem yield_apply (r max : Int) (h : 0 < max) : yield r max = .ok r := by
  change (if max ≤ 0 then Outcome.panic else Outcome.ok r) = Outcome.ok r
  rw [if_neg (by omega)]

/-- C4: for lowerBound ≤ upperBound and power ≤ 1, a call whose source
yields a sample r of [0, upperBound - lowerBound] returns lowerBound + r, which
lies in [lowerBound, upperBound]; and every integer v of that range, upperBound
included, is returned for the sample r = v - lowerBound of the same interval. -/
theorem GenerateRandomBigInt_range (lb ub power : Int) (_hb : lb ≤ ub) (hp : power ≤ 1) :
    (∀ (rnd : RandCall) (r : Int), rnd (ub - lb + 1) = .ok r → 0 ≤ r → r ≤ ub - lb →
      GenerateRandomBigInt rnd lb ub power = .ok (lb + r) ∧ lb ≤ lb + r ∧ lb + r ≤ ub) ∧
    (∀ v : Int, lb ≤ v → v ≤ ub → ∃ r : Int, 0 ≤ r ∧ r ≤ ub - lb ∧
      ∀ rnd : RandCall, rnd (ub - lb + 1) = .ok r →
        GenerateRandomBigInt rnd lb ub power = .ok v) := by
  have hnp : ¬ power > 1 := by omega
  constructor
  · intro rnd r hr h0 h1
    rw [GenerateRandomBigInt_ok rnd lb ub power r hr, if_neg hnp, add_comm]
    exact ⟨rfl, by omega, by omega⟩
  · intro v hv1 hv2
    refine ⟨v - lb, by omega, by omega, ?_⟩
    intro rnd hr
    rw [GenerateRandomBigInt_ok rnd lb ub power (v - lb) hr, if_neg hnp]
    congr 1
    omega

/-- C4, on the range [1, 10] with power 1: the sample 9 gives the upper
bound 10, and 10 is reached by a sample of [0, 9]. -/
theorem GenerateRandomBigInt_range_witness :
    GenerateRandomBigInt (yield 9) 1 10 1 = .ok 10 ∧
      ∃ r : Int, 0 ≤ r ∧ r ≤ 10 - 1 ∧
        ∀ rnd : RandCall, rnd (10 - 1 + 1) = .ok r → GenerateRandomBigInt rnd 1 10 1 = .ok 10 :=
  ⟨((GenerateRandomBigInt_range 1 10 1 (by decide) (by decide)).1 (yield 9) 9 rfl
      (by decide) (by decide)).1,
    (GenerateRandomBigInt_range 1 10 1 (by decide) (by decide)).2 10 (by decide) (by decide)⟩

/-- C5: for lowerBound ≤ upperBound, when the source yields r, so that the
base value is v = lowerBound + r, the call returns exactly v ^ power for every
power > 1 (v * v for power = 2), as an unbounded integer, and v itself for
power = 1. -/
theorem GenerateRandomBigInt_power (rnd : RandCall) (lb ub power r : Int) (_hb : lb ≤ ub)
    (hr : rnd (ub - lb + 1) = .ok r) :
    (1 < power → GenerateRandomBigInt rnd lb ub power = .ok ((lb + r) ^ power.toNat)) ∧
    (power = 2 → GenerateRandomBigInt rnd lb ub power = .ok ((lb + r) * (lb + r))) ∧
    (power = 1 → GenerateRandomBigInt rnd lb ub power = .ok (lb + r)) := by
  rw [GenerateRandomBigInt_ok rnd lb ub power r hr, add_comm r lb]
  refine ⟨?_, ?_, ?_⟩
  · intro h
    rw [if_pos h]
  · intro h
    subst h
    rw [if_pos (by decide)]
    congr 1
    exact pow_two _
  · intro h
    subst h
    rw [if_neg (by decide)]

/-- C5, on the range [1, 2^70] with the sample 2^70 - 1: the square of 2^70
is returned exactly, beyond every machine word. -/
theorem GenerateRandomBigInt_power_witness :
    GenerateRandomBigInt (yield (2 ^ 70 - 1)) 1 (2 ^ 70) 2 = .ok (2 ^ 140) ∧
      GenerateRandomBigInt (yield (2 ^ 70 - 1)) 1 (2 ^ 70) 1 = .ok (2 ^ 70) := by
  have h := GenerateRandomBigInt_power (yield (2 ^ 70 - 1)) 1 (2 ^ 70) 2 (2 ^ 70 - 1)
    (by norm_num) (yield_apply _ _ (by norm_num))
  have h1 := GenerateRandomBigInt_power (yield (2 ^ 70 - 1)) 1 (2 ^ 70) 1 (2 ^ 70 - 1)
    (by norm_num) (yield_apply _ _ (by norm_num))
  refine ⟨?_, ?_⟩
  · rw [h.2.1 rfl]; norm_num
  · rw [h1.2.2 rfl]; norm_num

/-- C6: `GenerateRandomBigInt` returns an error exactly when the call of the
random source fails, and then it is the source's error; when the source yields
a value, a value and no error is returned. -/
theorem GenerateRandomBigInt_error_iff (rnd : RandCall) (lb ub power : Int) :
    (∀ e : Error, GenerateRandomBigInt rnd lb ub power = .error e ↔
      rnd (ub - lb + 1) = .error e) ∧
    (∀ r : Int, rnd (ub - lb + 1) = .ok r →
      ∃ v : Int, GenerateRandomBigInt rnd lb ub power = .ok v) := by
  constructor
  · intro e
    cases hr : rnd (ub - lb + 1) with
    | panic =>
      rw [GenerateRandomBigInt_panic_of rnd lb ub power hr]
    | error e' =>
      rw [GenerateRandomBigInt_error rnd lb ub power e' hr]
    | ok r =>
      rw [GenerateRandomBigInt_ok rnd lb ub power r hr]
      constructor <;> intro h <;> cases h
  · intro r hr
    exact ⟨_, GenerateRandomBigInt_ok rnd lb ub power r hr⟩

/-! ## Lemmas on the population loops -/

theorem length_updateCell (sq : Grid) (i j : Nat) (v : Int) :
    (updateCell sq i j v).length = sq.length := by
  simp [updateCell]

theorem rowLength_updateCell (sq : Grid) (i j i' : Nat) (v : Int) :
    ((updateCell sq i j v).getD i' []).length = (sq.getD i' []).length := by
  unfold updateCell
  by_cases h : i = i'
  · subst h
    by_cases hi : i < sq.length
    · simp [List.getD_eq_getElem?_getD, hi]
    · rw [List.set_eq_of_length_le (Nat.le_of_not_lt hi)]
  · simp [List.getD_eq_getElem?_getD, List.getElem?_set_ne h]

theorem inBounds_updateCell (sq : Grid) (i j : Nat) (v : Int) (p : Nat × Nat) :
    InBounds (updateCell sq i j v) p ↔ InBounds sq p := by
  unfold InBounds
  rw [length_updateCell, rowLength_updateCell]

theorem writeCell_eq_some (sq sq' : Grid) (i j : Nat) (v : Int)
    (h : writeCell sq i j v = some sq') :
    InBounds sq (i, j) ∧ sq' = updateCell sq i j v := by
  unfold writeCell at h
  cases hrow : sq.get? i with
  | none => rw [hrow] at h; cases h
  | some row =>
    rw [hrow] at h
    simp only at h
    have hi : i < sq.length := by
      by_contra hc
      rw [List.get?_eq_getElem?, List.getElem?_eq_none (Nat.le_of_not_lt hc)] at hrow
      cases hrow
    have hrow' : sq.getD i [] = row := by
      rw [List.get?_eq_getElem?] at hrow
      simp [List.getD_eq_getElem?_getD, hrow]
    by_cases hj : j < row.length
    · rw [if_pos hj] at h
      exact ⟨⟨hi, by rw [hrow']; exact hj⟩, (Option.some.inj h).symm⟩
    · rw [if_neg hj] at h
      cases h

theorem writeCell_of_inBounds (sq : Grid) (i j : Nat) (v : Int) (h : InBounds sq (i, j)) :
    writeCell sq i j v = some (updateCell sq i j v) := by
  obtain ⟨hi, hj⟩ := h
  simp only at hi hj
  have hj' : j < sq[i].length := by
    simpa [List.getD_eq_getElem?_getD, hi] using hj
  simp [writeCell, List.get?_eq_getElem?, List.getElem?_eq_getElem hi, hj']

theorem entry_applyWrites_of_not_mem (ws : List ((Nat × Nat) × Int)) (sq : Grid)
    (p : Nat × Nat) (hb : ∀ w ∈ ws, InBounds sq w.1) (hp : p ∉ ws.map Prod.fst) :
    entry (applyWrites sq ws) p.1 p.2 = entry sq p.1 p.2 := by
  induction ws generalizing sq with
  | nil => rfl
  | cons w ws ih =>
    obtain ⟨q, v⟩ := w
    have hq : InBounds sq q := hb (q, v) (List.mem_cons_self _ _)
    have hne : p ≠ q := fun e => hp (by simp [e])
    have hp' : p ∉ ws.map Prod.fst := fun h => hp (by simp only [List.map_cons]; exact List.mem_cons_of_mem _ h)
    simp only [applyWrites]
    rw [ih (updateCell sq q.1 q.2 v)
      (fun w hw => (inBounds_updateCell sq q.1 q.2 v w.1).mpr (hb w (List.mem_cons_of_mem _ hw))) hp',
      entry_updateCell sq q.1 q.2 p.1 p.2 v hq.1 hq.2]
    have : ¬ (p.1 = q.1 ∧ p.2 = q.2) := fun h => hne (Prod.ext h.1 h.2)
    rw [if_neg this]

theorem entry_applyWrites_of_mem (ws : List ((Nat × Nat) × Int)) (sq : Grid)
    (hb : ∀ w ∈ ws, InBounds sq w.1) (hnd : (ws.map Prod.fst).Nodup)
    (w : (Nat × Nat) × Int) (hw : w ∈ ws) :
    entry (applyWrites sq ws) w.1.1 w.1.2 = w.2 := by
  induction ws generalizing sq with
  | nil => cases hw
  | cons w0 ws ih =>
    obtain ⟨q, v⟩ := w0
    have hq : InBounds sq q := hb (q, v) (List.mem_cons_self _ _)
    have hb' : ∀ w' ∈ ws, InBounds (updateCell sq q.1 q.2 v) w'.1 :=
      fun w' hw' => (inBounds_updateCell sq q.1 q.2 v w'.1).mpr (hb w' (List.mem_cons_of_mem _ hw'))
    simp only [List.map_cons, List.nodup_cons] at hnd
    simp only [applyWrites]
    rcases List.mem_cons.mp hw with h | h
    · subst h
      rw [entry_applyWrites_of_not_mem ws _ q hb' hnd.1,
        entry_updateCell sq q.1 q.2 q.1 q.2 v hq.1 hq.2]
      simp
    · exact ih _ hb' hnd.2 h

theorem mem_cellOrder (n i j : Nat) : (i, j) ∈ cellOrder n ↔ i < n ∧ j < n := by
  simp [cellOrder, List.pair_mem_product]

theorem nodup_cellOrder (n : Nat) : (cellOrder n).Nodup := by
  unfold cellOrder
  exact List.Nodup.product (List.nodup_range n) (List.nodup_range n)

theorem length_cellOrder (n : Nat) : (cellOrder n).length = n ^ 2 := by
  unfold cellOrder
  exact (List.length_product (List.range n) (List.range n)).trans
    (by rw [List.length_range, pow_two])

theorem populateLoop_todo_nil (u : Bool) (lb ub pw : Int) (rnds : List RandCall) (s : PopState)
    (h : s.todo = []) : populateLoop u lb ub pw rnds s = .done s := by
  cases rnds <;> simp [populateLoop, h]

theorem populateLoop_nil (u : Bool) (lb ub pw : Int) (s : PopState) (p : Nat × Nat)
    (rest : List (Nat × Nat)) (h : s.todo = p :: rest) :
    populateLoop u lb ub pw [] s = .pending s := by
  simp [populateLoop, h]

theorem populateLoop_error (u : Bool) (lb ub pw : Int) (rnd : RandCall) (rnds : List RandCall)
    (s : PopState) (p : Nat × Nat) (rest : List (Nat × Nat)) (e : Error)
    (h : s.todo = p :: rest) (hg : GenerateRandomBigInt rnd lb ub pw = .error e) :
    populateLoop u lb ub pw (rnd :: rnds) s = .failed e { s with calls := s.calls + 1 } := by
  obtain ⟨i, j⟩ := p
  simp [populateLoop, h, hg]

theorem populateLoop_reject (u : Bool) (lb ub pw : Int) (rnd : RandCall) (rnds : List RandCall)
    (s : PopState) (p : Nat × Nat) (rest : List (Nat × Nat)) (num : Int)
    (h : s.todo = p :: rest) (hg : GenerateRandomBigInt rnd lb ub pw = .ok num)
    (hu : u = true) (hmem : num ∈ s.used) :
    populateLoop u lb ub pw (rnd :: rnds) s =
      populateLoop u lb ub pw rnds { s with calls := s.calls + 1 } := by
  obtain ⟨i, j⟩ := p
  simp [populateLoop, h, hg, hu, hmem]

theorem populateLoop_accept_fault (u : Bool) (lb ub pw : Int) (rnd : RandCall)
    (rnds : List RandCall) (s : PopState) (p : Nat × Nat) (rest : List (Nat × Nat)) (num : Int)
    (h : s.todo = p :: rest) (hg : GenerateRandomBigInt rnd lb ub pw = .ok num)
    (hacc : u = false ∨ num ∉ s.used) (hw : writeCell s.square p.1 p.2 num = none) :
    populateLoop u lb ub pw (rnd :: rnds) s = .fault { s with calls := s.calls + 1 } := by
  obtain ⟨i, j⟩ := p
  simp only at hw
  rcases hacc with hu | hmem
  · simp [populateLoop, h, hg, hu, hw]
  · simp [populateLoop, h, hg, hmem, hw]

theorem populateLoop_accept (u : Bool) (lb ub pw : Int) (rnd : RandCall)
    (rnds : List RandCall) (s : PopState) (p : Nat × Nat) (rest : List (Nat × Nat)) (num : Int)
    (sq : Grid) (h : s.todo = p :: rest) (hg : GenerateRandomBigInt rnd lb ub pw = .ok num)
    (hacc : u = false ∨ num ∉ s.used) (hw : writeCell s.square p.1 p.2 num = some sq) :
    populateLoop u lb ub pw (rnd :: rnds) s =
      populateLoop u lb ub pw rnds
        { square := sq, used := s.used.insert num, calls := s.calls + 1, todo := rest } := by
  obtain ⟨i, j⟩ := p
  simp only at hw
  rcases hacc with hu | hmem
  · simp [populateLoop, h, hg, hu, hw]
  · simp [populateLoop, h, hg, hmem, hw]

theorem populateLoop_panic (u : Bool) (lb ub pw : Int) (rnd : RandCall) (rnds : List RandCall)
    (s : PopState) (p : Nat × Nat) (rest : List (Nat × Nat))
    (h : s.todo = p :: rest) (hg : GenerateRandomBigInt rnd lb ub pw = .panic) :
    populateLoop u lb ub pw (rnd :: rnds) s = .fault { s with calls := s.calls + 1 } := by
  obtain ⟨i, j⟩ := p
  simp [populateLoop, h, hg]

/-- The five ways one step of the loops can go, on a state with a cell to
fill. -/
theorem populateLoop_cases (u : Bool) (lb ub pw : Int) (rnd : RandCall) (s : PopState)
    (p : Nat × Nat) :
    GenerateRandomBigInt rnd lb ub pw = .panic ∨
    (∃ e, GenerateRandomBigInt rnd lb ub pw = .error e) ∨
    (∃ num, GenerateRandomBigInt rnd lb ub pw = .ok num ∧ u = true ∧ num ∈ s.used) ∨
    (∃ num, GenerateRandomBigInt rnd lb ub pw = .ok num ∧ (u = false ∨ num ∉ s.used) ∧
      writeCell s.square p.1 p.2 num = none) ∨
    (∃ num sq, GenerateRandomBigInt rnd lb ub pw = .ok num ∧ (u = false ∨ num ∉ s.used) ∧
      writeCell s.square p.1 p.2 num = some sq) := by
  cases hg : GenerateRandomBigInt rnd lb ub pw with
  | panic => exact Or.inl rfl
  | error e => exact Or.inr (Or.inl ⟨e, rfl⟩)
  | ok num =>
    right
    right
    by_cases hacc : u = false ∨ num ∉ s.used
    · right
      cases hw : writeCell s.square p.1 p.2 num with
      | none => exact Or.inl ⟨num, rfl, hacc, hw⟩
      | some sq => exact Or.inr ⟨num, sq, rfl, hacc, hw⟩
    · left
      refine ⟨num, rfl, ?_, ?_⟩
      · cases u
        · exact absurd (Or.inl rfl) hacc
        · rfl
      · by_contra hc
        exact hacc (Or.inr hc)

theorem list_nil_or_cons {α : Type} (l : List α) : l = [] ∨ ∃ p rest, l = p :: rest := by
  cases l with
  | nil => exact Or.inl rfl
  | cons p rest => exact Or.inr ⟨p, rest, rfl⟩

/-- A step that writes nothing has the empty list of writes. -/
theorem trace_of_no_write (u : Bool) (lb ub pw : Int) (rnds : List RandCall)
    (s s' : PopState) (ht : s'.todo = s.todo) (hs : s'.square = s.square) :
    ∃ ws : List ((Nat × Nat) × Int),
      s.todo = ws.map Prod.fst ++ s'.todo ∧
      s'.square = applyWrites s.square ws ∧
      (∀ w ∈ ws, InBounds s.square w.1) ∧
      (∀ w ∈ ws, ∃ rnd ∈ rnds, GenerateRandomBigInt rnd lb ub pw = .ok w.2) ∧
      (u = true → (ws.map Prod.snd).Nodup ∧ ∀ w ∈ ws, w.2 ∉ s.used) := by
  refine ⟨[], ?_, ?_, ?_, ?_, ?_⟩
  · rw [ht]; rfl
  · rw [hs]; rfl
  · intro w hw; cases hw
  · intro w hw; cases hw
  · intro _
    refine ⟨List.nodup_nil, ?_⟩
    intro w hw; cases hw

/-- The writes made by a run: the cells filled are a prefix of the cells to
fill, the grid is the initial grid with these writes applied, every written
value was generated by one of the calls, and under uniqueness the written
values are pairwise distinct and were not used before. -/
theorem populateLoop_trace (u : Bool) (lb ub pw : Int) (rnds : List RandCall) (s : PopState) :
    ∃ ws : List ((Nat × Nat) × Int),
      s.todo = ws.map Prod.fst ++ (populateLoop u lb ub pw rnds s).state.todo ∧
      (populateLoop u lb ub pw rnds s).state.square = applyWrites s.square ws ∧
      (∀ w ∈ ws, InBounds s.square w.1) ∧
      (∀ w ∈ ws, ∃ rnd ∈ rnds, GenerateRandomBigInt rnd lb ub pw = .ok w.2) ∧
      (u = true → (ws.map Prod.snd).Nodup ∧ ∀ w ∈ ws, w.2 ∉ s.used) := by
  induction rnds generalizing s with
  | nil =>
    rcases list_nil_or_cons s.todo with h | ⟨p, rest, h⟩
    · rw [populateLoop_todo_nil u lb ub pw [] s h]
      exact trace_of_no_write u lb ub pw [] s s rfl rfl
    · rw [populateLoop_nil u lb ub pw s p rest h]
      exact trace_of_no_write u lb ub pw [] s s rfl rfl
  | cons rnd rnds ih =>
    rcases list_nil_or_cons s.todo with h | ⟨p, rest, h⟩
    · rw [populateLoop_todo_nil u lb ub pw _ s h]
      exact trace_of_no_write u lb ub pw _ s s rfl rfl
    · rcases populateLoop_cases u lb ub pw rnd s p with
        hpan | ⟨e, hg⟩ | ⟨num, hg, hu, hmem⟩ | ⟨num, hg, hacc, hw⟩ | ⟨num, sq, hg, hacc, hw⟩
      · rw [populateLoop_panic u lb ub pw rnd rnds s p rest h hpan]
        exact trace_of_no_write u lb ub pw _ s _ rfl rfl
      · rw [populateLoop_error u lb ub pw rnd rnds s p rest e h hg]
        exact trace_of_no_write u lb ub pw _ s _ rfl rfl
      · rw [populateLoop_reject u lb ub pw rnd rnds s p rest num h hg hu hmem]
        obtain ⟨ws, h1, h2, h3, h4, h5⟩ := ih { s with calls := s.calls + 1 }
        refine ⟨ws, h1, h2, h3, ?_, h5⟩
        intro w hw
        obtain ⟨r, hr, hgr⟩ := h4 w hw
        exact ⟨r, List.mem_cons_of_mem _ hr, hgr⟩
      · rw [populateLoop_accept_fault u lb ub pw rnd rnds s p rest num h hg hacc hw]
        exact trace_of_no_write u lb ub pw _ s _ rfl rfl
      · rw [populateLoop_accept u lb ub pw rnd rnds s p rest num sq h hg hacc hw]
        obtain ⟨hin, hsq⟩ := writeCell_eq_some s.square sq p.1 p.2 num hw
        obtain ⟨ws, h1, h2, h3, h4, h5⟩ := ih
          { square := sq, used := s.used.insert num, calls := s.calls + 1, todo := rest }
        simp only at h1 h2 h3 h5
        refine ⟨(p, num) :: ws, ?_, ?_, ?_, ?_, ?_⟩
        · rw [h, List.map_cons, List.cons_append, ← h1]
        · rw [h2, hsq]; rfl
        · intro w hw'
          rcases List.mem_cons.mp hw' with e | hmem
          · rw [e]; exact hin
          · have := h3 w hmem
            rw [hsq] at this
            exact (inBounds_updateCell s.square p.1 p.2 num w.1).mp this
        · intro w hw'
          rcases List.mem_cons.mp hw' with e | hmem
          · rw [e]; exact ⟨rnd, List.mem_cons_self _ _, hg⟩
          · obtain ⟨r, hr, hgr⟩ := h4 w hmem
            exact ⟨r, List.mem_cons_of_mem _ hr, hgr⟩
        · intro hu
          obtain ⟨hnd, hfresh⟩ := h5 hu
          have hnum : num ∉ s.used := by
            rcases hacc with hf | hn
            · rw [hu] at hf; cases hf
            · exact hn
          refine ⟨?_, ?_⟩
          · rw [List.map_cons, List.nodup_cons]
            refine ⟨?_, hnd⟩
            intro hc
            obtain ⟨w, hw', hwe⟩ := List.mem_map.mp hc
            apply hfresh w hw'
            rw [hwe]
            exact List.mem_insert_self _ _
          · intro w hw'
            rcases List.mem_cons.mp hw' with e | hmem
            · rw [e]; exact hnum
            · intro hc
              exact hfresh w hmem (List.mem_insert_of_mem hc)

theorem populateLoop_done_todo (u : Bool) (lb ub pw : Int) (rnds : List RandCall)
    (s s' : PopState) (h : populateLoop u lb ub pw rnds s = .done s') : s'.todo = [] := by
  induction rnds generalizing s with
  | nil =>
    rcases list_nil_or_cons s.todo with ht | ⟨p, rest, ht⟩
    · rw [populateLoop_todo_nil u lb ub pw [] s ht] at h
      cases h; exact ht
    · rw [populateLoop_nil u lb ub pw s p rest ht] at h
      cases h
  | cons rnd rnds ih =>
    rcases list_nil_or_cons s.todo with ht | ⟨p, rest, ht⟩
    · rw [populateLoop_todo_nil u lb ub pw _ s ht] at h
      cases h; exact ht
    · rcases populateLoop_cases u lb ub pw rnd s p with
        hpan | ⟨e, hg⟩ | ⟨num, hg, hu, hmem⟩ | ⟨num, hg, hacc, hw⟩ | ⟨num, sq, hg, hacc, hw⟩
      · rw [populateLoop_panic u lb ub pw rnd rnds s p rest ht hpan] at h
        cases h
      · rw [populateLoop_error u lb ub pw rnd rnds s p rest e ht hg] at h
        cases h
      · rw [populateLoop_reject u lb ub pw rnd rnds s p rest num ht hg hu hmem] at h
        exact ih _ h
      · rw [populateLoop_accept_fault u lb ub pw rnd rnds s p rest num ht hg hacc hw] at h
        cases h
      · rw [populateLoop_accept u lb ub pw rnd rnds s p rest num sq ht hg hacc hw] at h
        exact ih _ h

theorem populateLoop_pending_todo (u : Bool) (lb ub pw : Int) (rnds : List RandCall)
    (s s' : PopState) (h : populateLoop u lb ub pw rnds s = .pending s') : s'.todo ≠ [] := by
  induction rnds generalizing s with
  | nil =>
    rcases list_nil_or_cons s.todo with ht | ⟨p, rest, ht⟩
    · rw [populateLoop_todo_nil u lb ub pw [] s ht] at h
      cases h
    · rw [populateLoop_nil u lb ub pw s p rest ht] at h
      cases h
      rw [ht]
      exact List.cons_ne_nil _ _
  | cons rnd rnds ih =>
    rcases list_nil_or_cons s.todo with ht | ⟨p, rest, ht⟩
    · rw [populateLoop_todo_nil u lb ub pw _ s ht] at h
      cases h
    · rcases populateLoop_cases u lb ub pw rnd s p with
        hpan | ⟨e, hg⟩ | ⟨num, hg, hu, hmem⟩ | ⟨num, hg, hacc, hw⟩ | ⟨num, sq, hg, hacc, hw⟩
      · rw [populateLoop_panic u lb ub pw rnd rnds s p rest ht hpan] at h
        cases h
      · rw [populateLoop_error u lb ub pw rnd rnds s p rest e ht hg] at h
        cases h
      · rw [populateLoop_reject u lb ub pw rnd rnds s p rest num ht hg hu hmem] at h
        exact ih _ h
      · rw [populateLoop_accept_fault u lb ub pw rnd rnds s p rest num ht hg hacc hw] at h
        cases h
      · rw [populateLoop_accept u lb ub pw rnd rnds s p rest num sq ht hg hacc hw] at h
        exact ih _ h

/-- An error returned by the loops is the error of one of the calls of the
random source. -/
theorem populateLoop_failed_source (u : Bool) (lb ub pw : Int) (rnds : List RandCall)
    (s s' : PopState) (e : Error) (h : populateLoop u lb ub pw rnds s = .failed e s') :
    ∃ rnd ∈ rnds, rnd (ub - lb + 1) = .error e := by
  induction rnds generalizing s with
  | nil =>
    rcases list_nil_or_cons s.todo with ht | ⟨p, rest, ht⟩
    · rw [populateLoop_todo_nil u lb ub pw [] s ht] at h
      cases h
    · rw [populateLoop_nil u lb ub pw s p rest ht] at h
      cases h
  | cons rnd rnds ih =>
    rcases list_nil_or_cons s.todo with ht | ⟨p, rest, ht⟩
    · rw [populateLoop_todo_nil u lb ub pw _ s ht] at h
      cases h
    · rcases populateLoop_cases u lb ub pw rnd s p with
        hpan | ⟨e', hg⟩ | ⟨num, hg, hu, hmem⟩ | ⟨num, hg, hacc, hw⟩ | ⟨num, sq, hg, hacc, hw⟩
      · rw [populateLoop_panic u lb ub pw rnd rnds s p rest ht hpan] at h
        cases h
      · rw [populateLoop_error u lb ub pw rnd rnds s p rest e' ht hg] at h
        cases h
        refine ⟨rnd, List.mem_cons_self _ _, ?_⟩
        cases hr : rnd (ub - lb + 1) with
        | panic =>
          rw [GenerateRandomBigInt_panic_of rnd lb ub pw hr] at hg
          cases hg
        | error e'' =>
          rw [GenerateRandomBigInt_error rnd lb ub pw e'' hr] at hg
          cases hg; rfl
        | ok r =>
          rw [GenerateRandomBigInt_ok rnd lb ub pw r hr] at hg
          cases hg
      · rw [populateLoop_reject u lb ub pw rnd rnds s p rest num ht hg hu hmem] at h
        obtain ⟨r, hr, hre⟩ := ih _ h
        exact ⟨r, List.mem_cons_of_mem _ hr, hre⟩
      · rw [populateLoop_accept_fault u lb ub pw rnd rnds s p rest num ht hg hacc hw] at h
        cases h
      · rw [populateLoop_accept u lb ub pw rnd rnds s p rest num sq ht hg hacc hw] at h
        obtain ⟨r, hr, hre⟩ := ih _ h
        exact ⟨r, List.mem_cons_of_mem _ hr, hre⟩

/-- When every cell to fill lies inside the grid, the loops never fault. -/
theorem populateLoop_no_fault (u : Bool) (lb ub pw : Int) (rnds : List RandCall)
    (s s' : PopState) (hb : lb ≤ ub) (hin : ∀ p ∈ s.todo, InBounds s.square p) :
    populateLoop u lb ub pw rnds s ≠ .fault s' := by
  induction rnds generalizing s with
  | nil =>
    rcases list_nil_or_cons s.todo with ht | ⟨p, rest, ht⟩
    · rw [populateLoop_todo_nil u lb ub pw [] s ht]
      intro h; cases h
    · rw [populateLoop_nil u lb ub pw s p rest ht]
      intro h; cases h
  | cons rnd rnds ih =>
    rcases list_nil_or_cons s.todo with ht | ⟨p, rest, ht⟩
    · rw [populateLoop_todo_nil u lb ub pw _ s ht]
      intro h; cases h
    · have hp : InBounds s.square p := hin p (by rw [ht]; exact List.mem_cons_self _ _)
      rcases populateLoop_cases u lb ub pw rnd s p with
        hpan | ⟨e', hg⟩ | ⟨num, hg, hu, hmem⟩ | ⟨num, hg, hacc, hw⟩ | ⟨num, sq, hg, hacc, hw⟩
      · have := (GenerateRandomBigInt_panic_iff rnd lb ub pw).1 hpan
        omega
      · rw [populateLoop_error u lb ub pw rnd rnds s p rest e' ht hg]
        intro h; cases h
      · rw [populateLoop_reject u lb ub pw rnd rnds s p rest num ht hg hu hmem]
        exact ih _ hin
      · rw [writeCell_of_inBounds s.square p.1 p.2 num hp] at hw
        cases hw
      · rw [populateLoop_accept u lb ub pw rnd rnds s p rest num sq ht hg hacc hw]
        apply ih
        intro q hq
        simp only at hq ⊢
        obtain ⟨_, hsq⟩ := writeCell_eq_some s.square sq p.1 p.2 num hw
        rw [hsq]
        exact (inBounds_updateCell s.square p.1 p.2 num q).mpr
          (hin q (by rw [ht]; exact List.mem_cons_of_mem _ hq))

/-- Running on more outcomes continues a pending run and leaves a finished
one as it is. -/
theorem populateLoop_append (u : Bool) (lb ub pw : Int) (pre post : List RandCall)
    (s : PopState) :
    populateLoop u lb ub pw (pre ++ post) s =
      match populateLoop u lb ub pw pre s with
      | .pending s1 => populateLoop u lb ub pw post s1
      | r => r := by
  induction pre generalizing s with
  | nil =>
    rcases list_nil_or_cons s.todo with ht | ⟨p, rest, ht⟩
    · rw [List.nil_append, populateLoop_todo_nil u lb ub pw [] s ht,
        populateLoop_todo_nil u lb ub pw post s ht]
    · rw [List.nil_append, populateLoop_nil u lb ub pw s p rest ht]
  | cons rnd rnds ih =>
    rw [List.cons_append]
    rcases list_nil_or_cons s.todo with ht | ⟨p, rest, ht⟩
    · rw [populateLoop_todo_nil u lb ub pw _ s ht, populateLoop_todo_nil u lb ub pw _ s ht]
    · rcases populateLoop_cases u lb ub pw rnd s p with
        hpan | ⟨e', hg⟩ | ⟨num, hg, hu, hmem⟩ | ⟨num, hg, hacc, hw⟩ | ⟨num, sq, hg, hacc, hw⟩
      · rw [populateLoop_panic u lb ub pw rnd _ s p rest ht hpan,
          populateLoop_panic u lb ub pw rnd _ s p rest ht hpan]
      · rw [populateLoop_error u lb ub pw rnd _ s p rest e' ht hg,
          populateLoop_error u lb ub pw rnd _ s p rest e' ht hg]
      · rw [populateLoop_reject u lb ub pw rnd _ s p rest num ht hg hu hmem,
          populateLoop_reject u lb ub pw rnd _ s p rest num ht hg hu hmem]
        exact ih _
      · rw [populateLoop_accept_fault u lb ub pw rnd _ s p rest num ht hg hacc hw,
          populateLoop_accept_fault u lb ub pw rnd _ s p rest num ht hg hacc hw]
      · rw [populateLoop_accept u lb ub pw rnd _ s p rest num sq ht hg hacc hw,
          populateLoop_accept u lb ub pw rnd _ s p rest num sq ht hg hacc hw]
        exact ih _

theorem inBounds_applyWrites (ws : List ((Nat × Nat) × Int)) (sq : Grid) (p : Nat × Nat) :
    InBounds (applyWrites sq ws) p ↔ InBounds sq p := by
  induction ws generalizing sq with
  | nil => rfl
  | cons w ws ih =>
    obtain ⟨q, v⟩ := w
    simp only [applyWrites]
    rw [ih, inBounds_updateCell]

/-- The grid a run of `PopulateSquareRandom` stands in: the cells filled
are a prefix of the row-major order and hold the values written, which were
generated by calls of the source (pairwise distinct under uniqueness); every
other cell holds what it held before the call. -/
theorem PopulateSquareRandom_trace (ms : MagicSquare) (rnds : List RandCall) (lb ub : Int) :
    ∃ ws : List ((Nat × Nat) × Int),
      cellOrder ms.size.toNat =
        ws.map Prod.fst ++ (PopulateSquareRandom ms rnds lb ub).state.todo ∧
      (∀ w ∈ ws, InBounds (PopulateSquareRandom ms rnds lb ub).state.square w.1 ∧
        entry (PopulateSquareRandom ms rnds lb ub).state.square w.1.1 w.1.2 = w.2) ∧
      (∀ p : Nat × Nat, p ∉ ws.map Prod.fst →
        entry (PopulateSquareRandom ms rnds lb ub).state.square p.1 p.2 =
          entry ms.square p.1 p.2) ∧
      (∀ w ∈ ws, ∃ rnd ∈ rnds, GenerateRandomBigInt rnd lb ub ms.power = .ok w.2) ∧
      (ms.unique = true → (ws.map Prod.snd).Nodup) := by
  obtain ⟨ws, h1, h2, h3, h4, h5⟩ := populateLoop_trace ms.unique lb ub ms.power rnds
    { square := ms.square, used := [], calls := 0, todo := cellOrder ms.size.toNat }
  simp only at h1 h2 h3
  have hnd : (ws.map Prod.fst).Nodup := by
    have := nodup_cellOrder ms.size.toNat
    rw [h1] at this
    exact (List.nodup_append.mp this).1
  refine ⟨ws, h1, ?_, ?_, h4, fun hu => (h5 hu).1⟩
  · intro w hw
    unfold PopulateSquareRandom
    rw [h2]
    exact ⟨(inBounds_applyWrites ws ms.square w.1).mpr (h3 w hw),
      entry_applyWrites_of_mem ws ms.square h3 hnd w hw⟩
  · intro p hp
    unfold PopulateSquareRandom
    rw [h2]
    exact entry_applyWrites_of_not_mem ws ms.square p h3 hp

/-- A generated value, for a source call that keeps the library's contract. -/
theorem GenerateRandomBigInt_value (rnd : RandCall) (lb ub pw v : Int)
    (hin : InRange rnd (ub - lb + 1)) (hg : GenerateRandomBigInt rnd lb ub pw = .ok v) :
    ∃ b : Int, lb ≤ b ∧ b ≤ ub ∧ v = if pw > 1 then b ^ pw.toNat else b := by
  cases hr : rnd (ub - lb + 1) with
  | panic =>
    rw [GenerateRandomBigInt_panic_of rnd lb ub pw hr] at hg
    cases hg
  | error e =>
    rw [GenerateRandomBigInt_error rnd lb ub pw e hr] at hg
    cases hg
  | ok r =>
    rw [GenerateRandomBigInt_ok rnd lb ub pw r hr] at hg
    obtain ⟨h0, h1⟩ := hin r hr
    refine ⟨r + lb, by omega, by omega, ?_⟩
    cases hg
    rfl

theorem inRange_yield (r max : Int) (h0 : 0 ≤ r) (h1 : r < max) : InRange (yield r) max := by
  intro r' h
  rw [yield_apply r max (by omega)] at h
  cases h
  exact ⟨h0, h1⟩

theorem inRange_broken (e : Error) (max : Int) : InRange (broken e) max := by
  intro r' h
  change (if max ≤ 0 then Outcome.panic else Outcome.error e) = Outcome.ok r' at h
  split at h <;> cases h

/-- A call on an empty range panics, so it keeps the range contract. -/
theorem inRange_of_nonpos (rnd : RandCall) (max : Int) (h : max ≤ 0) : InRange rnd max := by
  intro r hr
  rw [(rnd.panic_iff max).2 h] at hr
  cases hr

/-- On an empty range the first call of the source panics: the run faults
with one call made and no cell written. -/
theorem populateLoop_empty_range (u : Bool) (lb ub pw : Int) (rnd : RandCall)
    (rnds : List RandCall) (s : PopState) (hb : ub < lb) (ht : s.todo ≠ []) :
    populateLoop u lb ub pw (rnd :: rnds) s = .fault { s with calls := s.calls + 1 } := by
  rcases list_nil_or_cons s.todo with h | ⟨p, rest, h⟩
  · exact absurd h ht
  · exact populateLoop_panic u lb ub pw rnd rnds s p rest h
      ((GenerateRandomBigInt_panic_iff rnd lb ub pw).2 hb)

/-- After a successful run, every cell of the N × N grid was written. -/
theorem done_cell_written (ms : MagicSquare) (rnds : List RandCall) (lb ub : Int)
    (s : PopState) (hdone : PopulateSquareRandom ms rnds lb ub = .done s)
    (ws : List ((Nat × Nat) × Int))
    (hws : cellOrder ms.size.toNat =
      ws.map Prod.fst ++ (PopulateSquareRandom ms rnds lb ub).state.todo) :
    cellOrder ms.size.toNat = ws.map Prod.fst := by
  have htodo : (PopulateSquareRandom ms rnds lb ub).state.todo = [] := by
    rw [hdone]
    exact populateLoop_done_todo ms.unique lb ub ms.power rnds _ s hdone
  rw [htodo, List.append_nil] at hws
  exact hws

/-! ## The claims on the random population -/

/-- C7: for N ≥ 1 and lowerBound ≤ upperBound, when `PopulateSquareRandom`
returns success with uniqueness enabled, the values stored in two different
cells of the N × N grid are different. -/
theorem PopulateSquareRandom_unique (ms : MagicSquare) (rnds : List RandCall) (lb ub : Int)
    (s : PopState) (_hN : 1 ≤ ms.size) (_hb : lb ≤ ub) (hu : ms.unique = true)
    (hdone : PopulateSquareRandom ms rnds lb ub = .done s) :
    ∀ i j i' j' : Nat, i < ms.size.toNat → j < ms.size.toNat → i' < ms.size.toNat →
      j' < ms.size.toNat → (i, j) ≠ (i', j') →
      entry s.square i j ≠ entry s.square i' j' := by
  obtain ⟨ws, h1, h2, _, _, h5⟩ := PopulateSquareRandom_trace ms rnds lb ub
  have hcells := done_cell_written ms rnds lb ub s hdone ws h1
  rw [hdone] at h2
  simp only [Run.state] at h2
  intro i j i' j' hi hj hi' hj' hne heq
  have hm : (i, j) ∈ ws.map Prod.fst := by
    rw [← hcells]; exact (mem_cellOrder _ i j).mpr ⟨hi, hj⟩
  have hm' : (i', j') ∈ ws.map Prod.fst := by
    rw [← hcells]; exact (mem_cellOrder _ i' j').mpr ⟨hi', hj'⟩
  obtain ⟨w, hw, hwe⟩ := List.mem_map.mp hm
  obtain ⟨w', hw', hwe'⟩ := List.mem_map.mp hm'
  have e1 := (h2 w hw).2
  have e2 := (h2 w' hw').2
  rw [hwe] at e1
  rw [hwe'] at e2
  simp only at e1 e2
  have hsnd : w.2 = w'.2 := by rw [← e1, ← e2, heq]
  have hww : w = w' := List.inj_on_of_nodup_map (h5 hu) hw hw' hsnd
  apply hne
  rw [← hwe, ← hwe', hww]

/-- C7, on a run that fills the 2 × 2 grid over [1, 10] and skips a
repeated value. -/
theorem PopulateSquareRandom_unique_witness :
    PopulateSquareRandom zeros2 [yield 0, yield 1, yield 1, yield 2, yield 3] 1 10 =
        .done { square := [[1, 2], [3, 4]], used := [4, 3, 2, 1], calls := 5, todo := [] } ∧
      entry [[1, 2], [3, 4]] 0 1 ≠ entry [[1, 2], [3, 4]] 1 0 :=
  ⟨by decide,
    PopulateSquareRandom_unique zeros2 [yield 0, yield 1, yield 1, yield 2, yield 3] 1 10
      { square := [[1, 2], [3, 4]], used := [4, 3, 2, 1], calls := 5, todo := [] }
      (by decide) (by decide) rfl (by decide) 0 1 1 0 (by decide) (by decide) (by decide)
      (by decide) (by decide)⟩

/-- C8: for N ≥ 1 and lowerBound ≤ upperBound, when `PopulateSquareRandom`
returns success on a source that keeps the library's range contract, every
cell (i, j) of the N × N grid lies inside the grid and holds a value generated
during the call: b ^ power for some b of [lowerBound, upperBound] when
power > 1, and a value of [lowerBound, upperBound] when power ≤ 1 (in
particular when power = 1). -/
theorem PopulateSquareRandom_values (ms : MagicSquare) (rnds : List RandCall) (lb ub : Int)
    (s : PopState) (_hN : 1 ≤ ms.size) (_hb : lb ≤ ub)
    (hvalid : ∀ rnd ∈ rnds, InRange rnd (ub - lb + 1))
    (hdone : PopulateSquareRandom ms rnds lb ub = .done s) :
    ∀ i j : Nat, i < ms.size.toNat → j < ms.size.toNat →
      InBounds s.square (i, j) ∧
      (∃ rnd ∈ rnds, GenerateRandomBigInt rnd lb ub ms.power = .ok (entry s.square i j)) ∧
      (1 < ms.power → ∃ b : Int, lb ≤ b ∧ b ≤ ub ∧ entry s.square i j = b ^ ms.power.toNat) ∧
      (ms.power ≤ 1 → lb ≤ entry s.square i j ∧ entry s.square i j ≤ ub) := by
  obtain ⟨ws, h1, h2, _, h4, _⟩ := PopulateSquareRandom_trace ms rnds lb ub
  have hcells := done_cell_written ms rnds lb ub s hdone ws h1
  rw [hdone] at h2
  simp only [Run.state] at h2
  intro i j hi hj
  have hm : (i, j) ∈ ws.map Prod.fst := by
    rw [← hcells]; exact (mem_cellOrder _ i j).mpr ⟨hi, hj⟩
  obtain ⟨w, hw, hwe⟩ := List.mem_map.mp hm
  obtain ⟨hin, he⟩ := h2 w hw
  rw [hwe] at hin he
  simp only at he
  obtain ⟨rnd, hrnd, hg⟩ := h4 w hw
  rw [← he] at hg
  obtain ⟨b, hb1, hb2, hv⟩ := GenerateRandomBigInt_value rnd lb ub ms.power _
    (hvalid rnd hrnd) hg
  refine ⟨hin, ⟨rnd, hrnd, hg⟩, ?_, ?_⟩
  · intro hp
    rw [if_pos hp] at hv
    exact ⟨b, hb1, hb2, hv⟩
  · intro hp
    rw [if_neg (by omega)] at hv
    rw [hv]
    exact ⟨hb1, hb2⟩

/-- C8, on a run that fills the 2 × 2 grid with squares of bases of [1, 10]
(power 2): the last cell holds 16 = 4 ^ 2. -/
theorem PopulateSquareRandom_values_witness :
    PopulateSquareRandom { zeros2 with power := 2 } [yield 0, yield 1, yield 1, yield 2, yield 3]
        1 10 =
        .done { square := [[1, 4], [9, 16]], used := [16, 9, 4, 1], calls := 5, todo := [] } ∧
      ∃ b : Int, 1 ≤ b ∧ b ≤ 10 ∧ entry [[1, 4], [9, 16]] 1 1 = b ^ (2 : Int).toNat :=
  ⟨by decide,
    ((PopulateSquareRandom_values { zeros2 with power := 2 }
      [yield 0, yield 1, yield 1, yield 2, yield 3] 1 10
      { square := [[1, 4], [9, 16]], used := [16, 9, 4, 1], calls := 5, todo := [] }
      (by decide) (by decide)
      (by
        intro rnd h
        simp only [List.mem_cons, List.mem_singleton, List.not_mem_nil, or_false] at h
        rcases h with h | h | h | h | h <;> rw [h] <;>
          exact inRange_yield _ _ (by decide) (by decide))
      (by decide) 1 1 (by decide) (by decide)).2.2.1 (by decide))⟩

/-- C9: when the run is still filling the grid after the outcomes `pre` and
the next call of the random source fails with `e`, `PopulateSquareRandom`
returns exactly `e` and leaves the grid as it stood: the cells filled so far, a
prefix of the row-major order, hold the values written into them (generated by
calls of `pre`), and every other cell, in particular every remaining cell of
the order, holds the value it had before the call. -/
theorem PopulateSquareRandom_failure (ms : MagicSquare) (pre post : List RandCall)
    (bad : RandCall) (lb ub : Int) (e : Error) (s : PopState)
    (hrun : PopulateSquareRandom ms pre lb ub = .pending s)
    (hbad : bad (ub - lb + 1) = .error e) :
    PopulateSquareRandom ms (pre ++ bad :: post) lb ub =
        .failed e { s with calls := s.calls + 1 } ∧
      ∃ ws : List ((Nat × Nat) × Int),
        cellOrder ms.size.toNat = ws.map Prod.fst ++ s.todo ∧ s.todo ≠ [] ∧
        (∀ w ∈ ws, InBounds s.square w.1 ∧ entry s.square w.1.1 w.1.2 = w.2 ∧
          ∃ rnd ∈ pre, GenerateRandomBigInt rnd lb ub ms.power = .ok w.2) ∧
        (∀ p : Nat × Nat, p ∉ ws.map Prod.fst →
          entry s.square p.1 p.2 = entry ms.square p.1 p.2) ∧
        (∀ p ∈ s.todo, entry s.square p.1 p.2 = entry ms.square p.1 p.2) := by
  have htodo : s.todo ≠ [] :=
    populateLoop_pending_todo ms.unique lb ub ms.power pre _ s hrun
  constructor
  · unfold PopulateSquareRandom at hrun ⊢
    rw [populateLoop_append, hrun]
    obtain ⟨p, rest, hp⟩ : ∃ p rest, s.todo = p :: rest := by
      rcases list_nil_or_cons s.todo with h | h
      · exact absurd h htodo
      · exact h
    exact populateLoop_error ms.unique lb ub ms.power bad post s p rest e hp
      (GenerateRandomBigInt_error bad lb ub ms.power e hbad)
  · obtain ⟨ws, h1, h2, h3, h4, _⟩ := PopulateSquareRandom_trace ms pre lb ub
    rw [hrun] at h1 h2 h3
    simp only [Run.state] at h1 h2 h3
    refine ⟨ws, h1, htodo, ?_, h3, ?_⟩
    · intro w hw
      exact ⟨(h2 w hw).1, (h2 w hw).2, h4 w hw⟩
    · intro p hp
      apply h3
      have hnd := nodup_cellOrder ms.size.toNat
      rw [h1] at hnd
      intro hc
      exact (List.nodup_append.mp hnd).2.2 hc hp

/-- C9, on the 2 × 2 grid of zeros: the source fails at the third call, the
first row keeps the written 1 and 2 and the second row keeps its zeros. -/
theorem PopulateSquareRandom_failure_witness :
    PopulateSquareRandom zeros2 [yield 0, yield 1] 1 10 =
        .pending
          { square := [[1, 2], [0, 0]], used := [2, 1], calls := 2, todo := [(1, 0), (1, 1)] } ∧
      PopulateSquareRandom zeros2 ([yield 0, yield 1] ++ broken "entropy" :: [yield 2]) 1 10 =
        .failed "entropy"
          { square := [[1, 2], [0, 0]], used := [2, 1], calls := 3, todo := [(1, 0), (1, 1)] } :=
  ⟨by decide,
    (PopulateSquareRandom_failure zeros2 [yield 0, yield 1] [yield 2] (broken "entropy") 1 10
      "entropy"
      { square := [[1, 2], [0, 0]], used := [2, 1], calls := 2, todo := [(1, 0), (1, 1)] }
      (by decide) rfl).1⟩

/-- C10, the claim as stated fails on an empty range: on the 2 × 2 grid of
zeros with uniqueness, lowerBound = 5 and upperBound = 3, the range holds no
integer (fewer than the four cells), and the first call of the source panics
(line 31, `rand.Int` with max = -1): the call of `PopulateSquareRandom`
neither returns the source's error nor keeps retrying. -/
theorem PopulateSquareRandom_empty_range_faults :
    zeros2.unique = true ∧ WellFormed zeros2 ∧
      (Finset.Icc (5 : Int) 3).card < zeros2.size.toNat ^ 2 ∧
      (∀ rnd ∈ [yield 0], InRange rnd (3 - 5 + 1)) ∧
      PopulateSquareRandom zeros2 [yield 0] 5 3 =
        .fault
          { square := [[0, 0], [0, 0]], used := [], calls := 1,
            todo := [(0, 0), (0, 1), (1, 0), (1, 1)] } ∧
      ¬ ((∃ s : PopState, PopulateSquareRandom zeros2 [yield 0] 5 3 = .pending s) ∨
        (∃ (e : Error) (s : PopState),
          PopulateSquareRandom zeros2 [yield 0] 5 3 = .failed e s)) := by
  have hrun : PopulateSquareRandom zeros2 [yield 0] 5 3 =
      .fault
        { square := [[0, 0], [0, 0]], used := [], calls := 1,
          todo := [(0, 0), (0, 1), (1, 0), (1, 1)] } := by decide
  refine ⟨rfl, by decide, by rw [Int.card_Icc]; decide, ?_, hrun, ?_⟩
  · intro rnd _
    exact inRange_of_nonpos rnd _ (by decide)
  · rw [hrun]
    rintro (⟨s, h⟩ | ⟨e, s, h⟩) <;> cases h

/-- C10, amended: with uniqueness enabled and fewer integers in
[lowerBound, upperBound] than N², `PopulateSquareRandom` returns success on no
sequence of outcomes of a source that keeps the library's range contract.  On
an N × N grid with lowerBound ≤ upperBound the run ends with the error of a
call of the source or is still retrying when the outcomes are used up, however
many there are.  With upperBound < lowerBound the first call of the source
panics: one call is made and no cell is written. -/
theorem PopulateSquareRandom_small_range (ms : MagicSquare) (rnds : List RandCall)
    (lb ub : Int) (hu : ms.unique = true)
    (hcount : (Finset.Icc lb ub).card < ms.size.toNat ^ 2)
    (hvalid : ∀ rnd ∈ rnds, InRange rnd (ub - lb + 1)) :
    (∀ s : PopState, PopulateSquareRandom ms rnds lb ub ≠ .done s) ∧
    (WellFormed ms → lb ≤ ub →
      (∃ s : PopState, PopulateSquareRandom ms rnds lb ub = .pending s) ∨
      (∃ (e : Error) (s : PopState), PopulateSquareRandom ms rnds lb ub = .failed e s ∧
        ∃ rnd ∈ rnds, rnd (ub - lb + 1) = .error e)) ∧
    (ub < lb → rnds ≠ [] →
      PopulateSquareRandom ms rnds lb ub =
        .fault
          { square := ms.square, used := [], calls := 1, todo := cellOrder ms.size.toNat }) := by
  have hnot : ∀ s : PopState, PopulateSquareRandom ms rnds lb ub ≠ .done s := by
    intro s hdone
    obtain ⟨ws, h1, _, _, h4, h5⟩ := PopulateSquareRandom_trace ms rnds lb ub
    have hcells := done_cell_written ms rnds lb ub s hdone ws h1
    have hlen : (ws.map Prod.snd).length = ms.size.toNat ^ 2 := by
      rw [← length_cellOrder, hcells, List.length_map, List.length_map]
    have hsub : (ws.map Prod.snd).toFinset ⊆
        (Finset.Icc lb ub).image (fun b => if ms.power > 1 then b ^ ms.power.toNat else b) := by
      intro v hv
      rw [List.mem_toFinset] at hv
      obtain ⟨w, hw, hwe⟩ := List.mem_map.mp hv
      obtain ⟨rnd, hrnd, hg⟩ := h4 w hw
      obtain ⟨b, hb1, hb2, hb⟩ := GenerateRandomBigInt_value rnd lb ub ms.power w.2
        (hvalid rnd hrnd) hg
      rw [Finset.mem_image]
      exact ⟨b, Finset.mem_Icc.mpr ⟨hb1, hb2⟩, by rw [← hwe, hb]⟩
    have hcard := Finset.card_le_card hsub
    rw [List.toFinset_card_of_nodup (h5 hu), hlen] at hcard
    have := Finset.card_image_le (s := Finset.Icc lb ub)
      (f := fun b => if ms.power > 1 then b ^ ms.power.toNat else b)
    omega
  refine ⟨hnot, ?_, ?_⟩
  · intro hwf hb
    obtain ⟨_, hlen, hrow⟩ := hwf
    cases hres : PopulateSquareRandom ms rnds lb ub with
    | done s => exact absurd hres (hnot s)
    | pending s => exact Or.inl ⟨s, rfl⟩
    | failed e s =>
      exact Or.inr ⟨e, s, rfl,
        populateLoop_failed_source ms.unique lb ub ms.power rnds _ s e hres⟩
    | fault s =>
      exfalso
      refine populateLoop_no_fault ms.unique lb ub ms.power rnds _ s hb ?_ hres
      intro p hp
      simp only at hp ⊢
      obtain ⟨hi, hj⟩ := (mem_cellOrder ms.size.toNat p.1 p.2).mp hp
      have hi' : p.1 < ms.square.length := by omega
      refine ⟨hi', ?_⟩
      have hmem : ms.square.getD p.1 [] ∈ ms.square := by
        simp [List.getD_eq_getElem?_getD, hi']
      rw [hrow _ hmem]
      exact hj
  · intro hb hne
    rcases list_nil_or_cons rnds with h | ⟨rnd, rest, h⟩
    · exact absurd h hne
    · rw [h]
      refine populateLoop_empty_range ms.unique lb ub ms.power rnd rest _ hb ?_
      intro hnil
      have hl := length_cellOrder ms.size.toNat
      simp only at hnil
      rw [hnil] at hl
      simp only [List.length_nil] at hl
      omega

/-- C10, on the 2 × 2 grid over [1, 3], three integers for four cells: after
three distinct values every further value is a repeat and the run is still
retrying on the last cell; it has not succeeded, and by the theorem it is in
one of the two states of the dichotomy. -/
theorem PopulateSquareRandom_small_range_witness :
    zeros2.unique = true ∧ WellFormed zeros2 ∧
      (Finset.Icc (1 : Int) 3).card < zeros2.size.toNat ^ 2 ∧
      (∀ s : PopState,
        PopulateSquareRandom zeros2 [yield 0, yield 1, yield 2, yield 0, yield 2, yield 1] 1 3 ≠
          .done s) ∧
      ((∃ s : PopState,
          PopulateSquareRandom zeros2 [yield 0, yield 1, yield 2, yield 0, yield 2, yield 1] 1 3 =
            .pending s) ∨
        (∃ (e : Error) (s : PopState),
          PopulateSquareRandom zeros2 [yield 0, yield 1, yield 2, yield 0, yield 2, yield 1] 1 3 =
            .failed e s ∧
          ∃ rnd ∈ [yield 0, yield 1, yield 2, yield 0, yield 2, yield 1],
            rnd (3 - 1 + 1) = .error e)) ∧
      PopulateSquareRandom zeros2 [yield 0, yield 1, yield 2, yield 0, yield 2, yield 1] 1 3 =
        .pending { square := [[1, 2], [3, 0]], used := [3, 2, 1], calls := 6, todo := [(1, 1)] } :=
  have h := PopulateSquareRandom_small_range zeros2
    [yield 0, yield 1, yield 2, yield 0, yield 2, yield 1] 1 3 rfl
    (by rw [Int.card_Icc]; decide)
    (by
      intro rnd h
      simp only [List.mem_cons, List.mem_singleton, List.not_mem_nil, or_false] at h
      rcases h with h | h | h | h | h | h <;> rw [h] <;>
        exact inRange_yield _ _ (by decide) (by decide))
  ⟨rfl, by decide, by rw [Int.card_Icc]; decide, h.1, h.2.1 (by decide) (by decide), by decide⟩

/-! ## The claim on the constructor -/

theorem wellFormed_applyWrites (ws : List ((Nat × Nat) × Int)) (ms : MagicSquare)
    (hwf : WellFormed ms) : WellFormed { ms with square := applyWrites ms.square ws } := by
  induction ws generalizing ms with
  | nil => exact hwf
  | cons w ws ih =>
    obtain ⟨q, v⟩ := w
    simp only [applyWrites]
    exact ih { ms with square := updateCell ms.square q.1 q.2 v }
      (wellFormed_updateCell ms q.1 q.2 v hwf)

/-- Whatever way a run of `PopulateSquareRandom` stands, an N × N grid is
still N × N. -/
theorem wellFormed_PopulateSquareRandom (ms : MagicSquare) (rnds : List RandCall) (lb ub : Int)
    (hwf : WellFormed ms) :
    WellFormed { ms with square := (PopulateSquareRandom ms rnds lb ub).state.square } := by
  obtain ⟨ws, _, h2, _, _, _⟩ := populateLoop_trace ms.unique lb ub ms.power rnds
    { square := ms.square, used := [], calls := 0, todo := cellOrder ms.size.toNat }
  unfold PopulateSquareRandom
  rw [h2]
  exact wellFormed_applyWrites ws ms hwf

/-- C11: for every size N ≥ 0 within the machine integer range, N < 2^63,
`NewMagicSquare` returns a grid with exactly N rows of exactly N cells, every
cell holding 0, and with the size, the uniqueness flag and the power stored as
given; and a successful `PopulateSquareRandom` on an N × N grid leaves the
grid N × N. -/
theorem NewMagicSquare_shape (size : Int) (u : Bool) (p : Int) (hsize : 0 ≤ size)
    (hmax : size < 2 ^ 63) :
    (∃ ms : MagicSquare, NewMagicSquare size u p = some ms ∧
      ms.size = size ∧ ms.unique = u ∧ ms.power = p ∧
      ms.square.length = size.toNat ∧
      (∀ row ∈ ms.square, row.length = size.toNat ∧ ∀ v ∈ row, v = 0) ∧
      WellFormed ms) ∧
    (∀ (ms : MagicSquare) (rnds : List RandCall) (lb ub : Int) (s : PopState),
      ms.size = size → WellFormed ms → PopulateSquareRandom ms rnds lb ub = .done s →
      s.square.length = size.toNat ∧ ∀ row ∈ s.square, row.length = size.toNat) := by
  constructor
  · have hneg : ¬ size < 0 := by omega
    have h64 : Int64 size = size := Int64_of_range size (by omega) hmax
    refine ⟨{ size := size
              square :=
                (List.range size.toNat).map (fun _ => (List.range size.toNat).map (fun _ => 0))
              unique := u
              power := p },
      by simp only [NewMagicSquare, h64, if_neg hneg], rfl, rfl, rfl, ?_, ?_, ?_⟩
    · simp
    · intro row hrow
      simp only [List.mem_map, List.mem_range] at hrow
      obtain ⟨_, _, hr⟩ := hrow
      subst hr
      refine ⟨by simp, ?_⟩
      intro v hv
      simp only [List.mem_map, List.mem_range] at hv
      obtain ⟨_, _, hv'⟩ := hv
      exact hv'.symm
    · refine ⟨hsize, by simp, ?_⟩
      intro row hrow
      simp only [List.mem_map, List.mem_range] at hrow
      obtain ⟨_, _, hr⟩ := hrow
      subst hr
      simp
  · intro ms rnds lb ub s hsz hwf hdone
    have h := wellFormed_PopulateSquareRandom ms rnds lb ub hwf
    rw [hdone] at h
    obtain ⟨_, h1, h2⟩ := h
    simp only [Run.state] at h1 h2
    rw [← hsz]
    exact ⟨h1, h2⟩

/-- C11, for size 2: the constructor returns the 2 × 2 grid of zeros, and
the grid filled by a successful random population has two rows. -/
theorem NewMagicSquare_shape_witness :
    NewMagicSquare 2 true 1 = some zeros2 ∧
      ([[1, 2], [3, 4]] : Grid).length = (2 : Int).toNat := by
  refine ⟨by decide, ?_⟩
  exact ((NewMagicSquare_shape 2 true 1 (by decide) (by decide)).2 zeros2
    [yield 0, yield 1, yield 1, yield 2, yield 3] 1 10
    { square := [[1, 2], [3, 4]], used := [4, 3, 2, 1], calls := 5, todo := [] }
    rfl (by decide) (by decide)).1

/-! ## Transposition -/

theorem list_sum_range_eq (f : Nat → Int) (n : Nat) :
    ((List.range n).map f).sum = ∑ i in Finset.range n, f i := by
  induction n with
  | zero => simp
  | succ n ih =>
    rw [List.range_succ, Finset.sum_range_succ, List.map_append, List.sum_append, ih]
    simp

theorem list_sum_range_reflect (f : Nat → Int) (n : Nat) :
    ((List.range n).map (fun i => f (n - 1 - i))).sum = ((List.range n).map f).sum := by
  rw [list_sum_range_eq, list_sum_range_eq]
  exact Finset.sum_range_reflect f n

theorem entry_transposeGrid (sq : Grid) (n i j : Nat) (hi : i < n) (hj : j < n) :
    entry (transposeGrid sq n) i j = entry sq j i := by
  simp [entry, transposeGrid, List.getD_eq_getElem?_getD, hi, hj]

theorem wellFormed_transposeSquare (ms : MagicSquare) (hwf : WellFormed ms) :
    WellFormed (transposeSquare ms) := by
  refine ⟨hwf.1, by simp [transposeSquare, transposeGrid], ?_⟩
  intro row hrow
  simp only [transposeSquare, transposeGrid, List.mem_map, List.mem_range] at hrow
  obtain ⟨_, _, hr⟩ := hrow
  subst hr
  simp [transposeSquare]

theorem rowTotal_transposeGrid (sq : Grid) (n i : Nat) (hi : i < n) :
    rowTotal (transposeGrid sq n) n i = colTotal sq n i := by
  unfold rowTotal colTotal
  exact sum_range_congr _ _ n (fun k hk => entry_transposeGrid sq n i k hi hk)

theorem colTotal_transposeGrid (sq : Grid) (n j : Nat) (hj : j < n) :
    colTotal (transposeGrid sq n) n j = rowTotal sq n j := by
  unfold rowTotal colTotal
  exact sum_range_congr _ _ n (fun k hk => entry_transposeGrid sq n k j hk hj)

theorem mainDiagTotal_transposeGrid (sq : Grid) (n : Nat) :
    mainDiagTotal (transposeGrid sq n) n = mainDiagTotal sq n := by
  unfold mainDiagTotal
  exact sum_range_congr _ _ n (fun k hk => entry_transposeGrid sq n k k hk hk)

theorem antiDiagTotal_transposeGrid (sq : Grid) (n : Nat) :
    antiDiagTotal (transposeGrid sq n) n = antiDiagTotal sq n := by
  unfold antiDiagTotal
  rw [← list_sum_range_reflect (fun k => entry sq k (n - 1 - k)) n]
  apply sum_range_congr
  intro k hk
  rw [entry_transposeGrid sq n k (n - 1 - k) hk (by omega)]
  congr 1
  omega

/-- The predicate of the specification does not see a transposition. -/
theorem allSumsEqual_transposeSquare (ms : MagicSquare) (hN : 1 ≤ ms.size) :
    AllSumsEqual (transposeSquare ms) ↔ AllSumsEqual ms := by
  have hn : 0 < ms.size.toNat := by omega
  unfold AllSumsEqual
  simp only [transposeSquare]
  rw [mainDiagTotal_transposeGrid, antiDiagTotal_transposeGrid,
    rowTotal_transposeGrid ms.square ms.size.toNat 0 hn]
  constructor
  · rintro ⟨h1, h2, h3, h4⟩
    have hc : ∀ j < ms.size.toNat,
        colTotal ms.square ms.size.toNat j = colTotal ms.square ms.size.toNat 0 := by
      intro j hj
      rw [← rowTotal_transposeGrid ms.square ms.size.toNat j hj]
      exact h1 j hj
    have hr : ∀ i < ms.size.toNat,
        rowTotal ms.square ms.size.toNat i = colTotal ms.square ms.size.toNat 0 := by
      intro i hi
      rw [← colTotal_transposeGrid ms.square ms.size.toNat i hi]
      exact h2 i hi
    have h0 := hr 0 hn
    refine ⟨?_, ?_, ?_, ?_⟩
    · intro i hi; rw [hr i hi, h0]
    · intro j hj; rw [hc j hj, h0]
    · rw [h3, h0]
    · rw [h4, h0]
  · rintro ⟨h1, h2, h3, h4⟩
    have h0 := h2 0 hn
    refine ⟨?_, ?_, ?_, ?_⟩
    · intro i hi
      rw [rowTotal_transposeGrid ms.square ms.size.toNat i hi, h2 i hi, h0]
    · intro j hj
      rw [colTotal_transposeGrid ms.square ms.size.toNat j hj, h1 j hj, h0]
    · rw [h3, h0]
    · rw [h4, h0]

/-- C18: on an N × N grid, for every N, `IsMagic` returns the same result
on the transposed grid, whose cell (i, j) holds the cell (j, i) of the grid,
as on the grid itself. -/
theorem IsMagic_transposeSquare (ms : MagicSquare) (hwf : WellFormed ms) :
    IsMagic (transposeSquare ms) = IsMagic ms ∧
      ∀ i j : Nat, i < ms.size.toNat → j < ms.size.toNat →
        entry (transposeSquare ms).square i j = entry ms.square j i := by
  refine ⟨?_, fun i j hi hj => entry_transposeGrid ms.square ms.size.toNat i j hi hj⟩
  by_cases h0 : ms.size = 0
  · simp [IsMagic, transposeSquare, h0]
  · have hN : 1 ≤ ms.size := by have := hwf.1; omega
    rw [IsMagic_eq_decide ms hN hwf,
      IsMagic_eq_decide (transposeSquare ms) hN (wellFormed_transposeSquare ms hwf)]
    congr 1
    exact decide_eq_decide.mpr (allSumsEqual_transposeSquare ms hN)

/-- C18, on a grid whose rows all sum to 6 while its columns do not: the
grid and its transpose are both rejected. -/
theorem IsMagic_transposeSquare_witness :
    (transposeSquare { size := 2, square := [[1, 5], [2, 4]], unique := false, power := 1 }).square
        = [[1, 2], [5, 4]] ∧
      IsMagic (transposeSquare
        { size := 2, square := [[1, 5], [2, 4]], unique := false, power := 1 }) = some false ∧
      IsMagic { size := 2, square := [[1, 5], [2, 4]], unique := false, power := 1 } =
        some false := by
  have h := (IsMagic_transposeSquare
    { size := 2, square := [[1, 5], [2, 4]], unique := false, power := 1 } (by decide)).1
  refine ⟨by decide, ?_, by decide⟩
  rw [h]
  decide

/-! ## The order of filling -/

theorem accepted_false (used : List Int) (vals : List Int) :
    accepted false used vals = vals := by
  induction vals generalizing used with
  | nil => rfl
  | cons v vs ih => simp [accepted, ih]

theorem accepted_true_eq_filter (used : List Int) (vals : List Int) :
    accepted true used vals =
      (firstOccurrences vals).filter (fun w => decide (w ∉ used)) := by
  induction vals generalizing used with
  | nil => rfl
  | cons v vs ih =>
    by_cases hv : v ∈ used
    · simp only [accepted, Bool.true_and, decide_eq_true hv, if_true, firstOccurrences]
      rw [ih used, List.filter_cons_of_neg (by simpa using hv), List.filter_filter]
      apply List.filter_congr
      intro w _
      by_cases hw : w ∈ used
      · simp [hw]
      · have : w ≠ v := fun e => hw (e ▸ hv)
        simp [hw, this]
    · simp only [accepted, Bool.true_and, decide_eq_false hv, firstOccurrences]
      rw [List.filter_cons_of_pos (by simpa using hv), ih (used.insert v), List.filter_filter]
      simp only [Bool.false_eq_true, if_false]
      congr 1
      apply List.filter_congr
      intro w _
      by_cases hw : w = v
      · simp [hw]
      · by_cases hw' : w ∈ used
        · simp [hw, hw']
        · simp [hw, hw']

/-- With no key to start with, the stored values are the pairwise distinct
values of the stream in order of first occurrence. -/
theorem accepted_true_nil (vals : List Int) :
    accepted true [] vals = firstOccurrences vals := by
  rw [accepted_true_eq_filter]
  simp

theorem accepted_cons_reject (used : List Int) (v : Int) (vs : List Int) (hv : v ∈ used) :
    accepted true used (v :: vs) = accepted true used vs := by
  simp [accepted, hv]

theorem accepted_cons_accept (u : Bool) (used : List Int) (v : Int) (vs : List Int)
    (hacc : u = false ∨ v ∉ used) :
    accepted u used (v :: vs) = v :: accepted u (used.insert v) vs := by
  rcases hacc with h | h
  · simp [accepted, h]
  · simp [accepted, h]

/-- On a stream of values, of which enough are stored to fill the cells
still to fill, and with these cells inside the grid, the loops return success
after `k` calls, and the cells received, in order, the first stored values. -/
theorem populateLoop_of_values (u : Bool) (lb ub pw : Int) (rnds rest : List RandCall)
    (vals : List Int) (s : PopState)
    (hvals : rnds.map (fun rnd => GenerateRandomBigInt rnd lb ub pw) = vals.map Outcome.ok)
    (hin : ∀ p ∈ s.todo, InBounds s.square p)
    (hlen : s.todo.length ≤ (accepted u s.used vals).length) :
    ∃ (s' : PopState) (k : Nat),
      populateLoop u lb ub pw (rnds ++ rest) s = .done s' ∧ k ≤ vals.length ∧
      s'.calls = s.calls + k ∧
      s'.square =
        applyWrites s.square (s.todo.zip ((accepted u s.used vals).take s.todo.length)) ∧
      (accepted u s.used vals).take s.todo.length = accepted u s.used (vals.take k) ∧
      (u = false → k = s.todo.length) := by
  induction rnds generalizing vals s with
  | nil =>
    have hv : vals = [] := by
      cases vals with
      | nil => rfl
      | cons v vs => simp at hvals
    subst hv
    have ht : s.todo = [] := by
      simp only [accepted, List.length_nil, Nat.le_zero, List.length_eq_zero] at hlen
      exact hlen
    refine ⟨s, 0, ?_, le_refl _, rfl, ?_, ?_, ?_⟩
    · rw [List.nil_append]
      exact populateLoop_todo_nil u lb ub pw rest s ht
    · rw [ht]; rfl
    · rw [ht]; rfl
    · intro _; rw [ht]; rfl
  | cons rnd rnds ih =>
    cases vals with
    | nil => simp at hvals
    | cons v vs =>
      simp only [List.map_cons, List.cons.injEq] at hvals
      obtain ⟨hg, hvs⟩ := hvals
      rw [List.cons_append]
      rcases list_nil_or_cons s.todo with ht | ⟨p, rest', ht⟩
      · refine ⟨s, 0, populateLoop_todo_nil u lb ub pw _ s ht, Nat.zero_le _, rfl, ?_, ?_, ?_⟩
        · rw [ht]; rfl
        · rw [ht]; rfl
        · intro _; rw [ht]; rfl
      · by_cases hrej : u = true ∧ v ∈ s.used
        · obtain ⟨hu, hmem⟩ := hrej
          subst hu
          rw [populateLoop_reject true lb ub pw rnd _ s p rest' v ht hg rfl hmem]
          rw [accepted_cons_reject s.used v vs hmem] at hlen ⊢
          obtain ⟨s', k, h1, h2, h3, h4, h5, h6⟩ :=
            ih vs { s with calls := s.calls + 1 } hvs hin hlen
          refine ⟨s', k + 1, h1, ?_, ?_, h4, ?_, ?_⟩
          · simp only [List.length_cons]; omega
          · rw [h3]; simp only; omega
          · rw [List.take_succ_cons, accepted_cons_reject s.used v _ hmem]
            exact h5
          · intro h; cases h
        · have hacc : u = false ∨ v ∉ s.used := by
            cases u
            · exact Or.inl rfl
            · right
              intro hc
              exact hrej ⟨rfl, hc⟩
          have hp : InBounds s.square p := hin p (by rw [ht]; exact List.mem_cons_self _ _)
          have hw := writeCell_of_inBounds s.square p.1 p.2 v hp
          rw [populateLoop_accept u lb ub pw rnd _ s p rest' v _ ht hg hacc hw]
          rw [accepted_cons_accept u s.used v vs hacc] at hlen ⊢
          rw [ht] at hlen ⊢
          simp only [List.length_cons, Nat.add_le_add_iff_right] at hlen
          obtain ⟨s', k, h1, h2, h3, h4, h5, h6⟩ := ih vs
            { square := updateCell s.square p.1 p.2 v, used := s.used.insert v,
              calls := s.calls + 1, todo := rest' } hvs
            (by
              intro q hq
              exact (inBounds_updateCell s.square p.1 p.2 v q).mpr
                (hin q (by rw [ht]; exact List.mem_cons_of_mem _ hq)))
            hlen
          simp only at h3 h4 h5 h6
          refine ⟨s', k + 1, h1, ?_, ?_, ?_, ?_, ?_⟩
          · simp only [List.length_cons]; omega
          · rw [h3]; omega
          · rw [h4]
            simp only [List.length_cons, List.take_succ_cons]
            rfl
          · simp only [List.length_cons, List.take_succ_cons]
            rw [accepted_cons_accept u s.used v _ hacc, h5]
          · intro h
            simp only [List.length_cons]
            rw [h6 h]

/-- The cells written in order hold the values written, read back in the same
order. -/
theorem map_entry_applyWrites_zip (todo : List (Nat × Nat)) (vals : List Int) (sq : Grid)
    (hnd : todo.Nodup) (hin : ∀ p ∈ todo, InBounds sq p) (hlen : vals.length = todo.length) :
    todo.map (fun p => entry (applyWrites sq (todo.zip vals)) p.1 p.2) = vals := by
  induction todo generalizing vals sq with
  | nil =>
    cases vals with
    | nil => rfl
    | cons v vs => simp at hlen
  | cons p rest ih =>
    cases vals with
    | nil => simp at hlen
    | cons v vs =>
      simp only [List.length_cons, Nat.add_right_cancel_iff] at hlen
      rw [List.nodup_cons] at hnd
      have hp : InBounds sq p := hin p (List.mem_cons_self _ _)
      have hin' : ∀ q ∈ rest, InBounds (updateCell sq p.1 p.2 v) q := fun q hq =>
        (inBounds_updateCell sq p.1 p.2 v q).mpr (hin q (List.mem_cons_of_mem _ hq))
      have hzin : ∀ w ∈ rest.zip vs, InBounds (updateCell sq p.1 p.2 v) w.1 := by
        intro w hw
        exact hin' w.1 (List.of_mem_zip hw).1
      have hpz : p ∉ (rest.zip vs).map Prod.fst := by
        intro hc
        obtain ⟨w, hw, hwe⟩ := List.mem_map.mp hc
        apply hnd.1
        rw [← hwe]
        exact (List.of_mem_zip hw).1
      change entry (applyWrites (updateCell sq p.1 p.2 v) (rest.zip vs)) p.1 p.2 ::
        rest.map (fun q => entry (applyWrites (updateCell sq p.1 p.2 v) (rest.zip vs)) q.1 q.2) =
        v :: vs
      rw [ih vs (updateCell sq p.1 p.2 v) hnd.2 hin' hlen,
        entry_applyWrites_of_not_mem _ _ p hzin hpz,
        entry_updateCell sq p.1 p.2 p.1 p.2 v hp.1 hp.2]
      simp

theorem product_getElem? {α β : Type} (l₁ : List α) (l₂ : List β) (i j : Nat)
    (hi : i < l₁.length) (hj : j < l₂.length) :
    (List.product l₁ l₂)[i * l₂.length + j]? = some (l₁[i], l₂[j]) := by
  induction l₁ generalizing i with
  | nil => simp at hi
  | cons a l₁ ih =>
    have hcons : List.product (a :: l₁) l₂ = l₂.map (Prod.mk a) ++ List.product l₁ l₂ :=
      List.product_cons a l₁ l₂
    rw [hcons]
    cases i with
    | zero =>
      rw [List.getElem?_append_left (by simpa using hj)]
      simp [hj]
    | succ i =>
      have hidx : (i + 1) * l₂.length + j = (l₂.map (Prod.mk a)).length + (i * l₂.length + j) := by
        rw [List.length_map]; ring
      rw [hidx, List.getElem?_append_right (Nat.le_add_right _ _), Nat.add_sub_cancel_left]
      rw [ih i (by simpa using hi)]
      simp

/-- The cell (i, j) is number i * n + j of the row-major order. -/
theorem cellOrder_getElem? (n i j : Nat) (hi : i < n) (hj : j < n) :
    (cellOrder n)[i * n + j]? = some (i, j) := by
  have h := product_getElem? (List.range n) (List.range n) i j (by simpa using hi)
    (by simpa using hj)
  simp only [List.length_range, List.getElem_range] at h
  exact h

theorem inBounds_of_wellFormed (ms : MagicSquare) (hwf : WellFormed ms) :
    ∀ p ∈ cellOrder ms.size.toNat, InBounds ms.square p := by
  obtain ⟨_, hlen, hrow⟩ := hwf
  intro p hp
  obtain ⟨hi, hj⟩ := (mem_cellOrder ms.size.toNat p.1 p.2).mp hp
  have hi' : p.1 < ms.square.length := by omega
  refine ⟨hi', ?_⟩
  have hmem : ms.square.getD p.1 [] ∈ ms.square := by
    simp [List.getD_eq_getElem?_getD, hi']
  rw [hrow _ hmem]
  exact hj

/-- A successful run on a stream of values, read back in row-major
order. -/
theorem PopulateSquareRandom_of_values (ms : MagicSquare) (rnds rest : List RandCall)
    (vals : List Int) (lb ub : Int) (hwf : WellFormed ms)
    (hvals : rnds.map (fun rnd => GenerateRandomBigInt rnd lb ub ms.power) = vals.map Outcome.ok)
    (hlen : ms.size.toNat ^ 2 ≤ (accepted ms.unique [] vals).length) :
    ∃ (s : PopState) (k : Nat),
      PopulateSquareRandom ms (rnds ++ rest) lb ub = .done s ∧ k ≤ vals.length ∧ s.calls = k ∧
      readCells s.square ms.size.toNat = (accepted ms.unique [] vals).take (ms.size.toNat ^ 2) ∧
      readCells s.square ms.size.toNat = accepted ms.unique [] (vals.take k) ∧
      (ms.unique = false → k = ms.size.toNat ^ 2) := by
  obtain ⟨s, k, h1, h2, h3, h4, h5, h6⟩ := populateLoop_of_values ms.unique lb ub ms.power rnds
    rest vals
    { square := ms.square, used := [], calls := 0, todo := cellOrder ms.size.toNat } hvals
    (inBounds_of_wellFormed ms hwf) (by simp only [length_cellOrder]; exact hlen)
  simp only [length_cellOrder] at h4 h5 h6
  have hread : readCells s.square ms.size.toNat =
      (accepted ms.unique [] vals).take (ms.size.toNat ^ 2) := by
    unfold readCells
    rw [h4]
    exact map_entry_applyWrites_zip _ _ ms.square (nodup_cellOrder _)
      (inBounds_of_wellFormed ms hwf)
      (by rw [List.length_take, length_cellOrder]; omega)
  refine ⟨s, k, h1, h2, by rw [h3]; simp, hread, ?_, h6⟩
  rw [hread, h5]

/-- C17: `PopulateSquareRandom` fills an N × N grid in row-major order from
the stream of generated values.  With uniqueness disabled and at least N²
values, the run returns success after exactly N² calls and cell (i, j) holds
value number i * N + j of the stream.  With uniqueness enabled and at least
N² distinct values, the run returns success and the cells, read in row-major
order, are the first N² values of the list of pairwise distinct values in
order of first occurrence; these are the distinct values of the calls made,
every repeated value being passed over. -/
theorem PopulateSquareRandom_order (ms : MagicSquare) (rnds rest : List RandCall)
    (vals : List Int) (lb ub : Int) (hwf : WellFormed ms)
    (hvals : rnds.map (fun rnd => GenerateRandomBigInt rnd lb ub ms.power) =
      vals.map Outcome.ok) :
    (ms.unique = false → ms.size.toNat ^ 2 ≤ vals.length →
      ∃ s : PopState, PopulateSquareRandom ms (rnds ++ rest) lb ub = .done s ∧
        s.calls = ms.size.toNat ^ 2 ∧
        readCells s.square ms.size.toNat = vals.take (ms.size.toNat ^ 2) ∧
        ∀ i j : Nat, i < ms.size.toNat → j < ms.size.toNat →
          vals[i * ms.size.toNat + j]? = some (entry s.square i j)) ∧
    (ms.unique = true → ms.size.toNat ^ 2 ≤ (firstOccurrences vals).length →
      ∃ s : PopState, PopulateSquareRandom ms (rnds ++ rest) lb ub = .done s ∧
        readCells s.square ms.size.toNat = (firstOccurrences vals).take (ms.size.toNat ^ 2) ∧
        s.calls ≤ vals.length ∧
        readCells s.square ms.size.toNat = firstOccurrences (vals.take s.calls)) := by
  constructor
  · intro hu hlen
    obtain ⟨s, k, h1, _, h3, h4, _, h6⟩ := PopulateSquareRandom_of_values ms rnds rest vals lb ub
      hwf hvals (by rw [hu, accepted_false]; exact hlen)
    rw [hu, accepted_false] at h4
    refine ⟨s, h1, by rw [h3, h6 hu], h4, ?_⟩
    intro i j hi hj
    have hidx : i * ms.size.toNat + j < ms.size.toNat ^ 2 := by
      have h1 : (i + 1) * ms.size.toNat ≤ ms.size.toNat * ms.size.toNat :=
        Nat.mul_le_mul_right _ hi
      rw [pow_two]
      have h2 : (i + 1) * ms.size.toNat = i * ms.size.toNat + ms.size.toNat := by ring
      omega
    have hcell := cellOrder_getElem? ms.size.toNat i j hi hj
    have hget : (readCells s.square ms.size.toNat)[i * ms.size.toNat + j]? =
        some (entry s.square i j) := by
      unfold readCells
      rw [List.getElem?_map, hcell]
      rfl
    rw [h4, List.getElem?_take_of_lt hidx] at hget
    exact hget
  · intro hu hlen
    obtain ⟨s, k, h1, h2, h3, h4, h5, _⟩ := PopulateSquareRandom_of_values ms rnds rest vals lb ub
      hwf hvals (by rw [hu, accepted_true_nil]; exact hlen)
    rw [hu, accepted_true_nil] at h4 h5
    refine ⟨s, h1, h4, by rw [h3]; exact h2, ?_⟩
    rw [h3]
    exact h5

/-- C17, on the 2 × 2 grid: with uniqueness disabled the four cells receive
the first four values 1, 2, 2, 3 of the stream; with uniqueness enabled the
repeated 2 is passed over and the cells receive 1, 2, 3, 4 after five calls. -/
theorem PopulateSquareRandom_order_witness :
    PopulateSquareRandom { zeros2 with unique := false }
        ([yield 0, yield 1, yield 1, yield 2, yield 3] ++ [broken "entropy"]) 1 10 =
        .done { square := [[1, 2], [2, 3]], used := [3, 2, 1], calls := 4, todo := [] } ∧
      PopulateSquareRandom zeros2
        ([yield 0, yield 1, yield 1, yield 2, yield 3] ++ [broken "entropy"]) 1 10 =
        .done { square := [[1, 2], [3, 4]], used := [4, 3, 2, 1], calls := 5, todo := [] } ∧
      (∃ s : PopState, PopulateSquareRandom { zeros2 with unique := false }
        ([yield 0, yield 1, yield 1, yield 2, yield 3] ++ [broken "entropy"]) 1 10 = .done s ∧
        s.calls = 4 ∧ readCells s.square 2 = [1, 2, 2, 3]) ∧
      (∃ s : PopState, PopulateSquareRandom zeros2
        ([yield 0, yield 1, yield 1, yield 2, yield 3] ++ [broken "entropy"]) 1 10 = .done s ∧
        readCells s.square 2 = [1, 2, 3, 4]) := by
  have h1 := (PopulateSquareRandom_order { zeros2 with unique := false }
    [yield 0, yield 1, yield 1, yield 2, yield 3] [broken "entropy"] [1, 2, 2, 3, 4] 1 10
    (by decide) rfl).1 rfl (by decide)
  have h2 := (PopulateSquareRandom_order zeros2
    [yield 0, yield 1, yield 1, yield 2, yield 3] [broken "entropy"] [1, 2, 2, 3, 4] 1 10
    (by decide) rfl).2 rfl (by decide)
  refine ⟨by decide, by decide, ?_, ?_⟩
  · obtain ⟨s, hs, hc, hr, _⟩ := h1
    exact ⟨s, hs, hc, hr⟩
  · obtain ⟨s, hs, hr, _, _⟩ := h2
    exact ⟨s, hs, hr⟩

/-! ## Lemmas on the determined population -/

theorem interiorSpin_not_done (lb ub pw : Int) (rnds : List RandCall) (s s' : DetState) :
    interiorSpin lb ub pw rnds s ≠ .done s' := by
  induction rnds generalizing s with
  | nil => intro h; cases h
  | cons rnd rnds ih =>
    unfold interiorSpin
    cases hg : GenerateRandomBigInt rnd lb ub pw with
    | panic => intro h; cases h
    | error e => intro h; cases h
    | ok num =>
      simp only
      split
      · exact ih _
      · exact ih _

theorem interiorSpin_failed (lb ub pw : Int) (rnds : List RandCall) (s s' : DetState)
    (e : Error) (h : interiorSpin lb ub pw rnds s = .failed e s') :
    ∃ rnd ∈ rnds, GenerateRandomBigInt rnd lb ub pw = .error e := by
  induction rnds generalizing s with
  | nil => cases h
  | cons rnd rnds ih =>
    unfold interiorSpin at h
    cases hg : GenerateRandomBigInt rnd lb ub pw with
    | panic =>
      rw [hg] at h
      cases h
    | error e' =>
      rw [hg] at h
      simp only at h
      cases h
      exact ⟨rnd, List.mem_cons_self _ _, hg⟩
    | ok num =>
      rw [hg] at h
      simp only at h
      split at h
      · obtain ⟨r, hr, hre⟩ := ih _ h
        exact ⟨r, List.mem_cons_of_mem _ hr, hre⟩
      · obtain ⟨r, hr, hre⟩ := ih _ h
        exact ⟨r, List.mem_cons_of_mem _ hr, hre⟩

theorem allNil_replicate (n : Nat) : AllNil (List.replicate n none) := by
  intro j c h
  rw [List.get?_eq_getElem?, List.getElem?_replicate] at h
  split at h <;> cases h

/-- With no entry of `tempColSums` assigned, the fill loops fault at the
first cell they visit. -/
theorem fillLoop_fault (u : Bool) (size lb ub pw : Int) (rnds : List RandCall)
    (p : Nat × Nat) (rest : List (Nat × Nat)) (s : DetState) (hnil : AllNil s.tempColSums) :
    ∃ s', fillLoop u size lb ub pw rnds (p :: rest) s = .fault s' ∧ s'.calls = s.calls ∧
      s'.used = s.used ∧ s'.rowSum = s.rowSum ∧
      (s'.square = s.square ∨
        (((p.1 : Int) = size - 1 ∨ (p.2 : Int) = size - 1) ∧
          s'.square = updateCell s.square p.1 p.2 s.rowSum)) := by
  obtain ⟨i, j⟩ := p
  unfold fillLoop
  by_cases hd : (i : Int) = size - 1 ∨ (j : Int) = size - 1
  · rw [if_pos hd]
    simp only [sub_zero]
    cases hw : writeCell s.square i j s.rowSum with
    | none => exact ⟨s, rfl, rfl, rfl, rfl, Or.inl rfl⟩
    | some sq =>
      have hsq := (writeCell_eq_some s.square sq i j s.rowSum hw).2
      simp only
      cases hc : s.tempColSums.get? j with
      | none => exact ⟨_, rfl, rfl, rfl, rfl, Or.inr ⟨hd, hsq⟩⟩
      | some c =>
        cases c with
        | none => exact ⟨_, rfl, rfl, rfl, rfl, Or.inr ⟨hd, hsq⟩⟩
        | some c => exact absurd hc (hnil j c)
  · rw [if_neg hd]
    unfold interiorLoop
    cases hc : s.tempColSums.get? j with
    | none => exact ⟨s, rfl, rfl, rfl, rfl, Or.inl rfl⟩
    | some c =>
      cases c with
      | none => exact ⟨s, rfl, rfl, rfl, rfl, Or.inl rfl⟩
      | some c => exact absurd hc (hnil j c)

theorem uniqueCheck_eq_some (unique : Bool) (used : List Int) (size : Int) (e : Error) :
    uniqueCheck unique used size = some e ↔
      unique = true ∧ (used.length : Int) < wrap64 (Int64 size * Int64 size) ∧
        e = nonUniqueFill := by
  unfold uniqueCheck
  cases unique
  · simp
  · by_cases h : (used.length : Int) < wrap64 (Int64 size * Int64 size)
    · simp [h, eq_comm]
    · simp [h]

theorem uniqueCheck_eq_none (unique : Bool) (used : List Int) (size : Int) :
    uniqueCheck unique used size = none ↔
      unique = false ∨ wrap64 (Int64 size * Int64 size) ≤ (used.length : Int) := by
  unfold uniqueCheck
  cases unique
  · simp
  · by_cases h : (used.length : Int) < wrap64 (Int64 size * Int64 size)
    · simp [h]
    · simp [h]
      omega

theorem uniqueCheck_zero (unique : Bool) (used : List Int) : uniqueCheck unique used 0 = none := by
  rw [uniqueCheck_eq_none]
  right
  have h : wrap64 (Int64 0 * Int64 0) = 0 := by decide
  rw [h]
  omega

/-- The first cell visited is cell (0, 0). -/
theorem cellOrder_cons (n : Nat) (h : 1 ≤ n) : ∃ rest, cellOrder n = (0, 0) :: rest := by
  have hget := cellOrder_getElem? n 0 0 (by omega) (by omega)
  simp only [Nat.zero_mul, Nat.add_zero] at hget
  rcases list_nil_or_cons (cellOrder n) with h0 | ⟨p, rest, h0⟩
  · rw [h0] at hget
    cases hget
  · rw [h0] at hget
    simp only [List.getElem?_cons_zero, Option.some.injEq] at hget
    exact ⟨rest, by rw [h0, hget]⟩

/-- For a size of at least 1, the part of the method after the first row
faults, at the allocation or at the first cell it visits, without a call of
the source. -/
theorem fillPhase_fault_of_pos (u : Bool) (size lb ub pw : Int) (rnds : List RandCall)
    (s : DetState) (hpos : 1 ≤ size) :
    ∃ s', fillPhase u size lb ub pw rnds s = .fault s' ∧ s'.calls = s.calls ∧
      s'.used = s.used ∧ s'.rowSum = s.rowSum := by
  unfold fillPhase
  by_cases hneg : Int64 size < 0
  · rw [if_pos hneg]
    exact ⟨s, rfl, rfl, rfl, rfl⟩
  · rw [if_neg hneg]
    obtain ⟨rest, h⟩ := cellOrder_cons size.toNat (by omega)
    rw [h]
    obtain ⟨s', h1, h2, h3, h4, _⟩ := fillLoop_fault u size lb ub pw rnds (0, 0) rest
      { s with tempColSums := List.replicate (Int64 size).toNat none } (allNil_replicate _)
    exact ⟨s', h1, h2, h3, h4⟩

/-- For a size of at least 2, the part of the method after the first row
faults at the allocation of `tempColSums` or, the slice allocated, at the
comparison of line 100 for cell (0, 0): no cell is written and the source is
not called. -/
theorem fillPhase_fault_of_two_le (u : Bool) (size lb ub pw : Int) (rnds : List RandCall)
    (s : DetState) (h2 : 2 ≤ size) :
    fillPhase u size lb ub pw rnds s =
      .fault (if Int64 size < 0 then s
        else { s with tempColSums := List.replicate (Int64 size).toNat none }) := by
  unfold fillPhase
  by_cases hneg : Int64 size < 0
  · rw [if_pos hneg, if_pos hneg]
  · rw [if_neg hneg, if_neg hneg]
    obtain ⟨rest, h⟩ := cellOrder_cons size.toNat (by omega)
    rw [h]
    unfold fillLoop
    have hd : ¬ (((0 : Nat) : Int) = size - 1 ∨ ((0 : Nat) : Int) = size - 1) := by
      simp only [Nat.cast_zero]
      omega
    rw [if_neg hd]
    unfold interiorLoop
    cases hn : (Int64 size).toNat with
    | zero => rfl
    | succ n => rfl

/-- For a size of at most 0 no loop of the method runs: the slice is
allocated with the length `size.Int64()` and the final check decides. -/
theorem fillPhase_of_nonpos (u : Bool) (size lb ub pw : Int) (rnds : List RandCall)
    (s : DetState) (h0 : size ≤ 0) :
    fillPhase u size lb ub pw rnds s =
      if Int64 size < 0 then .fault s
      else
        match uniqueCheck u s.used size with
        | some err =>
          .failed err { s with tempColSums := List.replicate (Int64 size).toNat none }
        | none => .done { s with tempColSums := List.replicate (Int64 size).toNat none } := by
  unfold fillPhase
  have hn : size.toNat = 0 := by omega
  rw [hn]
  rfl

theorem fillPhase_zero (u : Bool) (lb ub pw : Int) (rnds : List RandCall) (s : DetState) :
    fillPhase u 0 lb ub pw rnds s = .done { s with tempColSums := [] } := by
  rw [fillPhase_of_nonpos u 0 lb ub pw rnds s (le_refl _), uniqueCheck_zero]
  rfl

theorem firstRowLoop_todo_nil (u : Bool) (size lb ub pw : Int) (rnds : List RandCall)
    (s : DetState) :
    firstRowLoop u size lb ub pw rnds [] s = fillPhase u size lb ub pw rnds s := by
  cases rnds <;> rfl

/-- What a run of the method can end in for a size of at least 1: never
success, and an error or a pending retry only in the loop of the first row,
before `tempColSums` is allocated; an error is the error of a call of the
source. -/
theorem firstRowLoop_outcome (u : Bool) (size lb ub pw : Int) (rnds : List RandCall)
    (todo : List Nat) (s : DetState) (hpos : 1 ≤ size) (hs : s.tempColSums = []) :
    (∀ s', firstRowLoop u size lb ub pw rnds todo s = .done s' → False) ∧
    (∀ e s', firstRowLoop u size lb ub pw rnds todo s = .failed e s' →
      (∃ rnd ∈ rnds, GenerateRandomBigInt rnd lb ub pw = .error e) ∧ s'.tempColSums = []) ∧
    (∀ s', firstRowLoop u size lb ub pw rnds todo s = .pending s' → s'.tempColSums = []) := by
  have hphase : ∀ (rnds' : List RandCall) (s0 : DetState),
      (∀ s', fillPhase u size lb ub pw rnds' s0 = .done s' → False) ∧
      (∀ e s', fillPhase u size lb ub pw rnds' s0 ≠ .failed e s') ∧
      (∀ s', fillPhase u size lb ub pw rnds' s0 ≠ .pending s') := by
    intro rnds' s0
    obtain ⟨s1, hf, _⟩ := fillPhase_fault_of_pos u size lb ub pw rnds' s0 hpos
    rw [hf]
    exact ⟨fun _ h => (by cases h), fun _ _ h => (by cases h), fun _ h => (by cases h)⟩
  induction rnds generalizing todo s with
  | nil =>
    cases todo with
    | nil =>
      rw [firstRowLoop_todo_nil]
      obtain ⟨h1, h2, h3⟩ := hphase [] s
      exact ⟨h1, fun e s' h => absurd h (h2 e s'), fun s' h => absurd h (h3 s')⟩
    | cons j rest =>
      refine ⟨fun _ h => (by cases h), fun _ _ h => (by cases h), ?_⟩
      intro s' h
      simp only [firstRowLoop] at h
      cases h
      exact hs
  | cons rnd rnds ih =>
    cases todo with
    | nil =>
      rw [firstRowLoop_todo_nil]
      obtain ⟨h1, h2, h3⟩ := hphase (rnd :: rnds) s
      exact ⟨h1, fun e s' h => absurd h (h2 e s'), fun s' h => absurd h (h3 s')⟩
    | cons j rest =>
      simp only [firstRowLoop]
      cases hg : GenerateRandomBigInt rnd lb ub pw with
      | panic =>
        simp only
        exact ⟨fun _ h => (by cases h), fun _ _ h => (by cases h), fun _ h => (by cases h)⟩
      | error e' =>
        simp only
        refine ⟨fun _ h => (by cases h), ?_, fun _ h => (by cases h)⟩
        intro e s' h
        cases h
        exact ⟨⟨rnd, List.mem_cons_self _ _, hg⟩, hs⟩
      | ok num =>
        simp only
        have hlift : ∀ (todo' : List Nat) (s0 : DetState), s0.tempColSums = [] →
            (∀ s', firstRowLoop u size lb ub pw rnds todo' s0 = .done s' → False) ∧
            (∀ e s', firstRowLoop u size lb ub pw rnds todo' s0 = .failed e s' →
              (∃ r ∈ rnd :: rnds, GenerateRandomBigInt r lb ub pw = .error e) ∧
                s'.tempColSums = []) ∧
            (∀ s', firstRowLoop u size lb ub pw rnds todo' s0 = .pending s' →
              s'.tempColSums = []) := by
          intro todo' s0 hs0
          obtain ⟨h1, h2, h3⟩ := ih todo' s0 hs0
          refine ⟨h1, ?_, h3⟩
          intro e s' h
          obtain ⟨⟨r, hr, hre⟩, ht⟩ := h2 e s' h
          exact ⟨⟨r, List.mem_cons_of_mem _ hr, hre⟩, ht⟩
        split
        · exact hlift _ _ hs
        · cases hw : writeCell s.square 0 j num with
          | none =>
            simp only
            exact ⟨fun _ h => (by cases h), fun _ _ h => (by cases h), fun _ h => (by cases h)⟩
          | some sq =>
            simp only
            exact hlift _ _ hs

theorem source_error_of_generate (rnd : RandCall) (lb ub pw : Int) (e : Error)
    (hg : GenerateRandomBigInt rnd lb ub pw = .error e) : rnd (ub - lb + 1) = .error e := by
  cases hr : rnd (ub - lb + 1) with
  | panic =>
    rw [GenerateRandomBigInt_panic_of rnd lb ub pw hr] at hg
    cases hg
  | error e' =>
    rw [GenerateRandomBigInt_error rnd lb ub pw e' hr] at hg
    cases hg
    rfl
  | ok r =>
    rw [GenerateRandomBigInt_ok rnd lb ub pw r hr] at hg
    cases hg

/-- For a size of at most 0 the loop of the first row does not run. -/
theorem PopulateSquareDetermined_of_nonpos (ms : MagicSquare) (rnds : List RandCall)
    (lb ub : Int) (h0 : ms.size ≤ 0) :
    PopulateSquareDetermined ms rnds lb ub =
      fillPhase ms.unique ms.size lb ub ms.power rnds
        { square := ms.square, used := [], rowSum := 0, tempColSums := [], calls := 0 } := by
  unfold PopulateSquareDetermined
  have hn : ms.size.toNat = 0 := by omega
  rw [hn, List.range_zero, firstRowLoop_todo_nil]

/-- A run that returns success: the size is at most 0, its conversion to
`int64` is not negative, no loop ran and the final check let the empty set of
keys pass. -/
theorem PopulateSquareDetermined_done (ms : MagicSquare) (rnds : List RandCall)
    (lb ub : Int) (s : DetState) (h : PopulateSquareDetermined ms rnds lb ub = .done s) :
    ms.size ≤ 0 ∧ 0 ≤ Int64 ms.size ∧
      uniqueCheck ms.unique [] ms.size = none ∧
      s = { square := ms.square, used := [], rowSum := 0,
            tempColSums := List.replicate (Int64 ms.size).toNat none, calls := 0 } := by
  by_cases hpos : 1 ≤ ms.size
  · exact absurd h (fun hc =>
      (firstRowLoop_outcome ms.unique ms.size lb ub ms.power rnds _ _ hpos rfl).1 s hc)
  · have h0 : ms.size ≤ 0 := by omega
    rw [PopulateSquareDetermined_of_nonpos ms rnds lb ub h0,
      fillPhase_of_nonpos ms.unique ms.size lb ub ms.power rnds _ h0] at h
    by_cases hneg : Int64 ms.size < 0
    · rw [if_pos hneg] at h
      cases h
    · rw [if_neg hneg] at h
      simp only at h
      cases hc : uniqueCheck ms.unique [] ms.size with
      | some e =>
        rw [hc] at h
        cases h
      | none =>
        rw [hc] at h
        simp only [DetRun.done.injEq] at h
        exact ⟨h0, by omega, rfl, h.symm⟩

/-- A run on a size of at most 0 that returns an error: it is the
non-unique-fill error, the size is below -2^63 and no loop ran. -/
theorem PopulateSquareDetermined_failed_of_nonpos (ms : MagicSquare) (rnds : List RandCall)
    (lb ub : Int) (e : Error) (s : DetState) (h0 : ms.size ≤ 0)
    (h : PopulateSquareDetermined ms rnds lb ub = .failed e s) :
    e = nonUniqueFill ∧ ms.unique = true ∧ ms.size < -2 ^ 63 ∧ 0 ≤ Int64 ms.size ∧
      0 < wrap64 (Int64 ms.size * Int64 ms.size) ∧
      s = { square := ms.square, used := [], rowSum := 0,
            tempColSums := List.replicate (Int64 ms.size).toNat none, calls := 0 } := by
  rw [PopulateSquareDetermined_of_nonpos ms rnds lb ub h0,
    fillPhase_of_nonpos ms.unique ms.size lb ub ms.power rnds _ h0] at h
  by_cases hneg : Int64 ms.size < 0
  · rw [if_pos hneg] at h
    cases h
  · rw [if_neg hneg] at h
    simp only at h
    cases hc : uniqueCheck ms.unique [] ms.size with
    | none =>
      rw [hc] at h
      cases h
    | some e' =>
      rw [hc] at h
      simp only [DetRun.failed.injEq] at h
      obtain ⟨hu, hlt, he⟩ := (uniqueCheck_eq_some ms.unique [] ms.size e').mp hc
      simp only [List.length_nil, Nat.cast_zero] at hlt
      refine ⟨by rw [← h.1, he], hu, ?_, by omega, hlt, h.2.symm⟩
      by_contra hmin
      have h64 : Int64 ms.size = ms.size := Int64_of_range ms.size (by omega) (by omega)
      rw [h64] at hneg
      have hz : ms.size = 0 := by omega
      rw [hz] at hlt
      have hw : wrap64 (Int64 0 * Int64 0) = 0 := by decide
      rw [hw] at hlt
      omega

/-- Success of the method on a size from -2^63 on means size 0. -/
theorem PopulateSquareDetermined_done_size (ms : MagicSquare) (rnds : List RandCall)
    (lb ub : Int) (s : DetState) (hmin : -2 ^ 63 ≤ ms.size)
    (h : PopulateSquareDetermined ms rnds lb ub = .done s) : ms.size = 0 := by
  obtain ⟨h0, h64, _, _⟩ := PopulateSquareDetermined_done ms rnds lb ub s h
  rw [Int64_of_range ms.size hmin (by omega)] at h64
  omega

/-- On size 0 the method returns success. -/
theorem PopulateSquareDetermined_size_zero (ms : MagicSquare) (rnds : List RandCall)
    (lb ub : Int) (h0 : ms.size = 0) :
    PopulateSquareDetermined ms rnds lb ub =
      .done { square := ms.square, used := [], rowSum := 0, tempColSums := [], calls := 0 } := by
  rw [PopulateSquareDetermined_of_nonpos ms rnds lb ub (by omega), h0, fillPhase_zero]

theorem firstRowLoop_reject (u : Bool) (size lb ub pw : Int) (rnd : RandCall)
    (rnds : List RandCall) (j : Nat) (rest : List Nat) (s : DetState) (num : Int)
    (hg : GenerateRandomBigInt rnd lb ub pw = .ok num) (hmem : num ∈ s.used) :
    firstRowLoop u size lb ub pw (rnd :: rnds) (j :: rest) s =
      firstRowLoop u size lb ub pw rnds (j :: rest) { s with calls := s.calls + 1 } := by
  simp only [firstRowLoop, hg, if_pos hmem]

theorem firstRowLoop_accept (u : Bool) (size lb ub pw : Int) (rnd : RandCall)
    (rnds : List RandCall) (j : Nat) (rest : List Nat) (s : DetState) (num : Int)
    (hg : GenerateRandomBigInt rnd lb ub pw = .ok num) (hmem : num ∉ s.used)
    (hin : InBounds s.square (0, j)) :
    firstRowLoop u size lb ub pw (rnd :: rnds) (j :: rest) s =
      firstRowLoop u size lb ub pw rnds rest
        { s with square := updateCell s.square 0 j num, used := s.used.insert num,
                 rowSum := s.rowSum + num, calls := s.calls + 1 } := by
  simp only [firstRowLoop, hg, if_neg hmem, writeCell_of_inBounds s.square 0 j num hin]

/-- On a stream of values, of which enough are not yet keys to fill the
columns still to fill of the first row, and with these cells inside the grid,
the loop of the first row is through after `k` calls, the least number of
calls that bring enough values: the cells received, in order, the values
stored, which were added to `rowSum` and recorded; the rest of the method then
runs on the outcomes that remain. -/
theorem firstRowLoop_of_values (u : Bool) (size lb ub pw : Int) (rnds rest : List RandCall)
    (vals : List Int) (todo : List Nat) (s : DetState)
    (hvals : rnds.map (fun rnd => GenerateRandomBigInt rnd lb ub pw) = vals.map Outcome.ok)
    (hin : ∀ j ∈ todo, InBounds s.square (0, j))
    (hlen : todo.length ≤ (accepted true s.used vals).length) :
    ∃ k : Nat, k ≤ vals.length ∧
      firstRowLoop u size lb ub pw (rnds ++ rest) todo s =
        fillPhase u size lb ub pw ((rnds ++ rest).drop k)
          { square := applyWrites s.square
              ((todo.map (fun j => ((0, j) : Nat × Nat))).zip
                ((accepted true s.used vals).take todo.length))
            used := ((accepted true s.used vals).take todo.length).foldl
              (fun us v => us.insert v) s.used
            rowSum := s.rowSum + ((accepted true s.used vals).take todo.length).sum
            tempColSums := s.tempColSums
            calls := s.calls + k } ∧
      (accepted true s.used vals).take todo.length = accepted true s.used (vals.take k) ∧
      (∀ k' : Nat, k' < k → (accepted true s.used (vals.take k')).length < todo.length) := by
  have hzero : ∀ (rs : List RandCall) (s0 : DetState) (vs : List Int),
      firstRowLoop u size lb ub pw rs [] s0 =
        fillPhase u size lb ub pw (rs.drop 0)
          { square := applyWrites s0.square
              ((([] : List Nat).map (fun j => ((0, j) : Nat × Nat))).zip
                ((accepted true s0.used vs).take ([] : List Nat).length))
            used := ((accepted true s0.used vs).take ([] : List Nat).length).foldl
              (fun us v => us.insert v) s0.used
            rowSum := s0.rowSum + ((accepted true s0.used vs).take ([] : List Nat).length).sum
            tempColSums := s0.tempColSums
            calls := s0.calls + 0 } := by
    intro rs s0 vs
    rw [firstRowLoop_todo_nil]
    simp [applyWrites]
  induction rnds generalizing vals todo s with
  | nil =>
    have hv : vals = [] := by
      cases vals with
      | nil => rfl
      | cons v vs => simp at hvals
    subst hv
    have ht : todo = [] := by
      simp only [accepted, List.length_nil, Nat.le_zero, List.length_eq_zero] at hlen
      exact hlen
    subst ht
    refine ⟨0, le_refl _, hzero _ s [], rfl, ?_⟩
    intro k' hk'
    omega
  | cons rnd rnds ih =>
    cases vals with
    | nil => simp at hvals
    | cons v vs =>
      simp only [List.map_cons, List.cons.injEq] at hvals
      obtain ⟨hg, hvs⟩ := hvals
      cases todo with
      | nil =>
        refine ⟨0, Nat.zero_le _, hzero _ s (v :: vs), rfl, ?_⟩
        intro k' hk'
        omega
      | cons j rest' =>
        rw [List.cons_append]
        by_cases hmem : v ∈ s.used
        · rw [firstRowLoop_reject u size lb ub pw rnd _ j rest' s v hg hmem]
          rw [accepted_cons_reject s.used v vs hmem] at hlen ⊢
          obtain ⟨k, h1, h2, h3, h4⟩ := ih vs (j :: rest') { s with calls := s.calls + 1 } hvs hin hlen
          refine ⟨k + 1, ?_, ?_, ?_, ?_⟩
          · simp only [List.length_cons]; omega
          · rw [h2, List.drop_succ_cons]
            simp only [Nat.add_assoc, Nat.add_comm 1 k]
          · rw [List.take_succ_cons, accepted_cons_reject s.used v _ hmem]
            exact h3
          · intro k' hk'
            cases k' with
            | zero => simp [accepted]
            | succ k'' =>
              rw [List.take_succ_cons, accepted_cons_reject s.used v _ hmem]
              exact h4 k'' (by omega)
        · have hj : InBounds s.square (0, j) := hin j (List.mem_cons_self _ _)
          rw [firstRowLoop_accept u size lb ub pw rnd _ j rest' s v hg hmem hj]
          rw [accepted_cons_accept true s.used v vs (Or.inr hmem)] at hlen ⊢
          simp only [List.length_cons, Nat.add_le_add_iff_right] at hlen
          obtain ⟨k, h1, h2, h3, h4⟩ := ih vs rest'
            { s with square := updateCell s.square 0 j v, used := s.used.insert v,
                     rowSum := s.rowSum + v, calls := s.calls + 1 } hvs
            (by
              intro q hq
              exact (inBounds_updateCell s.square 0 j v (0, q)).mpr
                (hin q (List.mem_cons_of_mem _ hq)))
            hlen
          simp only at h2 h3 h4
          refine ⟨k + 1, ?_, ?_, ?_, ?_⟩
          · simp only [List.length_cons]; omega
          · rw [h2, List.drop_succ_cons]
            congr 1
            simp only [DetState.mk.injEq, List.length_cons, List.take_succ_cons, List.map_cons,
              List.zip_cons_cons, applyWrites, List.foldl_cons, List.sum_cons, true_and]
            exact ⟨rfl, by ring, by omega⟩
          · rw [List.length_cons, List.take_succ_cons, List.take_succ_cons,
              accepted_cons_accept true s.used v _ (Or.inr hmem), h3]
          · intro k' hk'
            cases k' with
            | zero => simp [accepted]
            | succ k'' =>
              rw [List.take_succ_cons, accepted_cons_accept true s.used v _ (Or.inr hmem)]
              simp only [List.length_cons, Nat.add_lt_add_iff_right]
              exact h4 k'' (by omega)

/-! ## The claims on the determined population -/

/-- C16, as stated, fails on the 2 × 2 grid of zeros over [1, 10] when the
source yields 0, 1, 2: the first row receives 1 and 2, and the run then
faults at cell (0, 0), after two calls; it neither returns an error nor waits
for a further outcome of the source. -/
theorem PopulateSquareDetermined_faults_at_first_cell :
    PopulateSquareDetermined zeros2 [yield 0, yield 1, yield 2] 1 10 =
        .fault { square := [[1, 2], [0, 0]], used := [2, 1], rowSum := 3,
                 tempColSums := [none, none], calls := 2 } ∧
      ¬ ((∃ (e : Error) (s : DetState),
            PopulateSquareDetermined zeros2 [yield 0, yield 1, yield 2] 1 10 = .failed e s) ∨
          (∃ s : DetState,
            PopulateSquareDetermined zeros2 [yield 0, yield 1, yield 2] 1 10 = .pending s)) := by
  have h : PopulateSquareDetermined zeros2 [yield 0, yield 1, yield 2] 1 10 =
      .fault { square := [[1, 2], [0, 0]], used := [2, 1], rowSum := 3,
               tempColSums := [none, none], calls := 2 } := by decide
  refine ⟨h, ?_⟩
  rw [h]
  rintro (⟨e, s, hc⟩ | ⟨s, hc⟩) <;> cases hc

/-- C16, amended: for every N ≥ 2 and every sequence of outcomes of the
random source, `PopulateSquareDetermined` does not return success.  The run
ends with an error, which is then the error of a call of the source made by
the loop of the first row, or is still retrying in the loop of the first row,
or has faulted.  The fill loops write no cell and never get to call the
source: on an N × N grid with N < 2^63, when the outcomes begin with values of
which at least N are pairwise distinct, the run faults at cell (0, 0) in the
state the loop of the first row left, with `tempColSums` allocated: the first
row holds the first N distinct values, every other cell holds what it held,
`rowSum` is their sum, and the number of calls is the least number k of calls
that bring N distinct values, whatever outcomes follow. -/
theorem PopulateSquareDetermined_never_success (ms : MagicSquare) (rnds : List RandCall)
    (lb ub : Int) (hN : 2 ≤ ms.size) :
    (∀ s : DetState, PopulateSquareDetermined ms rnds lb ub ≠ .done s) ∧
    (∀ (e : Error) (s : DetState), PopulateSquareDetermined ms rnds lb ub = .failed e s →
      (∃ rnd ∈ rnds, rnd (ub - lb + 1) = .error e) ∧ s.tempColSums = []) ∧
    (∀ s : DetState, PopulateSquareDetermined ms rnds lb ub = .pending s →
      s.tempColSums = []) ∧
    ((∃ (e : Error) (s : DetState), PopulateSquareDetermined ms rnds lb ub = .failed e s) ∨
      (∃ s : DetState, PopulateSquareDetermined ms rnds lb ub = .pending s) ∨
      (∃ s : DetState, PopulateSquareDetermined ms rnds lb ub = .fault s)) ∧
    (∀ (pre rest : List RandCall) (vals : List Int), rnds = pre ++ rest →
      WellFormed ms → ms.size < 2 ^ 63 →
      pre.map (fun rnd => GenerateRandomBigInt rnd lb ub ms.power) = vals.map Outcome.ok →
      ms.size.toNat ≤ (firstOccurrences vals).length →
      ∃ k : Nat, k ≤ vals.length ∧
        PopulateSquareDetermined ms rnds lb ub =
          .fault
            { square := applyWrites ms.square
                (((List.range ms.size.toNat).map (fun j => ((0, j) : Nat × Nat))).zip
                  ((firstOccurrences vals).take ms.size.toNat))
              used := ((firstOccurrences vals).take ms.size.toNat).foldl
                (fun us v => us.insert v) []
              rowSum := ((firstOccurrences vals).take ms.size.toNat).sum
              tempColSums := List.replicate ms.size.toNat none
              calls := k } ∧
        (firstOccurrences vals).take ms.size.toNat = firstOccurrences (vals.take k) ∧
        ∀ k' : Nat, k' < k → (firstOccurrences (vals.take k')).length < ms.size.toNat) := by
  obtain ⟨h1, h2, h3⟩ :=
    firstRowLoop_outcome ms.unique ms.size lb ub ms.power rnds (List.range ms.size.toNat)
      { square := ms.square, used := [], rowSum := 0, tempColSums := [], calls := 0 }
      (by omega) rfl
  have hnot : ∀ s : DetState, PopulateSquareDetermined ms rnds lb ub ≠ .done s :=
    fun s hs => h1 s hs
  refine ⟨hnot, ?_, h3, ?_, ?_⟩
  · intro e s hs
    obtain ⟨⟨rnd, hr, hg⟩, ht⟩ := h2 e s hs
    exact ⟨⟨rnd, hr, source_error_of_generate rnd lb ub ms.power e hg⟩, ht⟩
  · cases hres : PopulateSquareDetermined ms rnds lb ub with
    | done s => exact absurd hres (hnot s)
    | failed e s => exact Or.inl ⟨e, s, rfl⟩
    | pending s => exact Or.inr (Or.inl ⟨s, rfl⟩)
    | fault s => exact Or.inr (Or.inr ⟨s, rfl⟩)
  · intro pre rest vals hsplit hwf hmax hvals hlen
    obtain ⟨_, hrows, hrow⟩ := hwf
    have hin : ∀ j ∈ List.range ms.size.toNat, InBounds ms.square (0, j) := by
      intro j hj
      have hj' : j < ms.size.toNat := List.mem_range.mp hj
      have h0 : 0 < ms.square.length := by omega
      refine ⟨h0, ?_⟩
      have hmem : ms.square.getD 0 [] ∈ ms.square := by
        simp [List.getD_eq_getElem?_getD, h0]
      simp only
      rw [hrow _ hmem]
      exact hj'
    obtain ⟨k, hk, hrun, htake, hmin⟩ :=
      firstRowLoop_of_values ms.unique ms.size lb ub ms.power pre rest vals
        (List.range ms.size.toNat)
        { square := ms.square, used := [], rowSum := 0, tempColSums := [], calls := 0 }
        hvals hin (by rw [accepted_true_nil, List.length_range]; exact hlen)
    simp only [accepted_true_nil, List.length_range, zero_add] at hrun htake hmin
    refine ⟨k, hk, ?_, htake, hmin⟩
    unfold PopulateSquareDetermined
    rw [hsplit, hrun, fillPhase_fault_of_two_le _ _ _ _ _ _ _ hN]
    have h64 : Int64 ms.size = ms.size := Int64_of_range ms.size (by omega) hmax
    rw [h64, if_neg (by omega)]

/-- C16, amended, on the 2 × 2 grid over [1, 10]: a source that fails at its
second call makes the run return that error from the loop of the first row;
and when the source yields 1, 2 and one more value, the run faults after two
calls with the first row filled, the second row untouched and the third
outcome not consumed. -/
theorem PopulateSquareDetermined_never_success_witness :
    PopulateSquareDetermined zeros2 [yield 0, broken "entropy"] 1 10 =
        .failed "entropy" { square := [[1, 0], [0, 0]], used := [1], rowSum := 1,
                            tempColSums := [], calls := 2 } ∧
      (∃ rnd ∈ [yield 0, broken "entropy"], rnd (10 - 1 + 1) = .error "entropy") ∧
      ∃ k : Nat, k ≤ 2 ∧
        PopulateSquareDetermined zeros2 ([yield 0, yield 1] ++ [yield 7]) 1 10 =
          .fault { square := [[1, 2], [0, 0]], used := [2, 1], rowSum := 3,
                   tempColSums := [none, none], calls := k } ∧
        ∀ k' : Nat, k' < k → (firstOccurrences (([1, 2] : List Int).take k')).length < 2 := by
  have h : PopulateSquareDetermined zeros2 [yield 0, broken "entropy"] 1 10 =
      .failed "entropy" { square := [[1, 0], [0, 0]], used := [1], rowSum := 1,
                          tempColSums := [], calls := 2 } := by decide
  refine ⟨h, ((PopulateSquareDetermined_never_success zeros2 [yield 0, broken "entropy"] 1 10
    (by decide)).2.1 _ _ h).1, ?_⟩
  obtain ⟨k, hk, hrun, _, hmin⟩ :=
    (PopulateSquareDetermined_never_success zeros2 ([yield 0, yield 1] ++ [yield 7]) 1 10
      (by decide)).2.2.2.2 [yield 0, yield 1] [yield 7] [1, 2] rfl (by decide) (by decide)
      rfl (by decide)
  exact ⟨k, hk, hrun, hmin⟩

/-- C19, as stated, fails on the size -2^64, which the constructor accepts:
`size.Int64()` is 0, the grid is empty, no loop runs, and
`PopulateSquareDetermined` returns success although the size is not 0. -/
theorem PopulateSquareDetermined_success_on_negative_size :
    NewMagicSquare (-2 ^ 64) false 1 =
        some { size := -2 ^ 64, square := [], unique := false, power := 1 } ∧
      PopulateSquareDetermined { size := -2 ^ 64, square := [], unique := false, power := 1 }
          [] 1 10 =
        .done { square := [], used := [], rowSum := 0, tempColSums := [], calls := 0 } ∧
      (-2 ^ 64 : Int) ≠ 0 := by
  refine ⟨by decide, by decide, by decide⟩

/-- C19, amended: on a 1 × 1 grid, when the first call of the random source
yields a value, `PopulateSquareDetermined` does not return: the value v
generated is stored and becomes `rowSum`, the derived cell (0, 0) receives
`rowSum`, and the accumulation into the nil entry of `tempColSums` faults after
that write, with one call made.  Among the sizes from -2^63 on, which include
every N ≥ 0, success is returned for N = 0 only, and there it is returned.  A
size for which success is returned is at most 0 and its conversion to `int64`
is not negative. -/
theorem PopulateSquareDetermined_size_one (ms : MagicSquare) (rnd : RandCall)
    (rest : List RandCall) (lb ub r : Int) (h1 : ms.size = 1) (hwf : WellFormed ms)
    (hr : rnd (ub - lb + 1) = .ok r) :
    (∃ v : Int, GenerateRandomBigInt rnd lb ub ms.power = .ok v ∧
      PopulateSquareDetermined ms (rnd :: rest) lb ub =
        .fault { square := [[v]], used := [v], rowSum := v, tempColSums := [none],
                 calls := 1 }) ∧
    (∀ (ms' : MagicSquare) (rnds : List RandCall) (lb' ub' : Int) (s : DetState),
      -2 ^ 63 ≤ ms'.size →
      PopulateSquareDetermined ms' rnds lb' ub' = .done s → ms'.size = 0) ∧
    (∀ (ms' : MagicSquare) (rnds : List RandCall) (lb' ub' : Int) (s : DetState),
      PopulateSquareDetermined ms' rnds lb' ub' = .done s →
      ms'.size ≤ 0 ∧ 0 ≤ Int64 ms'.size) ∧
    (∀ (ms' : MagicSquare) (rnds : List RandCall) (lb' ub' : Int), ms'.size = 0 →
      ∃ s : DetState, PopulateSquareDetermined ms' rnds lb' ub' = .done s) := by
  refine ⟨?_, ?_, ?_, ?_⟩
  · obtain ⟨_, hlen, hrow⟩ := hwf
    have hn : ms.size.toNat = 1 := by omega
    rw [hn] at hlen hrow
    obtain ⟨x, hx⟩ : ∃ x : Int, ms.square = [[x]] := by
      cases hsq : ms.square with
      | nil => rw [hsq] at hlen; simp at hlen
      | cons row rows =>
        rw [hsq] at hlen hrow
        cases rows with
        | cons _ _ => simp at hlen
        | nil =>
          have hr1 := hrow row (List.mem_cons_self _ _)
          cases row with
          | nil => simp at hr1
          | cons x xs =>
            cases xs with
            | nil => exact ⟨x, rfl⟩
            | cons _ _ => simp at hr1
    have hg := GenerateRandomBigInt_ok rnd lb ub ms.power r hr
    have h64 : Int64 1 = 1 := by decide
    refine ⟨_, hg, ?_⟩
    unfold PopulateSquareDetermined
    rw [hn, hx, h1]
    simp only [List.range_succ, List.range_zero, List.nil_append, firstRowLoop, hg,
      List.not_mem_nil, if_false]
    simp [writeCell, updateCell, firstRowLoop_todo_nil, fillPhase, cellOrder, fillLoop,
      List.range_succ, List.product, h64]
  · intro ms' rnds lb' ub' s hmin hs
    exact PopulateSquareDetermined_done_size ms' rnds lb' ub' s hmin hs
  · intro ms' rnds lb' ub' s hs
    obtain ⟨h0, h64, _, _⟩ := PopulateSquareDetermined_done ms' rnds lb' ub' s hs
    exact ⟨h0, h64⟩
  · intro ms' rnds lb' ub' h0
    exact ⟨_, PopulateSquareDetermined_size_zero ms' rnds lb' ub' h0⟩

/-- C19, amended, on the 1 × 1 grid of zero over [1, 10] with first sample
4: the run faults with 5 stored in the cell. -/
theorem PopulateSquareDetermined_size_one_witness :
    PopulateSquareDetermined zeros1 (yield 4 :: [yield 1, yield 5]) 1 10 =
      .fault { square := [[5]], used := [5], rowSum := 5, tempColSums := [none], calls := 1 } := by
  obtain ⟨v, hv, hrun⟩ := (PopulateSquareDetermined_size_one zeros1 (yield 4)
    [yield 1, yield 5] 1 10 4 rfl (by decide) rfl).1
  have hv5 : v = 5 := by
    have h5 : GenerateRandomBigInt (yield 4) 1 10 zeros1.power = .ok 5 := rfl
    rw [h5] at hv
    cases hv
    rfl
  rw [hrun, hv5]

/-- C12, at the 2 × 2 grid of zeros over [1, 10] with samples 2 and 4: the
first row receives 3 and 5 and `rowSum` is 8, then the run faults at cell
(0, 0) before any cell of the last row or last column is given a derived
value.  The last-column cell (0, 1) holds the random value 5, the cells
(1, 0) and (1, 1) keep their zeros; the sum of row 1 is 0 and the sums of the
columns are 3 and 5, none of them `rowSum`. -/
theorem PopulateSquareDetermined_derives_no_cell :
    PopulateSquareDetermined zeros2 [yield 2, yield 4] 1 10 =
        .fault { square := [[3, 5], [0, 0]], used := [5, 3], rowSum := 8,
                 tempColSums := [none, none], calls := 2 } ∧
      rowTotal [[3, 5], [0, 0]] 2 1 ≠ 8 ∧
      colTotal [[3, 5], [0, 0]] 2 0 ≠ 8 ∧
      colTotal [[3, 5], [0, 0]] 2 1 ≠ 8 := by
  refine ⟨by decide, by decide, by decide, by decide⟩

/-- C13, as stated, fails on the size -2^64 with uniqueness on, which the
constructor accepts: `size.Int64()` is 0, no loop runs, the final check
compares the count 0 with the product 0 of the converted sizes, and
`PopulateSquareDetermined` returns success with a count of 0, which is not
N² = 2^128. -/
theorem PopulateSquareDetermined_success_count_not_square :
    NewMagicSquare (-2 ^ 64) true 1 =
        some { size := -2 ^ 64, square := [], unique := true, power := 1 } ∧
      PopulateSquareDetermined { size := -2 ^ 64, square := [], unique := true, power := 1 }
          [yield 0] 1 10 =
        .done { square := [], used := [], rowSum := 0, tempColSums := [], calls := 0 } ∧
      (([] : List Int).length : Int) ≠ (-2 ^ 64) * (-2 ^ 64) := by
  refine ⟨by decide, by decide, by decide⟩

/-- C13, amended: with uniqueness enabled and a size from -2^63 on, which
includes every N ≥ 0, `PopulateSquareDetermined` returns success only if the
count of keys of `usedNumbers` equals N²; this is the case N = 0 with count 0,
and an error returned is the error of a call of the source.  The final check
compares the count with the `int64` product of the converted sizes, which
wraps, and it is reached for the sizes of at most 0 only, with count 0: there
the run fails with the non-unique-fill error when that product is positive
and returns success otherwise.  The non-unique-fill error is returned for
sizes below -2^63 only. -/
theorem PopulateSquareDetermined_final_check (ms : MagicSquare) (rnds : List RandCall)
    (lb ub : Int) (hu : ms.unique = true) :
    (∀ s : DetState, -2 ^ 63 ≤ ms.size → PopulateSquareDetermined ms rnds lb ub = .done s →
      (s.used.length : Int) = ms.size * ms.size ∧ ms.size = 0) ∧
    (∀ (e : Error) (s : DetState), -2 ^ 63 ≤ ms.size →
      PopulateSquareDetermined ms rnds lb ub = .failed e s →
      ∃ rnd ∈ rnds, rnd (ub - lb + 1) = .error e) ∧
    (∀ s : DetState, PopulateSquareDetermined ms rnds lb ub = .done s →
      ms.size ≤ 0 ∧ 0 ≤ Int64 ms.size ∧ s.used = [] ∧
        wrap64 (Int64 ms.size * Int64 ms.size) ≤ 0) ∧
    (∀ (e : Error) (s : DetState), PopulateSquareDetermined ms rnds lb ub = .failed e s →
      (∃ rnd ∈ rnds, rnd (ub - lb + 1) = .error e) ∨
      (e = nonUniqueFill ∧ ms.size < -2 ^ 63 ∧ s.used = [] ∧
        0 < wrap64 (Int64 ms.size * Int64 ms.size))) ∧
    (ms.size ≤ 0 → 0 ≤ Int64 ms.size →
      (0 < wrap64 (Int64 ms.size * Int64 ms.size) →
        PopulateSquareDetermined ms rnds lb ub =
          .failed nonUniqueFill
            { square := ms.square, used := [], rowSum := 0,
              tempColSums := List.replicate (Int64 ms.size).toNat none, calls := 0 }) ∧
      (wrap64 (Int64 ms.size * Int64 ms.size) ≤ 0 →
        PopulateSquareDetermined ms rnds lb ub =
          .done
            { square := ms.square, used := [], rowSum := 0,
              tempColSums := List.replicate (Int64 ms.size).toNat none, calls := 0 })) := by
  have hfailed : ∀ (e : Error) (s : DetState),
      PopulateSquareDetermined ms rnds lb ub = .failed e s →
      (∃ rnd ∈ rnds, rnd (ub - lb + 1) = .error e) ∨
      (e = nonUniqueFill ∧ ms.size < -2 ^ 63 ∧ s.used = [] ∧
        0 < wrap64 (Int64 ms.size * Int64 ms.size)) := by
    intro e s hs
    by_cases hpos : 1 ≤ ms.size
    · left
      obtain ⟨⟨rnd, hr, hg⟩, _⟩ :=
        (firstRowLoop_outcome ms.unique ms.size lb ub ms.power rnds _ _ hpos rfl).2.1 e s hs
      exact ⟨rnd, hr, source_error_of_generate rnd lb ub ms.power e hg⟩
    · right
      obtain ⟨he, _, hlow, _, hprod, hst⟩ :=
        PopulateSquareDetermined_failed_of_nonpos ms rnds lb ub e s (by omega) hs
      exact ⟨he, hlow, by rw [hst], hprod⟩
  refine ⟨?_, ?_, ?_, hfailed, ?_⟩
  · intro s hmin hs
    have h0 := PopulateSquareDetermined_done_size ms rnds lb ub s hmin hs
    obtain ⟨_, _, _, hst⟩ := PopulateSquareDetermined_done ms rnds lb ub s hs
    refine ⟨?_, h0⟩
    rw [hst, h0]
    rfl
  · intro e s hmin hs
    rcases hfailed e s hs with h | ⟨_, hlow, _, _⟩
    · exact h
    · omega
  · intro s hs
    obtain ⟨h0, h64, hc, hst⟩ := PopulateSquareDetermined_done ms rnds lb ub s hs
    refine ⟨h0, h64, by rw [hst], ?_⟩
    rcases (uniqueCheck_eq_none ms.unique [] ms.size).mp hc with hf | hle
    · rw [hu] at hf
      cases hf
    · simpa using hle
  · intro h0 h64
    rw [PopulateSquareDetermined_of_nonpos ms rnds lb ub h0,
      fillPhase_of_nonpos ms.unique ms.size lb ub ms.power rnds _ h0, if_neg (by omega)]
    constructor
    · intro hprod
      have hc : uniqueCheck ms.unique [] ms.size = some nonUniqueFill :=
        (uniqueCheck_eq_some ms.unique [] ms.size nonUniqueFill).mpr
          ⟨hu, by simpa using hprod, rfl⟩
      simp only [hc]
    · intro hprod
      have hc : uniqueCheck ms.unique [] ms.size = none :=
        (uniqueCheck_eq_none ms.unique [] ms.size).mpr (Or.inr (by simpa using hprod))
      simp only [hc]

/-- C13, amended, on the empty grid with uniqueness on.  For size 0 the
run returns success, and the count 0 of keys is N² = 0.  For the size
-2^64 + 3, whose conversion is 3, the check compares the count 0 with 9 and
the run fails with the non-unique-fill error. -/
theorem PopulateSquareDetermined_final_check_witness :
    PopulateSquareDetermined zeros0 [yield 4] 1 10 =
        .done { square := [], used := [], rowSum := 0, tempColSums := [], calls := 0 } ∧
      ((([] : List Int).length : Int) = zeros0.size * zeros0.size ∧ zeros0.size = 0) ∧
      PopulateSquareDetermined
          { size := -2 ^ 64 + 3, square := [], unique := true, power := 1 } [yield 4] 1 10 =
        .failed nonUniqueFill
          { square := [], used := [], rowSum := 0, tempColSums := [none, none, none],
            calls := 0 } := by
  have h : PopulateSquareDetermined zeros0 [yield 4] 1 10 =
      .done { square := [], used := [], rowSum := 0, tempColSums := [], calls := 0 } := by
    decide
  have h64 : (Int64 (-2 ^ 64 + 3)).toNat = 3 := by decide
  have hfail := ((PopulateSquareDetermined_final_check
    { size := -2 ^ 64 + 3, square := [], unique := true, power := 1 } [yield 4] 1 10
    rfl).2.2.2.2 (by decide) (by decide)).1 (by decide)
  simp only [h64] at hfail
  exact ⟨h, (PopulateSquareDetermined_final_check zeros0 [yield 4] 1 10 rfl).1 _
    (by decide) h, hfail⟩

/-! ## Lemmas on printing -/

theorem printCells_eq (out : Text) (row : List Int) :
    printCells out row = out ++ (row.map (fun v => decimal v ++ ['\t'])).flatten := by
  induction row generalizing out with
  | nil => simp [printCells]
  | cons v vs ih =>
    simp only [printCells, ih, List.map_cons, List.flatten_cons, List.append_assoc]

theorem printRows_eq (out : Text) (sq : Grid) :
    printRows out sq = out ++ (sq.map renderLine).flatten := by
  induction sq generalizing out with
  | nil => simp [printRows]
  | cons row rows ih =>
    simp only [printRows, ih, printCells_eq, renderLine, List.map_cons, List.flatten_cons,
      List.append_assoc]

theorem digitChar_plain : ∀ d : Nat, d < 10 →
    Nat.digitChar d ≠ '\t' ∧ Nat.digitChar d ≠ '\n' ∧ Nat.digitChar d ≠ '-' ∧
      (Nat.digitChar d).toNat - 48 = d := by
  decide

theorem digitsFuel_plain (fuel n : Nat) :
    ∀ c ∈ digitsFuel fuel n, c ≠ '\t' ∧ c ≠ '\n' ∧ c ≠ '-' := by
  induction fuel generalizing n with
  | zero => intro c hc; cases hc
  | succ fuel ih =>
    intro c hc
    unfold digitsFuel at hc
    split at hc
    · rename_i hlt
      rw [List.mem_singleton] at hc
      subst hc
      obtain ⟨h1, h2, h3, _⟩ := digitChar_plain n hlt
      exact ⟨h1, h2, h3⟩
    · rw [List.mem_append, List.mem_singleton] at hc
      rcases hc with hc | hc
      · exact ih _ c hc
      · subst hc
        obtain ⟨h1, h2, h3, _⟩ := digitChar_plain (n % 10) (Nat.mod_lt _ (by decide))
        exact ⟨h1, h2, h3⟩

theorem parseNat_append_singleton (cs : Text) (c : Char) :
    parseNat (cs ++ [c]) = 10 * parseNat cs + (c.toNat - 48) := by
  simp [parseNat, List.foldl_append]

theorem parseNat_digitsFuel (fuel n : Nat) (h : n < fuel) :
    parseNat (digitsFuel fuel n) = n := by
  induction fuel generalizing n with
  | zero => omega
  | succ fuel ih =>
    unfold digitsFuel
    split
    · rename_i hlt
      have := (digitChar_plain n hlt).2.2.2
      simp [parseNat, this]
    · rename_i hge
      rw [parseNat_append_singleton, ih (n / 10) (by omega),
        (digitChar_plain (n % 10) (Nat.mod_lt _ (by decide))).2.2.2]
      omega

theorem parseInt_of_no_minus (cs : Text) (h : ∀ c ∈ cs, c ≠ '-') :
    parseInt cs = (parseNat cs : Int) := by
  unfold parseInt
  split
  · rename_i ds
    exact absurd rfl (h '-' (List.mem_cons_self _ _))
  · rfl

/-- The decimal rendering is exact: reading it gives the value back. -/
theorem parseInt_decimal (v : Int) : parseInt (decimal v) = v := by
  unfold decimal
  split
  · rename_i hneg
    simp only [parseInt, decimalNat]
    rw [parseNat_digitsFuel _ _ (Nat.lt_succ_self _)]
    omega
  · rename_i hpos
    unfold decimalNat
    rw [parseInt_of_no_minus _ (fun c hc => (digitsFuel_plain _ _ c hc).2.2),
      parseNat_digitsFuel _ _ (Nat.lt_succ_self _)]
    omega

theorem decimal_plain (v : Int) : ∀ c ∈ decimal v, c ≠ '\t' ∧ c ≠ '\n' := by
  intro c hc
  unfold decimal at hc
  split at hc
  · rcases List.mem_cons.mp hc with h | h
    · subst h
      exact ⟨by decide, by decide⟩
    · obtain ⟨h1, h2, _⟩ := digitsFuel_plain _ _ c h
      exact ⟨h1, h2⟩
  · obtain ⟨h1, h2, _⟩ := digitsFuel_plain _ _ c hc
    exact ⟨h1, h2⟩

theorem readText_tab (cs cur : Text) (row : List Int) :
    readText ('\t' :: cs) cur row = readText cs [] (row ++ [parseInt cur]) := by
  simp [readText]

theorem readText_newline (cs cur : Text) (row : List Int) :
    readText ('\n' :: cs) cur row = row :: readText cs [] [] := by
  simp [readText]

theorem readText_other (c : Char) (cs cur : Text) (row : List Int) (h1 : c ≠ '\t')
    (h2 : c ≠ '\n') : readText (c :: cs) cur row = readText cs (cur ++ [c]) row := by
  simp [readText, h1, h2]

theorem readText_plain (ds rest cur : Text) (row : List Int)
    (h : ∀ c ∈ ds, c ≠ '\t' ∧ c ≠ '\n') :
    readText (ds ++ rest) cur row = readText rest (cur ++ ds) row := by
  induction ds generalizing cur with
  | nil => simp
  | cons d ds ih =>
    obtain ⟨h1, h2⟩ := h d (List.mem_cons_self _ _)
    rw [List.cons_append, readText_other d _ _ _ h1 h2,
      ih _ (fun c hc => h c (List.mem_cons_of_mem _ hc))]
    simp

theorem readText_cells (vs : List Int) (rest : Text) (row : List Int) :
    readText ((vs.map (fun v => decimal v ++ ['\t'])).flatten ++ rest) [] row =
      readText rest [] (row ++ vs) := by
  induction vs generalizing row with
  | nil => simp
  | cons v vs ih =>
    have e : ((v :: vs).map (fun v => decimal v ++ ['\t'])).flatten ++ rest =
        decimal v ++ ('\t' :: ((vs.map (fun v => decimal v ++ ['\t'])).flatten ++ rest)) := by
      simp
    rw [e, readText_plain _ _ _ _ (decimal_plain v), readText_tab, List.nil_append,
      parseInt_decimal, ih]
    simp

theorem readText_renderText (sq : Grid) : readText (renderText sq) [] [] = sq := by
  induction sq with
  | nil => rfl
  | cons row rows ih =>
    have e : renderText (row :: rows) =
        (row.map (fun v => decimal v ++ ['\t'])).flatten ++ ('\n' :: renderText rows) := by
      simp [renderText, renderLine]
    rw [e, readText_cells, readText_newline, ih, List.nil_append]

/-! ## The claim on the printer -/

/-- C15: for every grid, validated or not, the text written by `PrintSquare`
is the rendering of the specification: one line per row in row order, each
line made of the row's values in column order, each value in decimal and
followed by a tab, each line ended by a newline.  The rendering is exact:
reading the text back, with a tab ending a value and a newline ending a row,
gives the rows of the grid, and reading a decimal rendering gives the value. -/
theorem PrintSquare_text (ms : MagicSquare) :
    PrintSquare ms = renderText ms.square ∧
      readText (PrintSquare ms) [] [] = ms.square ∧
      ∀ v : Int, parseInt (decimal v) = v := by
  have h : PrintSquare ms = renderText ms.square := by
    unfold PrintSquare renderText
    rw [printRows_eq]
    simp
  exact ⟨h, by rw [h]; exact readText_renderText ms.square, parseInt_decimal⟩

/-- C15, at the Lo Shu square and at a ragged grid with a negative value. -/
theorem PrintSquare_text_witness :
    PrintSquare loShu = "4\t9\t2\t\n3\t5\t7\t\n8\t1\t6\t\n".toList ∧
      PrintSquare { loShu with square := [[-12, 0], [7]] } = "-12\t0\t\n7\t\n".toList ∧
      readText "-12\t0\t\n7\t\n".toList [] [] = [[-12, 0], [7]] := by
  have h := (PrintSquare_text { loShu with square := [[-12, 0], [7]] }).2.1
  have h2 : PrintSquare { loShu with square := [[-12, 0], [7]] } = "-12\t0\t\n7\t\n".toList := by
    decide
  rw [h2] at h
  exact ⟨by decide, h2, h⟩

/-! ## Lemmas on the verifier on a store -/

theorem cell_derefGrid (st : Store) (sq : RefGrid) (i : Nat) (j : Int) :
    cell (derefGrid st sq) i j = (cellRef sq i j).map (fun a => st.getD a 0) := by
  unfold cell cellRef derefGrid
  by_cases hj : j < 0
  · simp [hj]
  · simp only [hj, if_false, List.get?_eq_getElem?, List.getElem?_map]
    cases sq[i]? with
    | none => rfl
    | some row => simp [List.getElem?_map]

theorem cellRef_valid (st : Store) (sq : RefGrid) (hv : ValidRefs st sq) (i : Nat) (j : Int)
    (a : Nat) (h : cellRef sq i j = some a) : a < st.length := by
  unfold cellRef at h
  by_cases hj : j < 0
  · simp [hj] at h
  · simp only [hj, if_false, List.get?_eq_getElem?] at h
    cases hrow : sq[i]? with
    | none => rw [hrow] at h; cases h
    | some row =>
      rw [hrow] at h
      simp only at h
      exact hv row (List.getElem?_mem hrow) a (List.getElem?_mem h)

theorem extends_refl (st : Store) : Extends st st := ⟨le_refl _, fun _ _ => rfl⟩

theorem extends_newInt (st0 st : Store) (h : Extends st0 st) : Extends st0 (newInt st).2 := by
  obtain ⟨hl, hv⟩ := h
  refine ⟨by simp only [newInt, List.length_append, List.length_singleton]; omega, ?_⟩
  intro a ha
  rw [← hv a ha]
  simp only [newInt, List.getD_eq_getElem?_getD]
  rw [List.getElem?_append_left (by omega)]

theorem extends_set (st0 st : Store) (z : Nat) (v : Int) (h : Extends st0 st)
    (hz : st0.length ≤ z) : Extends st0 (st.set z v) := by
  obtain ⟨hl, hv⟩ := h
  refine ⟨by rw [List.length_set]; exact hl, ?_⟩
  intro a ha
  rw [← hv a ha]
  simp only [List.getD_eq_getElem?_getD]
  rw [List.getElem?_set_ne (by omega)]

theorem getD_set_eq (st : Store) (z : Nat) (v : Int) (hz : z < st.length) :
    (st.set z v).getD z 0 = v := by
  simp [List.getD_eq_getElem?_getD, hz]

theorem getD_set_ne (st : Store) (z a : Nat) (v : Int) (h : z ≠ a) :
    (st.set z v).getD a 0 = st.getD a 0 := by
  simp only [List.getD_eq_getElem?_getD]
  rw [List.getElem?_set_ne h]

theorem addAt_of_lt (st : Store) (z a : Nat) (ha : a < st.length) :
    addAt st z a = some (st.set z (st.getD z 0 + st.getD a 0)) := by
  simp [addAt, List.get?_eq_getElem?, List.getElem?_eq_getElem ha, List.getD_eq_getElem?_getD]

/-- The accumulation loop on the store computes the sum of the value-level
loop into the accumulator and touches nothing else. -/
theorem sumLoopRef_eq (st0 : Store) (f : Nat → Option Nat) (z : Nat) (ks : List Nat)
    (st : Store) (hext : Extends st0 st) (hz : st0.length ≤ z) (hzl : z < st.length)
    (hf : ∀ k a, f k = some a → a < st0.length) :
    sumLoopRef f z ks st =
      (sumLoop (fun k => (f k).map (fun a => st0.getD a 0)) ks (st.getD z 0)).map
        (fun t => st.set z t) := by
  induction ks generalizing st with
  | nil =>
    simp only [sumLoopRef, sumLoop, Option.map_some']
    congr 1
    apply List.ext_getElem?
    intro a
    by_cases hza : z = a
    · subst hza
      simp [List.getD_eq_getElem?_getD, hzl]
    · rw [List.getElem?_set_ne hza]
  | cons k ks ih =>
    cases hk : f k with
    | none => simp [sumLoopRef, sumLoop, hk]
    | some a =>
      have ha := hf k a hk
      have hal : a < st.length := by have := hext.1; omega
      have hva : st.getD a 0 = st0.getD a 0 := hext.2 a ha
      simp only [sumLoopRef, sumLoop, hk, Option.map_some', addAt_of_lt st z a hal]
      rw [ih (st.set z (st.getD z 0 + st.getD a 0)) (extends_set st0 st z _ hext hz)
        (by rw [List.length_set]; exact hzl), getD_set_eq st z _ hzl, hva]
      congr 1
      funext t
      exact List.set_set _ _ _ _

theorem rowLoopRef_eq (st0 : Store) (sq : RefGrid) (hv : ValidRefs st0 sq) (i0 n : Nat)
    (z : Nat) (st : Store) (hext : Extends st0 st) (hz : st0.length ≤ z) (hzl : z < st.length) :
    sumLoopRef (fun j => cellRef sq i0 j) z (List.range n) st =
      (sumLoop (fun j => cell (derefGrid st0 sq) i0 j) (List.range n) (st.getD z 0)).map
        (fun t => st.set z t) := by
  rw [sumLoopRef_eq st0 _ z _ st hext hz hzl
    (fun k a h => cellRef_valid st0 sq hv _ _ a h)]
  congr 1
  congr 1
  funext j
  exact (cell_derefGrid st0 sq i0 j).symm

/-- The row check on the store returns what the check on the values
returns, and leaves the objects of the original store and `sum` as they
were. -/
theorem checkRowsRef_eq (st0 : Store) (sq : RefGrid) (hv : ValidRefs st0 sq) (n sum tempSum : Nat)
    (is : List Nat) (st : Store) (hext : Extends st0 st) (_hs : st0.length ≤ sum)
    (hsl : sum < st.length) (ht : st0.length ≤ tempSum) (htl : tempSum < st.length)
    (hne : sum ≠ tempSum) :
    (checkRows (derefGrid st0 sq) n (st.getD sum 0) is = none →
      checkRowsRef sq n sum tempSum is st = none) ∧
    (∀ b, checkRows (derefGrid st0 sq) n (st.getD sum 0) is = some b →
      ∃ st', checkRowsRef sq n sum tempSum is st = some (b, st') ∧ Extends st0 st' ∧
        st'.length = st.length ∧ st'.getD sum 0 = st.getD sum 0) := by
  induction is generalizing st with
  | nil =>
    refine ⟨fun h => (by cases h), ?_⟩
    intro b h
    simp only [checkRows] at h
    cases h
    exact ⟨st, rfl, hext, rfl, rfl⟩
  | cons K0 ks ih =>
    have hloop := rowLoopRef_eq st0 sq hv K0 n tempSum (st.set tempSum 0)
      (extends_set st0 st tempSum 0 hext ht) ht (by rw [List.length_set]; exact htl)
    rw [getD_set_eq st tempSum 0 htl] at hloop
    simp only [checkRows, checkRowsRef, hloop]
    cases hsum : sumLoop (fun j => cell (derefGrid st0 sq) K0 j) (List.range n) 0 with
    | none =>
      simp only [Option.map_none']
      refine ⟨?_, ?_⟩
      · intro _
        first | rfl | trivial
      · intro b h
        cases h
    | some t =>
      simp only [Option.map_some', List.set_set]
      have hlen : (st.set tempSum t).length = st.length := List.length_set _ _ _
      have hget : (st.set tempSum t).getD tempSum 0 = t := getD_set_eq st tempSum t htl
      have hsumv : (st.set tempSum t).getD sum 0 = st.getD sum 0 :=
        getD_set_ne st tempSum sum t (fun e => hne e.symm)
      have hext' : Extends st0 (st.set tempSum t) := extends_set st0 st tempSum t hext ht
      rw [hget, hsumv]
      by_cases hcmp : t = st.getD sum 0
      · simp only [hcmp, ne_eq, not_true_eq_false, if_false]
        obtain ⟨h1, h2⟩ := ih (st.set tempSum (st.getD sum 0))
          (by rw [← hcmp]; exact hext') (by rw [List.length_set]; exact hsl)
          (by rw [List.length_set]; exact htl)
        rw [getD_set_ne st tempSum sum _ (fun e => hne e.symm)] at h1 h2
        refine ⟨h1, ?_⟩
        intro b hb
        obtain ⟨st', e1, e2, e3, e4⟩ := h2 b hb
        refine ⟨st', e1, e2, ?_, ?_⟩
        · rw [e3, List.length_set]
        · rw [e4]
      · simp only [ne_eq, hcmp, not_false_eq_true, if_true]
        refine ⟨fun h => (by cases h), ?_⟩
        intro b hb
        cases hb
        exact ⟨_, rfl, hext', hlen, hsumv⟩

theorem colLoopRef_eq (st0 : Store) (sq : RefGrid) (hv : ValidRefs st0 sq) (j0 n : Nat)
    (z : Nat) (st : Store) (hext : Extends st0 st) (hz : st0.length ≤ z) (hzl : z < st.length) :
    sumLoopRef (fun i => cellRef sq i j0) z (List.range n) st =
      (sumLoop (fun i => cell (derefGrid st0 sq) i j0) (List.range n) (st.getD z 0)).map
        (fun t => st.set z t) := by
  rw [sumLoopRef_eq st0 _ z _ st hext hz hzl
    (fun k a h => cellRef_valid st0 sq hv _ _ a h)]
  congr 1
  congr 1
  funext i
  exact (cell_derefGrid st0 sq i j0).symm

/-- The column check on the store returns what the check on the values
returns, and leaves the objects of the original store and `sum` as they
were. -/
theorem checkColsRef_eq (st0 : Store) (sq : RefGrid) (hv : ValidRefs st0 sq) (n sum tempSum : Nat)
    (is : List Nat) (st : Store) (hext : Extends st0 st) (_hs : st0.length ≤ sum)
    (hsl : sum < st.length) (ht : st0.length ≤ tempSum) (htl : tempSum < st.length)
    (hne : sum ≠ tempSum) :
    (checkCols (derefGrid st0 sq) n (st.getD sum 0) is = none →
      checkColsRef sq n sum tempSum is st = none) ∧
    (∀ b, checkCols (derefGrid st0 sq) n (st.getD sum 0) is = some b →
      ∃ st', checkColsRef sq n sum tempSum is st = some (b, st') ∧ Extends st0 st' ∧
        st'.length = st.length ∧ st'.getD sum 0 = st.getD sum 0) := by
  induction is generalizing st with
  | nil =>
    refine ⟨fun h => (by cases h), ?_⟩
    intro b h
    simp only [checkCols] at h
    cases h
    exact ⟨st, rfl, hext, rfl, rfl⟩
  | cons K0 ks ih =>
    have hloop := colLoopRef_eq st0 sq hv K0 n tempSum (st.set tempSum 0)
      (extends_set st0 st tempSum 0 hext ht) ht (by rw [List.length_set]; exact htl)
    rw [getD_set_eq st tempSum 0 htl] at hloop
    simp only [checkCols, checkColsRef, hloop]
    cases hsum : sumLoop (fun i => cell (derefGrid st0 sq) i K0) (List.range n) 0 with
    | none =>
      simp only [Option.map_none']
      refine ⟨?_, ?_⟩
      · intro _
        first | rfl | trivial
      · intro b h
        cases h
    | some t =>
      simp only [Option.map_some', List.set_set]
      have hlen : (st.set tempSum t).length = st.length := List.length_set _ _ _
      have hget : (st.set tempSum t).getD tempSum 0 = t := getD_set_eq st tempSum t htl
      have hsumv : (st.set tempSum t).getD sum 0 = st.getD sum 0 :=
        getD_set_ne st tempSum sum t (fun e => hne e.symm)
      have hext' : Extends st0 (st.set tempSum t) := extends_set st0 st tempSum t hext ht
      rw [hget, hsumv]
      by_cases hcmp : t = st.getD sum 0
      · simp only [hcmp, ne_eq, not_true_eq_false, if_false]
        obtain ⟨h1, h2⟩ := ih (st.set tempSum (st.getD sum 0))
          (by rw [← hcmp]; exact hext') (by rw [List.length_set]; exact hsl)
          (by rw [List.length_set]; exact htl)
        rw [getD_set_ne st tempSum sum _ (fun e => hne e.symm)] at h1 h2
        refine ⟨h1, ?_⟩
        intro b hb
        obtain ⟨st', e1, e2, e3, e4⟩ := h2 b hb
        refine ⟨st', e1, e2, ?_, ?_⟩
        · rw [e3, List.length_set]
        · rw [e4]
      · simp only [ne_eq, hcmp, not_false_eq_true, if_true]
        refine ⟨fun h => (by cases h), ?_⟩
        intro b hb
        cases hb
        exact ⟨_, rfl, hext', hlen, hsumv⟩

theorem getD_newInt (st : Store) (a : Nat) : (newInt st).2.getD a 0 = st.getD a 0 := by
  simp only [newInt, List.getD_eq_getElem?_getD]
  by_cases h : a < st.length
  · rw [List.getElem?_append_left h]
  · have hle : st.length ≤ a := Nat.le_of_not_lt h
    rw [List.getElem?_append_right hle, List.getElem?_eq_none hle]
    cases hk : a - st.length with
    | zero => rfl
    | succ k => rfl

theorem length_newInt (st : Store) : (newInt st).2.length = st.length + 1 := by
  simp [newInt]

/-- The diagonal loop on the store computes the two sums of the value-level
loop into its accumulators and touches nothing else. -/
theorem diagLoopRef_eq (st0 : Store) (sq : RefGrid) (hv : ValidRefs st0 sq) (size : Int)
    (m an : Nat) (is : List Nat) (st : Store) (hext : Extends st0 st)
    (hm : st0.length ≤ m) (hml : m < st.length) (ha : st0.length ≤ an) (hal : an < st.length)
    (hne : m ≠ an) :
    (diagLoop (derefGrid st0 sq) size is (st.getD m 0, st.getD an 0) = none →
      diagLoopRef sq size m an is st = none) ∧
    (∀ p, diagLoop (derefGrid st0 sq) size is (st.getD m 0, st.getD an 0) = some p →
      ∃ st', diagLoopRef sq size m an is st = some st' ∧ Extends st0 st' ∧
        st'.length = st.length ∧ st'.getD m 0 = p.1 ∧ st'.getD an 0 = p.2 ∧
        ∀ a, a ≠ m → a ≠ an → st'.getD a 0 = st.getD a 0) := by
  induction is generalizing st with
  | nil =>
    refine ⟨fun h => (by cases h), ?_⟩
    intro p h
    simp only [diagLoop] at h
    cases h
    exact ⟨st, rfl, hext, rfl, rfl, rfl, fun _ _ _ => rfl⟩
  | cons i is ih =>
    simp only [diagLoop, diagLoopRef, cell_derefGrid]
    cases h1 : cellRef sq i (i : Int) with
    | none =>
      simp only [Option.map_none']
      refine ⟨?_, ?_⟩
      · intro _
        first | rfl | trivial
      · intro p h
        cases h
    | some a =>
      have hval := cellRef_valid st0 sq hv _ _ a h1
      have hal' : a < st.length := by have := hext.1; omega
      simp only [Option.map_some', addAt_of_lt st m a hal', hext.2 a hval]
      cases h2 : cellRef sq i (size - (i : Int) - 1) with
      | none =>
        simp only [Option.map_none']
        refine ⟨?_, ?_⟩
        · intro _
          first | rfl | trivial
        · intro p h
          cases h
      | some b =>
        have hvalb := cellRef_valid st0 sq hv _ _ b h2
        have hext1 : Extends st0 (st.set m (st.getD m 0 + st0.getD a 0)) :=
          extends_set st0 st m _ hext hm
        have hbl : b < (st.set m (st.getD m 0 + st0.getD a 0)).length := by
          have := hext1.1; omega
        simp only [Option.map_some', addAt_of_lt _ an b hbl, hext1.2 b hvalb,
          getD_set_ne st m an _ hne]
        have hext2 : Extends st0
            ((st.set m (st.getD m 0 + st0.getD a 0)).set an (st.getD an 0 + st0.getD b 0)) :=
          extends_set st0 _ an _ hext1 ha
        obtain ⟨e1, e2⟩ := ih
          ((st.set m (st.getD m 0 + st0.getD a 0)).set an (st.getD an 0 + st0.getD b 0))
          hext2 (by simp only [List.length_set]; exact hml)
          (by simp only [List.length_set]; exact hal)
        have hgm : ((st.set m (st.getD m 0 + st0.getD a 0)).set an
            (st.getD an 0 + st0.getD b 0)).getD m 0 = st.getD m 0 + st0.getD a 0 := by
          rw [getD_set_ne _ an m _ (fun e => hne e.symm), getD_set_eq st m _ hml]
        have hga : ((st.set m (st.getD m 0 + st0.getD a 0)).set an
            (st.getD an 0 + st0.getD b 0)).getD an 0 = st.getD an 0 + st0.getD b 0 := by
          rw [getD_set_eq _ an _ (by simp only [List.length_set]; exact hal)]
        rw [hgm, hga] at e1 e2
        refine ⟨e1, ?_⟩
        intro p hp
        obtain ⟨st', f1, f2, f3, f4, f5, f6⟩ := e2 p hp
        refine ⟨st', f1, f2, ?_, f4, f5, ?_⟩
        · rw [f3]; simp only [List.length_set]
        · intro c hc1 hc2
          rw [f6 c hc1 hc2, getD_set_ne _ an c _ (fun e => hc2 e.symm),
            getD_set_ne _ m c _ (fun e => hc1 e.symm)]

theorem getD_length (st : Store) : st.getD st.length 0 = 0 := by
  simp [List.getD_eq_getElem?_getD]

theorem getD_length_succ (st : Store) : st.getD (st.length + 1) 0 = 0 := by
  rw [List.getD_eq_getElem?_getD, List.getElem?_eq_none (by omega)]
  rfl

/-- The verifier on the store returns what the verifier on the values of the
cells returns, and the store it leaves holds every object of the store it was
given, unchanged. -/
theorem IsMagicRef_spec (ms : RefSquare) (st : Store) (hv : ValidRefs st ms.square) :
    (IsMagic (valueOf st ms) = none → IsMagicRef ms st = none) ∧
    (∀ b, IsMagic (valueOf st ms) = some b →
      ∃ st', IsMagicRef ms st = some (b, st') ∧ Extends st st') := by
  unfold IsMagic IsMagicRef
  simp only [valueOf]
  by_cases h0 : ms.size = 0
  · simp only [h0, if_true]
    refine ⟨fun h => (by cases h), ?_⟩
    intro b hb
    cases hb
    exact ⟨st, rfl, extends_refl st⟩
  · simp only [h0, if_false]
    have hs1 : Extends st (newInt st).2 := extends_newInt st st (extends_refl st)
    have hs2 : Extends st (newInt (newInt st).2).2 := extends_newInt st _ hs1
    have hl2 : (newInt (newInt st).2).2.length = st.length + 2 := by
      rw [length_newInt, length_newInt]
    have hsum : (newInt st).1 = st.length := rfl
    have htmp : (newInt (newInt st).2).1 = st.length + 1 := by
      simp only [newInt, List.length_append, List.length_singleton]
    rw [hsum, htmp]
    have hloop := rowLoopRef_eq st ms.square hv 0 ms.size.toNat st.length
      (newInt (newInt st).2).2 hs2 (le_refl _) (by omega)
    rw [getD_newInt, getD_newInt, getD_length] at hloop
    rw [hloop]
    cases hS : sumLoop (fun j => cell (derefGrid st ms.square) 0 j)
        (List.range ms.size.toNat) 0 with
    | none =>
      simp only [Option.map_none']
      refine ⟨?_, ?_⟩
      · intro _
        first | rfl | trivial
      · intro b h
        cases h
    | some S =>
      simp only [Option.map_some']
      have hext3 : Extends st ((newInt (newInt st).2).2.set st.length S) :=
        extends_set st _ _ _ hs2 (le_refl _)
      have hl3 : ((newInt (newInt st).2).2.set st.length S).length = st.length + 2 := by
        rw [List.length_set, hl2]
      have hS3 : ((newInt (newInt st).2).2.set st.length S).getD st.length 0 = S :=
        getD_set_eq _ _ _ (by omega)
      obtain ⟨r1, r2⟩ := checkRowsRef_eq st ms.square hv ms.size.toNat st.length
        (st.length + 1) (List.range' 1 (ms.size.toNat - 1))
        ((newInt (newInt st).2).2.set st.length S) hext3 (le_refl _) (by omega) (by omega)
        (by omega) (by omega)
      rw [hS3] at r1 r2
      cases hR : checkRows (derefGrid st ms.square) ms.size.toNat S
          (List.range' 1 (ms.size.toNat - 1)) with
      | none =>
        rw [r1 hR]
        refine ⟨?_, ?_⟩
        · intro _
          rfl
        · intro b h
          cases h
      | some bR =>
        obtain ⟨st4, e4, hext4, hl4, hS4⟩ := r2 bR hR
        rw [e4]
        cases bR with
        | false =>
          refine ⟨fun h => (by cases h), ?_⟩
          intro b hb
          cases hb
          exact ⟨st4, rfl, hext4⟩
        | true =>
          simp only
          obtain ⟨c1, c2⟩ := checkColsRef_eq st ms.square hv ms.size.toNat st.length
            (st.length + 1) (List.range ms.size.toNat) st4 hext4 (le_refl _) (by omega)
            (by omega) (by omega) (by omega)
          rw [hS4] at c1 c2
          cases hC : checkCols (derefGrid st ms.square) ms.size.toNat S
              (List.range ms.size.toNat) with
          | none =>
            rw [c1 hC]
            refine ⟨?_, ?_⟩
            · intro _
              rfl
            · intro b h
              cases h
          | some bC =>
            obtain ⟨st5, e5, hext5, hl5, hS5⟩ := c2 bC hC
            rw [e5]
            cases bC with
            | false =>
              refine ⟨fun h => (by cases h), ?_⟩
              intro b hb
              cases hb
              exact ⟨st5, rfl, hext5⟩
            | true =>
              simp only
              have hl5' : st5.length = st.length + 2 := by rw [hl5, hl4, hl3]
              have hext6 : Extends st (newInt st5).2 := extends_newInt st _ hext5
              have hext7 : Extends st (newInt (newInt st5).2).2 := extends_newInt st _ hext6
              have hm : (newInt st5).1 = st.length + 2 := hl5'
              have han : (newInt (newInt st5).2).1 = st.length + 3 := by
                show (newInt st5).2.length = st.length + 3
                rw [length_newInt, hl5']
              have hl7 : (newInt (newInt st5).2).2.length = st.length + 4 := by
                rw [length_newInt, length_newInt, hl5']
              rw [hm, han]
              obtain ⟨d1, d2⟩ := diagLoopRef_eq st ms.square hv ms.size (st.length + 2)
                (st.length + 3) (List.range ms.size.toNat) (newInt (newInt st5).2).2 hext7
                (by omega) (by omega) (by omega) (by omega) (by omega)
              have hz1 : (newInt (newInt st5).2).2.getD (st.length + 2) 0 = 0 := by
                rw [getD_newInt, getD_newInt, ← hl5']
                exact getD_length st5
              have hz2 : (newInt (newInt st5).2).2.getD (st.length + 3) 0 = 0 := by
                rw [getD_newInt, getD_newInt]
                have : st.length + 3 = st5.length + 1 := by omega
                rw [this]
                exact getD_length_succ st5
              rw [hz1, hz2] at d1 d2
              cases hD : diagLoop (derefGrid st ms.square) ms.size (List.range ms.size.toNat)
                  (0, 0) with
              | none =>
                rw [d1 hD]
                refine ⟨?_, ?_⟩
                · intro _
                  rfl
                · intro b h
                  cases h
              | some p =>
                obtain ⟨st8, e8, hext8, _, hm8, ha8, hfr⟩ := d2 p hD
                rw [e8]
                have hS8 : st8.getD st.length 0 = S := by
                  rw [hfr st.length (by omega) (by omega), getD_newInt, getD_newInt, hS5]
                obtain ⟨p1, p2⟩ := p
                simp only at hm8 ha8
                simp only [hm8, ha8, hS8]
                refine ⟨fun h => (by cases h), ?_⟩
                intro b hb
                cases hb
                exact ⟨st8, rfl, hext8⟩

theorem derefGrid_extends (st st' : Store) (sq : RefGrid) (hv : ValidRefs st sq)
    (hext : Extends st st') : derefGrid st' sq = derefGrid st sq := by
  unfold derefGrid
  apply List.map_congr_left
  intro row hrow
  apply List.map_congr_left
  intro a ha
  exact hext.2 a (hv row hrow a ha)

theorem validRefs_extends (st st' : Store) (sq : RefGrid) (hv : ValidRefs st sq)
    (hext : Extends st st') : ValidRefs st' sq := by
  intro row hrow a ha
  have := hv row hrow a ha
  have := hext.1
  omega

/-! ## The claim on the purity of the verifier -/

/-- C14: `IsMagic` is a pure function of the grid.  When a call on a square
whose cells are objects of the store returns `b`, the store it leaves holds
every object of the store it was given, unchanged, so that every cell value is
as before (the size, the uniqueness flag and the power are fields the method
never assigns); `b` is the result of the verifier on the values of the cells;
and a second call, on the store left by the first, returns `b` again and
leaves the cell values as they were.  The call returns whenever the verifier
on the values returns. -/
theorem IsMagicRef_pure (ms : RefSquare) (st : Store) (hv : ValidRefs st ms.square) :
    (∀ (b : Bool) (st' : Store), IsMagicRef ms st = some (b, st') →
      Extends st st' ∧ valueOf st' ms = valueOf st ms ∧ IsMagic (valueOf st ms) = some b ∧
      ∃ st'' : Store, IsMagicRef ms st' = some (b, st'') ∧ valueOf st'' ms = valueOf st ms) ∧
    (∀ b : Bool, IsMagic (valueOf st ms) = some b →
      ∃ st' : Store, IsMagicRef ms st = some (b, st')) := by
  obtain ⟨hnone, hsome⟩ := IsMagicRef_spec ms st hv
  constructor
  · intro b st' hrun
    cases hval : IsMagic (valueOf st ms) with
    | none =>
      rw [hnone hval] at hrun
      cases hrun
    | some b0 =>
      obtain ⟨st0, h1, hext⟩ := hsome b0 hval
      rw [h1] at hrun
      cases hrun
      have hsame : valueOf st' ms = valueOf st ms := by
        unfold valueOf
        rw [derefGrid_extends st st' ms.square hv hext]
      have hv' := validRefs_extends st st' ms.square hv hext
      obtain ⟨_, hsome'⟩ := IsMagicRef_spec ms st' hv'
      rw [hsame] at hsome'
      obtain ⟨st'', h2, hext'⟩ := hsome' b hval
      refine ⟨hext, hsame, rfl, st'', h2, ?_⟩
      unfold valueOf
      rw [derefGrid_extends st' st'' ms.square hv' hext',
        derefGrid_extends st st' ms.square hv hext]
  · intro b hb
    obtain ⟨st', h1, _⟩ := hsome b hb
    exact ⟨st', h1⟩

/-- C14, at the Lo Shu square in memory: the call returns true and leaves the
nine cells as they were, followed by the four accumulators; the second call
returns true again. -/
theorem IsMagicRef_pure_witness :
    IsMagicRef loShuRef loShuStore =
        some (true, [4, 9, 2, 3, 5, 7, 8, 1, 6, 15, 15, 15, 15]) ∧
      valueOf [4, 9, 2, 3, 5, 7, 8, 1, 6, 15, 15, 15, 15] loShuRef = loShu ∧
      ∃ st'' : Store,
        IsMagicRef loShuRef [4, 9, 2, 3, 5, 7, 8, 1, 6, 15, 15, 15, 15] = some (true, st'') := by
  have h : IsMagicRef loShuRef loShuStore =
      some (true, [4, 9, 2, 3, 5, 7, 8, 1, 6, 15, 15, 15, 15]) := by decide
  obtain ⟨_, _, _, st'', h2, _⟩ := (IsMagicRef_pure loShuRef loShuStore (by decide)).1 _ _ h
  exact ⟨h, by decide, st'', h2⟩

end MagicSquares
